import Mathlib

/-!
# sentry-event-exporter: row model, CSV renderer and export pipeline

A shallow embedding of `csv.go` and `export.go` (package `export`), followed by
theorems about the embedded functions.

Conventions of the embedding.

* A Go `string` / `[]byte` is a list of bytes (`GoString`).
* A Go pointer `*T` is an `Option T`; `none` is the nil pointer.  A nil slice
  is `none : Option (List T)`, an empty non-nil slice is `some []`.
* A nil-pointer dereference is a run-time panic.  Pure functions that can
  panic return `Option`, `none` being the panic.
* The output sink (`io.Writer`) is an explicit state (`Writer`) threaded
  through the renderer; a Go `error` result is an `Option GoError`.
* Loops whose termination is not structural carry a fuel argument; running out
  of fuel is reported as `none` ("the call does not return").
* The remote client is the concrete `*sentry.Client`: its methods dereference
  the slug or the identifier they build the request path from, and panic on a
  nil one, before the request is sent; the requests themselves, and what the
  remote side answers, are parameters.
* A run of the pipeline carries, beside the remote state and the sink, the
  trace of the calls it has made and the number of remote calls that have
  returned an error.
-/

namespace Export

/-! ## Strings -/

/-- A Go string (or byte slice): a finite sequence of bytes. -/
abbrev GoString := List UInt8

/-- The bytes of an ASCII literal. -/
def ascii (s : String) : GoString := s.toList.map (fun c => c.toNat.toUInt8)

/-- The byte `,`. -/
abbrev COMMA : UInt8 := 44
/-- The byte `"`. -/
abbrev DQUOTE : UInt8 := 34
/-- The byte CR. -/
abbrev CR : UInt8 := 13
/-- The byte LF. -/
abbrev LF : UInt8 := 10

/-- Go `strings.Index(s, substr)`: the index of the first occurrence of
`substr` in `s`; `none` stands for the result `-1`.  The empty `substr` occurs
at index 0 of every string. -/
def Index : GoString → GoString → Option Nat
  | [], sub => if sub = [] then some 0 else none
  | b :: s, sub =>
    if sub.isPrefixOf (b :: s) then some 0
    else (Index s sub).map (· + 1)

/-! ## UTF-8 (package `unicode/utf8`) and rune searches (package `strings`)

Runes are natural numbers. -/

/-- Go `utf8.RuneError`, the rune U+FFFD. -/
def RuneError : Nat := 0xFFFD

/-- Go `utf8.DecodeRuneInString(s)`: the first rune of `s` and its width in
bytes.  An invalid or truncated encoding gives `(RuneError, 1)`, the empty
string `(RuneError, 0)`.  The second byte must lie in the range that the
first byte accepts (which excludes overlong forms, surrogates and runes above
U+10FFFF), the later bytes in `80..BF`.  A `for range` loop over a string
decodes in the same way. -/
def DecodeRuneInString (s : GoString) : Nat × Nat :=
  match s with
  | [] => (RuneError, 0)
  | s0 :: t =>
    if s0.toNat < 0x80 then (s0.toNat, 1)
    else if s0.toNat < 0xC2 ∨ 0xF4 < s0.toNat then (RuneError, 1)
    else
      match t with
      | [] => (RuneError, 1)
      | s1 :: t1 =>
        if s1.toNat < (if s0.toNat = 0xE0 then 0xA0 else if s0.toNat = 0xF0 then 0x90 else 0x80)
            ∨ (if s0.toNat = 0xED then 0x9F else if s0.toNat = 0xF4 then 0x8F else 0xBF)
              < s1.toNat then
          (RuneError, 1)
        else if s0.toNat < 0xE0 then ((s0.toNat - 0xC0) * 64 + (s1.toNat - 0x80), 2)
        else
          match t1 with
          | [] => (RuneError, 1)
          | s2 :: t2 =>
            if s2.toNat < 0x80 ∨ 0xBF < s2.toNat then (RuneError, 1)
            else if s0.toNat < 0xF0 then
              ((s0.toNat - 0xE0) * 4096 + (s1.toNat - 0x80) * 64 + (s2.toNat - 0x80), 3)
            else
              match t2 with
              | [] => (RuneError, 1)
              | s3 :: _ =>
                if s3.toNat < 0x80 ∨ 0xBF < s3.toNat then (RuneError, 1)
                else
                  ((s0.toNat - 0xF0) * 262144 + (s1.toNat - 0x80) * 4096
                    + (s2.toNat - 0x80) * 64 + (s3.toNat - 0x80), 4)

/-- The runes that `for _, c := range s` yields, decoding at most `fuel`
runes. -/
def runesFrom : Nat → GoString → List Nat
  | 0, _ => []
  | _ + 1, [] => []
  | fuel + 1, b :: t =>
    (DecodeRuneInString (b :: t)).1
      :: runesFrom fuel ((b :: t).drop (DecodeRuneInString (b :: t)).2)

/-- The runes that `for _, c := range s` yields (every rune takes at least one
byte, so `len(s)` rounds decode the whole string). -/
def runes (s : GoString) : List Nat := runesFrom s.length s

/-- Go `utf8.ValidRune(r)`: not a surrogate and at most U+10FFFF. -/
def ValidRune (r : Nat) : Bool := r < 0xD800 || (0xDFFF < r && r ≤ 0x10FFFF)

/-- Go `string(r)` for a valid rune `r`: its UTF-8 encoding. -/
def EncodeRune (r : Nat) : GoString :=
  if r < 0x80 then [r.toUInt8]
  else if r < 0x800 then [(0xC0 + r / 64).toUInt8, (0x80 + r % 64).toUInt8]
  else if r < 0x10000 then
    [(0xE0 + r / 4096).toUInt8, (0x80 + r / 64 % 64).toUInt8, (0x80 + r % 64).toUInt8]
  else
    [(0xF0 + r / 262144).toUInt8, (0x80 + r / 4096 % 64).toUInt8,
     (0x80 + r / 64 % 64).toUInt8, (0x80 + r % 64).toUInt8]

/-- Go `strings.ContainsRune(s, r)`, that is `strings.IndexRune(s, r) >= 0`:
an ASCII rune is searched as a byte, `RuneError` matches any invalid encoding
in `s` (or an encoded U+FFFD), another valid rune is searched by its encoding,
and an invalid rune is never found. -/
def ContainsRune (s : GoString) (r : Nat) : Bool :=
  if r < 0x80 then s.contains r.toUInt8
  else if r = RuneError then (runes s).contains RuneError
  else if ValidRune r then (Index s (EncodeRune r)).isSome
  else false

/-- Go `strings.ContainsAny(s, chars)`, that is `strings.IndexAny(s, chars) >=
0`: some rune of `s` is found in `chars`.  (The library's shortcuts for an
empty or one-byte `chars` and for an ASCII `chars` give the same answer as this
general loop.) -/
def ContainsAny (s chars : GoString) : Bool :=
  (runes s).any (fun c => ContainsRune chars c)

/-- Go slice expression `v[lo:hi]` (for `lo ≤ hi ≤ len v`). -/
def slice (v : GoString) (lo hi : Nat) : GoString := (v.take hi).drop lo

/-! ## Errors and the output sink -/

/-- Go `error` values that the program handles. -/
inductive GoError
  /-- An error returned by a `Write` on the output sink. -/
  | sink
  /-- An error returned by the remote client. -/
  | remote (code : Nat)
  /-- The result of `errors.Wrapf(cause, format, args...)`. -/
  | wrapped (format : String) (args : List GoString) (cause : GoError)
  deriving DecidableEq, Repr

/-- The output sink (`io.Writer`).  `written` is everything the sink has
accepted, `calls` counts the `Write` calls made so far, and `script` fixes how
the sink answers its `k`-th call: `none` accepts the whole buffer, `some n`
accepts at most `n` bytes of it and returns an error. -/
structure Writer where
  written : GoString
  calls : Nat
  script : Nat → Option Nat

/-- The call `w.Write(p)`: the sink afterwards and the error returned. -/
def Writer.Write (w : Writer) (p : GoString) : Writer × Option GoError :=
  match w.script w.calls with
  | none => ({ w with written := w.written ++ p, calls := w.calls + 1 }, none)
  | some n => ({ w with written := w.written ++ p.take n, calls := w.calls + 1 }, some GoError.sink)

/-- A sink that never fails: every `Write` call is answered with success. -/
def Writer.NeverFails (w : Writer) : Prop := ∀ k, w.script k = none

/-- An empty sink that never fails. -/
def Writer.fresh : Writer := ⟨[], 0, fun _ => none⟩

/-! ## Time -/

/-- Go `time.Time`, reduced to what the program observes: seconds and
nanoseconds since January 1, year 1 00:00:00 UTC, and a location. -/
structure Time where
  sec : Int
  nsec : Nat
  loc : Option Nat
  deriving DecidableEq, Repr

/-- The zero value `time.Time{}`. -/
def Time.zero : Time := ⟨0, 0, none⟩

/-- Go `t.IsZero()`. -/
def Time.IsZero (t : Time) : Bool := t.sec == 0 && t.nsec == 0

/-! ## Remote domain objects (package `sentry`), as far as the program reads them -/

structure InternalUser where
  Username : Option GoString
  deriving DecidableEq

structure Organization where
  Slug : Option GoString
  deriving DecidableEq

structure Project where
  Slug : Option GoString
  Name : GoString
  deriving DecidableEq

structure Release where
  Version : GoString
  deriving DecidableEq

structure Issue where
  AssignedTo : Option InternalUser
  Count : Option GoString
  Culprit : Option GoString
  FirstSeen : Option Time
  ID : Option GoString
  LastSeen : Option Time
  Level : Option GoString
  Logger : Option GoString
  Permalink : Option GoString
  Project : Option Project
  ShareID : Option GoString
  ShortID : Option GoString
  Status : Option GoString
  Title : Option GoString
  /-- The Go field `Type` (a reserved word here). -/
  Typ : Option GoString
  UserCount : Option Int
  UserReportCount : Option Int
  deriving DecidableEq

structure Event where
  EventID : GoString
  /-- The Go field `Type` (a reserved word here). -/
  Typ : Option GoString
  Message : Option GoString
  Release : Option Release
  DateCreated : Option Time
  DateReceived : Option Time
  Platform : Option GoString
  GroupID : Option GoString
  deriving DecidableEq

/-- A pagination cursor of the client (`sentry.Page`). -/
structure Page where
  URL : Nat
  Results : Bool
  deriving DecidableEq

/-- The pair of cursors returned with a page (`sentry.Link`). -/
structure Link where
  Previous : Page
  Next : Page
  deriving DecidableEq

/-! ## export.go: configuration and flat record -/

structure ExporterConfig where
  AuthToken : GoString
  Endpoint : Option GoString
  Organization : GoString
  Project : GoString
  StatsPeriod : Option GoString
  Query : Option GoString
  IncludeEvents : Bool

structure ExporterResult where
  IssueID : GoString
  AssignedTo : GoString
  Count : GoString
  Culprit : GoString
  FirstSeen : Time
  LastSeen : Time
  Level : GoString
  Logger : GoString
  Permalink : GoString
  Project : GoString
  ShareID : GoString
  ShortID : GoString
  Status : GoString
  Title : GoString
  IssueType : GoString
  UserCount : Int
  UserReportCount : Int
  EventID : GoString
  EventType : GoString
  Release : GoString
  Message : GoString
  EventCreated : Time
  EventReceived : Time
  Platform : GoString
  GroupID : GoString
  deriving DecidableEq

/-- A dynamically typed field value (`reflect.Value`), by the cases of the type
switch in `RenderValue`. -/
inductive Value
  | string (s : GoString)
  | time (t : Time)
  | int (n : Int)
  | other
  deriving DecidableEq

/-- The field names of `ExporterResult` in declaration order
(`reflect.TypeOf(ExporterResult{}).Field(i).Name`). -/
def ExporterResult.fieldNames : List GoString :=
  [ascii "IssueID", ascii "AssignedTo", ascii "Count", ascii "Culprit",
   ascii "FirstSeen", ascii "LastSeen", ascii "Level", ascii "Logger",
   ascii "Permalink", ascii "Project", ascii "ShareID", ascii "ShortID",
   ascii "Status", ascii "Title", ascii "IssueType", ascii "UserCount",
   ascii "UserReportCount", ascii "EventID", ascii "EventType", ascii "Release",
   ascii "Message", ascii "EventCreated", ascii "EventReceived", ascii "Platform",
   ascii "GroupID"]

/-- The field values of a record in declaration order
(`reflect.ValueOf(result).Elem().Field(i)`). -/
def ExporterResult.fields (r : ExporterResult) : List Value :=
  [.string r.IssueID, .string r.AssignedTo, .string r.Count, .string r.Culprit,
   .time r.FirstSeen, .time r.LastSeen, .string r.Level, .string r.Logger,
   .string r.Permalink, .string r.Project, .string r.ShareID, .string r.ShortID,
   .string r.Status, .string r.Title, .string r.IssueType, .int r.UserCount,
   .int r.UserReportCount, .string r.EventID, .string r.EventType, .string r.Release,
   .string r.Message, .time r.EventCreated, .time r.EventReceived, .string r.Platform,
   .string r.GroupID]

/-! ## csv.go -/

/-- The render format held by a `CSVRenderer`.  The `Out` field of the Go
struct is the `Writer` threaded through the render functions. -/
structure CSVRenderer where
  FieldSeparator : GoString
  RecordSeparator : GoString
  QuoteCharacter : GoString
  QuoteCharacterStr : GoString
  CharsNeedToBeQuoted : GoString
  deriving DecidableEq

def NewCSVRenderer (fieldSeparator recordSeparator quoteCharacter : GoString) : CSVRenderer :=
  { FieldSeparator := fieldSeparator
    RecordSeparator := recordSeparator
    QuoteCharacter := quoteCharacter
    QuoteCharacterStr := quoteCharacter
    CharsNeedToBeQuoted := fieldSeparator ++ recordSeparator ++ quoteCharacter }

def NewExcelCSVRenderer : CSVRenderer :=
  NewCSVRenderer [COMMA] [CR, LF] [DQUOTE]

/-- Go `strconv.Itoa`: the base-10 text of an integer. -/
def Itoa (n : Int) : GoString :=
  let digits : GoString := (Nat.toDigits 10 n.natAbs).map (fun c => c.toNat.toUInt8)
  if n < 0 then 45 :: digits else digits

/-- Go `CSVRenderer.RenderValue`.  `fmt` is `time.Time.Format(time.RFC3339)`, a
library function taken as a parameter. -/
def RenderValue (fmt : Time → GoString) : Value → GoString
  | .string v => v
  | .time v => if v.IsZero then [] else fmt v
  | .int v => Itoa v
  | .other => ascii "N/A"

/-- The scanning loop of `CSVRenderer.Quote`, from the state `(j, b)`; the
result is the state at loop exit. -/
def quoteLoop (r : CSVRenderer) (v : GoString) : Nat → Nat → GoString → Option (Nat × GoString)
  | 0, _, _ => none
  | fuel + 1, j, b =>
    if j < v.length then
      match Index (v.drop j) r.QuoteCharacterStr with
      | none => some (j, b)
      | some i =>
        quoteLoop r v fuel (j + i + r.QuoteCharacterStr.length)
          (b ++ slice v j (j + i) ++ r.QuoteCharacter ++ r.QuoteCharacter)
    else some (j, b)

/-- Go `CSVRenderer.Quote`.  The loop is given `len(v) + 1` rounds: that is
enough whenever the quote character is not empty (`quoteLoop_isSome`), and with
an empty quote character no number of rounds is (`quoteLoop_empty_quote`).
`none` means that the call does not return. -/
def CSVRenderer.Quote (r : CSVRenderer) (v : GoString) : Option GoString :=
  if ContainsAny v r.CharsNeedToBeQuoted then
    (quoteLoop r v (v.length + 1) 0 r.QuoteCharacter).map
      (fun jb => jb.2 ++ v.drop jb.1 ++ r.QuoteCharacter)
  else some v

/-- The field loop of `RenderHeader`, from index `i` with the names `names`
still to write. -/
def renderHeaderFrom (r : CSVRenderer) : Nat → List GoString → Writer → Writer × Option GoError
  | _, [], w => (w, none)
  | i, name :: rest, w =>
    match (if i > 0 then w.Write r.FieldSeparator else (w, none)) with
    | (w1, some e) => (w1, some e)
    | (w1, none) =>
      match w1.Write name with
      | (w2, some e) => (w2, some e)
      | (w2, none) => renderHeaderFrom r (i + 1) rest w2

/-- Go `CSVRenderer.RenderHeader`. -/
def CSVRenderer.RenderHeader (r : CSVRenderer) (w : Writer) : Writer × Option GoError :=
  match renderHeaderFrom r 0 ExporterResult.fieldNames w with
  | (w1, some e) => (w1, some e)
  | (w1, none) => w1.Write r.RecordSeparator

/-- The field loop of `RenderOne`, from index `i` with the values `vals` still
to write. -/
def renderOneFrom (fmt : Time → GoString) (r : CSVRenderer) :
    Nat → List Value → Writer → Option (Writer × Option GoError)
  | _, [], w => some (w, none)
  | i, v :: rest, w =>
    match (if i > 0 then w.Write r.FieldSeparator else (w, none)) with
    | (w1, some e) => some (w1, some e)
    | (w1, none) =>
      match r.Quote (RenderValue fmt v) with
      | none => none
      | some q =>
        match w1.Write q with
        | (w2, some e) => some (w2, some e)
        | (w2, none) => renderOneFrom fmt r (i + 1) rest w2

/-- Go `CSVRenderer.RenderOne`. -/
def CSVRenderer.RenderOne (fmt : Time → GoString) (r : CSVRenderer) (result : ExporterResult)
    (w : Writer) : Option (Writer × Option GoError) :=
  match renderOneFrom fmt r 0 result.fields w with
  | none => none
  | some (w1, some e) => some (w1, some e)
  | some (w1, none) => some (w1.Write r.RecordSeparator)

/-- Go `CSVRenderer.RenderPartialResults`. -/
def CSVRenderer.RenderPartialResults (fmt : Time → GoString) (r : CSVRenderer) :
    List ExporterResult → Writer → Option (Writer × Option GoError)
  | [], w => some (w, none)
  | res :: rest, w =>
    match r.RenderOne fmt res w with
    | none => none
    | some (w1, some e) => some (w1, some e)
    | some (w1, none) => r.RenderPartialResults fmt rest w1

/-- Go `CSVRenderer.RenderFooter`. -/
def CSVRenderer.RenderFooter (_r : CSVRenderer) (w : Writer) : Writer × Option GoError :=
  (w, none)

/-- Go `CSVRenderer.Fini`. -/
def CSVRenderer.Fini (_r : CSVRenderer) (w : Writer) : Writer := w

/-! ## export.go: the row model

The receiver `*ExporterConfig` of the methods below is not read by any of them
and is left out. -/

def StringizeInternalUser (u : Option InternalUser) : GoString :=
  match u with
  | none => []
  | some u =>
    match u.Username with
    | some name => name
    | none => ascii "(unknown)"

def StringizeProject (p : Option Project) : GoString :=
  match p with
  | none => []
  | some p => p.Name

def StringizeStatus (s : Option GoString) : GoString :=
  match s with
  | none => []
  | some s => s

def StringizeRelease (r : Option Release) : GoString :=
  match r with
  | none => []
  | some r => r.Version

def emptyIfNull (s : Option GoString) : GoString :=
  match s with
  | none => []
  | some s => s

def zeroIfNull (i : Option Int) : Int :=
  match i with
  | none => 0
  | some i => i

/-- Go `PopulateWithEvent(r, event)`: the record `*r` after the call, or `none`
when `*event.DateCreated` dereferences nil. -/
def PopulateWithEvent (r : ExporterResult) (event : Event) : Option ExporterResult :=
  match event.DateCreated with
  | none => none
  | some created =>
    some { r with
      EventID := event.EventID
      EventType := emptyIfNull event.Typ
      Message := emptyIfNull event.Message
      Release := StringizeRelease event.Release
      EventCreated := created
      EventReceived :=
        match event.DateReceived with
        | some received => received
        | none => r.EventReceived
      Platform := emptyIfNull event.Platform
      GroupID := emptyIfNull event.GroupID }

/-- The `for _, event := range events` loop of
`BuildExporterResultsForSingleIssue`, on the slice `results`. -/
def buildLoop : List Event → List ExporterResult → Option (List ExporterResult)
  | [], results => some results
  | event :: rest, results =>
    match results.head? with
    | none => none
    | some r0 =>
      match PopulateWithEvent r0 event with
      | none => none
      | some r => buildLoop rest (results ++ [r])

/-- Go `BuildExporterResultsForSingleIssue(issue, events)`; `none` is a
nil-pointer panic. -/
def BuildExporterResultsForSingleIssue (issue : Issue) (events : Option (List Event)) :
    Option (List ExporterResult) :=
  match issue.FirstSeen, issue.LastSeen with
  | some firstSeen, some lastSeen =>
    let results : List ExporterResult := [
      { AssignedTo := StringizeInternalUser issue.AssignedTo
        Count := emptyIfNull issue.Count
        Culprit := emptyIfNull issue.Culprit
        FirstSeen := firstSeen
        IssueID := emptyIfNull issue.ID
        LastSeen := lastSeen
        Level := emptyIfNull issue.Level
        Logger := emptyIfNull issue.Logger
        Permalink := emptyIfNull issue.Permalink
        Project := StringizeProject issue.Project
        ShareID := emptyIfNull issue.ShareID
        ShortID := emptyIfNull issue.ShortID
        Status := StringizeStatus issue.Status
        Title := emptyIfNull issue.Title
        IssueType := emptyIfNull issue.Typ
        UserCount := zeroIfNull issue.UserCount
        UserReportCount := zeroIfNull issue.UserReportCount
        EventID := []
        EventType := []
        Release := []
        Message := []
        EventCreated := Time.zero
        EventReceived := Time.zero
        Platform := []
        GroupID := [] }]
    match events with
    | none => some results
    | some evs => (buildLoop evs results).map (fun rs => rs.drop 1)
  | _, _ => none

/-! ## export.go: the pipeline -/

/-- What a `GetPage` call decodes into (the type of its `out` argument). -/
inductive PageTarget
  | issues
  | events
  deriving DecidableEq

/-- The calls the pipeline makes on the renderer and on the remote client. -/
inductive Call
  | RenderHeader
  | RenderPartialResults (rows : List ExporterResult)
  | RenderFooter
  | Fini
  | GetOrganization (name : GoString)
  | GetProject (org : Organization) (name : GoString)
  | GetIssues
  | GetIssueEvents (issue : Issue)
  | GetPage (page : Page) (target : PageTarget)
  deriving DecidableEq

/-- How a call of a method of the remote client ends: with the returned
values and a nil error, with an error, or in a run-time panic raised inside
the method. -/
inductive Reply (α : Type)
  | ok (a : α)
  | error (e : GoError)
  | panic

/-- The answer of the remote side to a request, as a `Reply`. -/
def Reply.ofExcept {α : Type} : Except GoError α → Reply α
  | .ok a => .ok a
  | .error e => .error e

/-- The remote client (`*sentry.Client` of the package `sentry`).  The
requests it sends are taken as parameters: each `do...` field maps the state
`σ` of the remote side and what the request path and query are built from to
the new state and either an error or the decoded values.  The methods called
by the pipeline are defined below over these fields. -/
structure Client (σ : Type) where
  /-- The request `organizations/<name>`. -/
  doOrganization : σ → GoString → σ × Except GoError Organization
  /-- The request `projects/<organization slug>/<name>`. -/
  doProject : σ → GoString → GoString → σ × Except GoError Project
  /-- The request `projects/<organization slug>/<project slug>/issues` with the
  statistics period and the query. -/
  doIssues : σ → GoString → GoString → Option GoString → Option GoString →
    σ × Except GoError (List Issue × Option Link)
  /-- The request `issues/<issue id>/events`. -/
  doIssueEvents : σ → GoString → σ × Except GoError (Option (List Event) × Option Link)
  /-- The request for the cursor `page`, decoded into issues. -/
  doPageIssues : σ → Page → σ × Except GoError (List Issue × Option Link)
  /-- The request for the cursor `page`, decoded into events. -/
  doPageEvents : σ → Page → σ × Except GoError (Option (List Event) × Option Link)

/-- The method `Client.GetOrganization(orgslug)`. -/
def Client.GetOrganization {σ : Type} (c : Client σ) (s : σ) (name : GoString) :
    σ × Reply Organization :=
  ((c.doOrganization s name).1, Reply.ofExcept (c.doOrganization s name).2)

/-- The method `Client.GetProject(o, projslug)`: the request path is built from
`*o.Slug`, which panics on a nil slug before any request is sent. -/
def Client.GetProject {σ : Type} (c : Client σ) (s : σ) (o : Organization) (name : GoString) :
    σ × Reply Project :=
  match o.Slug with
  | none => (s, .panic)
  | some slug => ((c.doProject s slug name).1, Reply.ofExcept (c.doProject s slug name).2)

/-- The method `Client.GetIssues(o, p, StatsPeriod, nil, query)`: the request
path is built from `*o.Slug` and `*p.Slug`, which panics on a nil slug before
any request is sent. -/
def Client.GetIssues {σ : Type} (c : Client σ) (s : σ) (o : Organization) (p : Project)
    (statsPeriod query : Option GoString) : σ × Reply (List Issue × Option Link) :=
  match o.Slug, p.Slug with
  | some oslug, some pslug =>
    ((c.doIssues s oslug pslug statsPeriod query).1,
      Reply.ofExcept (c.doIssues s oslug pslug statsPeriod query).2)
  | _, _ => (s, .panic)

/-- The method `Client.GetIssueEvents(i)`: the request path is built from
`*i.ID`, which panics on a nil identifier before any request is sent. -/
def Client.GetIssueEvents {σ : Type} (c : Client σ) (s : σ) (i : Issue) :
    σ × Reply (Option (List Event) × Option Link) :=
  match i.ID with
  | none => (s, .panic)
  | some id => ((c.doIssueEvents s id).1, Reply.ofExcept (c.doIssueEvents s id).2)

/-- The method `Client.GetPage(p, &issues)`. -/
def Client.GetPageIssues {σ : Type} (c : Client σ) (s : σ) (p : Page) :
    σ × Reply (List Issue × Option Link) :=
  ((c.doPageIssues s p).1, Reply.ofExcept (c.doPageIssues s p).2)

/-- The method `Client.GetPage(p, &events)`. -/
def Client.GetPageEvents {σ : Type} (c : Client σ) (s : σ) (p : Page) :
    σ × Reply (Option (List Event) × Option Link) :=
  ((c.doPageEvents s p).1, Reply.ofExcept (c.doPageEvents s p).2)

structure Exporter (σ : Type) where
  config : ExporterConfig
  Renderer : CSVRenderer
  Client : Client σ

/-- The state a run of the pipeline acts on: the remote side, the output sink,
the trace of calls made so far, and the number of calls on the remote client
that have returned an error so far. -/
structure World (σ : Type) where
  svc : σ
  out : Writer
  log : List Call
  failures : Nat

/-- How a call ends: normal return with a nil error, return of an error, or a
run-time panic. -/
inductive Exit
  | ok
  | error (e : GoError)
  | panic
  deriving DecidableEq

/-- A call `exp.Renderer.RenderPartialResults(rows)` made by the pipeline. -/
def renderRows {σ : Type} (fmt : Time → GoString) (exp : Exporter σ) (rows : List ExporterResult)
    (s : World σ) : Option (World σ × Option GoError) :=
  match exp.Renderer.RenderPartialResults fmt rows s.out with
  | none => none
  | some (w, e) => some ({ s with out := w, log := s.log ++ [Call.RenderPartialResults rows] }, e)

/-- The error returned when fetching the events of `issue` failed; evaluating
its argument `*issue.ID` panics on a nil `ID` (which no run reaches here: for
such an issue `Client.GetIssueEvents` has panicked before). -/
def eventsFailure (issue : Issue) (err : GoError) : Exit :=
  match issue.ID with
  | none => Exit.panic
  | some id => Exit.error (.wrapped "failed to retrieve events for issue %s" [id] err)

/-- Build the rows of one page of events of `issue` and render them; the
second component is `none` when the pipeline goes on. -/
def buildAndRender {σ : Type} (fmt : Time → GoString) (exp : Exporter σ) (issue : Issue)
    (events : Option (List Event)) (s : World σ) : Option (World σ × Option Exit) :=
  match BuildExporterResultsForSingleIssue issue events with
  | none => some (s, some Exit.panic)
  | some rows =>
    match renderRows fmt exp rows s with
    | none => none
    | some (s1, some e) => some (s1, some (Exit.error (.wrapped "failed to render results" [] e)))
    | some (s1, none) => some (s1, none)

/-- The loop `for link != nil && link.Next.Results` over the event pages of
`issue` in `RenderIssues`. -/
def eventPageLoop {σ : Type} (fmt : Time → GoString) (exp : Exporter σ) (issue : Issue) :
    Nat → Option Link → World σ → Option (World σ × Exit)
  | 0, _, _ => none
  | fuel + 1, link, s =>
    match link with
    | none => some (s, Exit.ok)
    | some l =>
      if l.Next.Results then
        match exp.Client.GetPageEvents s.svc l.Next with
        | (svc1, .panic) =>
          some ({ s with svc := svc1, log := s.log ++ [Call.GetPage l.Next .events] },
            Exit.panic)
        | (svc1, .error err) =>
          some ({ s with svc := svc1, log := s.log ++ [Call.GetPage l.Next .events],
                         failures := s.failures + 1 },
            eventsFailure issue err)
        | (svc1, .ok (events, nextLink)) =>
          match buildAndRender fmt exp issue events
              { s with svc := svc1, log := s.log ++ [Call.GetPage l.Next .events] } with
          | none => none
          | some (s2, some x) => some (s2, x)
          | some (s2, none) => eventPageLoop fmt exp issue fuel nextLink s2
      else some (s, Exit.ok)

/-- The branch of `RenderIssues` taken when `IncludeEvents` is set. -/
def renderIssuesWithEvents {σ : Type} (fmt : Time → GoString) (exp : Exporter σ) (fuel : Nat) :
    List Issue → World σ → Option (World σ × Exit)
  | [], s => some (s, Exit.ok)
  | issue :: rest, s =>
    match exp.Client.GetIssueEvents s.svc issue with
    | (svc1, .panic) =>
      some ({ s with svc := svc1, log := s.log ++ [Call.GetIssueEvents issue] }, Exit.panic)
    | (svc1, .error err) =>
      some ({ s with svc := svc1, log := s.log ++ [Call.GetIssueEvents issue],
                     failures := s.failures + 1 },
        eventsFailure issue err)
    | (svc1, .ok (events, link)) =>
      match buildAndRender fmt exp issue events
          { s with svc := svc1, log := s.log ++ [Call.GetIssueEvents issue] } with
      | none => none
      | some (s2, some x) => some (s2, x)
      | some (s2, none) =>
        match eventPageLoop fmt exp issue fuel link s2 with
        | none => none
        | some (s3, Exit.ok) => renderIssuesWithEvents fmt exp fuel rest s3
        | some (s3, x) => some (s3, x)

/-- The branch of `RenderIssues` taken when `IncludeEvents` is not set. -/
def renderIssuesOnly {σ : Type} (fmt : Time → GoString) (exp : Exporter σ) :
    List Issue → World σ → Option (World σ × Exit)
  | [], s => some (s, Exit.ok)
  | issue :: rest, s =>
    match buildAndRender fmt exp issue none s with
    | none => none
    | some (s1, some x) => some (s1, x)
    | some (s1, none) => renderIssuesOnly fmt exp rest s1

/-- Go `Exporter.RenderIssues`; `fuel` bounds the rounds of each event-page loop. -/
def Exporter.RenderIssues {σ : Type} (fmt : Time → GoString) (exp : Exporter σ) (fuel : Nat)
    (issues : List Issue) (s : World σ) : Option (World σ × Exit) :=
  if exp.config.IncludeEvents then renderIssuesWithEvents fmt exp fuel issues s
  else renderIssuesOnly fmt exp issues s

/-- The loop `for link != nil && link.Next.Results` over the issue pages in
`Export`; `n` is the bound handed to `RenderIssues`. -/
def issuePageLoop {σ : Type} (fmt : Time → GoString) (exp : Exporter σ) (n : Nat) :
    Nat → Option Link → World σ → Option (World σ × Exit)
  | 0, _, _ => none
  | fuel + 1, link, s =>
    match link with
    | none => some (s, Exit.ok)
    | some l =>
      if l.Next.Results then
        match exp.Client.GetPageIssues s.svc l.Next with
        | (svc1, .panic) =>
          some ({ s with svc := svc1, log := s.log ++ [Call.GetPage l.Next .issues] },
            Exit.panic)
        | (svc1, .error err) =>
          some ({ s with svc := svc1, log := s.log ++ [Call.GetPage l.Next .issues],
                         failures := s.failures + 1 },
            Exit.error (.wrapped "failed to retrieve issues" [] err))
        | (svc1, .ok (issues, nextLink)) =>
          match exp.RenderIssues fmt n issues
              { s with svc := svc1, log := s.log ++ [Call.GetPage l.Next .issues] } with
          | none => none
          | some (s2, Exit.ok) => issuePageLoop fmt exp n fuel nextLink s2
          | some (s2, x) => some (s2, x)
      else some (s, Exit.ok)

/-- The body of `Export`, everything but the deferred `Fini`. -/
def exportBody {σ : Type} (fmt : Time → GoString) (exp : Exporter σ) (fuel : Nat) (s : World σ) :
    Option (World σ × Exit) :=
  match exp.Renderer.RenderHeader s.out with
  | (w1, some e) =>
    some ({ s with out := w1, log := s.log ++ [Call.RenderHeader] },
      Exit.error (.wrapped "failed to render a header" [] e))
  | (w1, none) =>
    match exp.Client.GetOrganization s.svc exp.config.Organization with
    | (svc2, .panic) =>
      some ({ svc := svc2, out := w1, failures := s.failures,
              log := s.log ++ [Call.RenderHeader, Call.GetOrganization exp.config.Organization] },
        Exit.panic)
    | (svc2, .error err) =>
      some ({ svc := svc2, out := w1, failures := s.failures + 1,
              log := s.log ++ [Call.RenderHeader, Call.GetOrganization exp.config.Organization] },
        Exit.error (.wrapped "failed to retrieve organization %s" [exp.config.Organization] err))
    | (svc2, .ok org) =>
      match exp.Client.GetProject svc2 org exp.config.Project with
      | (svc3, .panic) =>
        some ({ svc := svc3, out := w1, failures := s.failures,
                log := s.log ++ [Call.RenderHeader, Call.GetOrganization exp.config.Organization,
                  Call.GetProject org exp.config.Project] },
          Exit.panic)
      | (svc3, .error err) =>
        some ({ svc := svc3, out := w1, failures := s.failures + 1,
                log := s.log ++ [Call.RenderHeader, Call.GetOrganization exp.config.Organization,
                  Call.GetProject org exp.config.Project] },
          Exit.error (.wrapped "failed to retrieve project %s in organization %s"
            [exp.config.Project, exp.config.Organization] err))
      | (svc3, .ok proj) =>
        match exp.Client.GetIssues svc3 org proj exp.config.StatsPeriod exp.config.Query with
        | (svc4, .panic) =>
          some ({ svc := svc4, out := w1, failures := s.failures,
                  log := s.log ++ [Call.RenderHeader, Call.GetOrganization exp.config.Organization,
                    Call.GetProject org exp.config.Project, Call.GetIssues] },
            Exit.panic)
        | (svc4, .error err) =>
          some ({ svc := svc4, out := w1, failures := s.failures + 1,
                  log := s.log ++ [Call.RenderHeader, Call.GetOrganization exp.config.Organization,
                    Call.GetProject org exp.config.Project, Call.GetIssues] },
            Exit.error (.wrapped "failed to retrieve issues" [] err))
        | (svc4, .ok (issues, link)) =>
          match exp.RenderIssues fmt fuel issues
              { svc := svc4, out := w1, failures := s.failures,
                log := s.log ++ [Call.RenderHeader, Call.GetOrganization exp.config.Organization,
                  Call.GetProject org exp.config.Project, Call.GetIssues] } with
          | none => none
          | some (s5, Exit.ok) =>
            match issuePageLoop fmt exp fuel fuel link s5 with
            | none => none
            | some (s6, Exit.ok) =>
              match exp.Renderer.RenderFooter s6.out with
              | (w7, some e) =>
                some ({ s6 with out := w7, log := s6.log ++ [Call.RenderFooter] },
                  Exit.error (.wrapped "failed to render a footer" [] e))
              | (w7, none) =>
                some ({ s6 with out := w7, log := s6.log ++ [Call.RenderFooter] }, Exit.ok)
            | some (s6, x) => some (s6, x)
          | some (s5, x) => some (s5, x)

/-- Go `Exporter.Export`: the body, then the deferred `exp.Renderer.Fini()`, which
runs on every way out of the body, a panic included.  `fuel` bounds the rounds
of each page loop; `none` means that more rounds are needed. -/
def Exporter.Export {σ : Type} (fmt : Time → GoString) (exp : Exporter σ) (fuel : Nat)
    (s : World σ) : Option (World σ × Exit) :=
  match exportBody fmt exp fuel s with
  | none => none
  | some (s1, x) =>
    some ({ s1 with out := exp.Renderer.Fini s1.out, log := s1.log ++ [Call.Fini] }, x)

/-! ## Reference definitions for the CSV claims -/

/-- The string `v` with every `"` replaced by `""`. -/
def doubleQuotes : GoString → GoString
  | [] => []
  | b :: v => if b = DQUOTE then DQUOTE :: DQUOTE :: doubleQuotes v else b :: doubleQuotes v

/-- The string `v` with each doubled `""` collapsed to `"`, scanning from the
left. -/
def collapseQuotes : GoString → GoString
  | [] => []
  | [b] => [b]
  | b :: c :: rest =>
    if b = DQUOTE ∧ c = DQUOTE then DQUOTE :: collapseQuotes rest
    else b :: collapseQuotes (c :: rest)

/-- Standard CSV unquoting of one field: a field enclosed in quote characters
loses them and has its doubled quotes collapsed; any other field is left
unchanged. -/
def csvUnquote (f : GoString) : GoString :=
  match f with
  | [] => []
  | b :: rest =>
    if b = DQUOTE ∧ rest.getLast? = some DQUOTE then collapseQuotes rest.dropLast else f

/-- The value `v` contains one of the characters `,`, CR, LF, `"`. -/
def hasSpecial (v : GoString) : Prop := COMMA ∈ v ∨ CR ∈ v ∨ LF ∈ v ∨ DQUOTE ∈ v

instance (v : GoString) : Decidable (hasSpecial v) := by unfold hasSpecial; infer_instance

/-! ## Reference definitions and sample data for the row-model claims -/

/-- The record of an issue-event pair as the specification describes it: the
issue fields of `base`, the event fields of `ev`, a missing optional event
field giving the empty string or the zero timestamp. -/
def eventRecord (base : ExporterResult) (ev : Event) : ExporterResult :=
  { base with
    EventID := ev.EventID
    EventType := ev.Typ.getD []
    Release := (ev.Release.map (fun rel => rel.Version)).getD []
    Message := ev.Message.getD []
    EventCreated := ev.DateCreated.getD Time.zero
    EventReceived := ev.DateReceived.getD Time.zero
    Platform := ev.Platform.getD []
    GroupID := ev.GroupID.getD [] }

/-- A sample timestamp. -/
def sampleTime : Time := ⟨63700000000, 0, none⟩

/-- A sample issue `{ID: "1", Title: "Crash"}` with both timestamps present. -/
def sampleIssue : Issue :=
  { AssignedTo := none, Count := none, Culprit := none, FirstSeen := some sampleTime,
    ID := some (ascii "1"), LastSeen := some sampleTime, Level := none, Logger := none,
    Permalink := none, Project := none, ShareID := none, ShortID := none, Status := none,
    Title := some (ascii "Crash"), Typ := none, UserCount := none, UserReportCount := none }

/-- The sample issue, assigned to the user `alice`. -/
def assignedIssue : Issue := { sampleIssue with AssignedTo := some ⟨some (ascii "alice")⟩ }

/-- A sample event with only its identifier and creation date set. -/
def sampleEvent : Event :=
  { EventID := ascii "e1", Typ := none, Message := none, Release := none,
    DateCreated := some sampleTime, DateReceived := none, Platform := none, GroupID := none }

/-- A second sample event, with every optional field set. -/
def sampleEvent2 : Event :=
  { EventID := ascii "e2", Typ := some (ascii "error"), Message := some (ascii "He said \"stop\""),
    Release := some ⟨ascii "1.0"⟩, DateCreated := some sampleTime,
    DateReceived := some ⟨63700000001, 5, none⟩, Platform := some (ascii "go"),
    GroupID := some (ascii "7") }

/-! ## Reference CSV reader

Standard CSV rules: fields are separated by `,`; a field that starts with `"`
is quoted, runs to the next `"` that is not doubled and has each doubled `""`
read as one `"`; an unquoted field contains none of `,`, `"`, CR, LF; a record
ends with CR LF (the last record may also end with the input). -/

/-- Where the reader stands. -/
inductive CsvState
  /-- At the start of a field. -/
  | fieldStart
  /-- Inside an unquoted field. -/
  | plain
  /-- Inside a quoted field. -/
  | quoted
  /-- After a `"` inside a quoted field: it closes the field unless another `"` follows. -/
  | quoteSeen
  /-- After the CR of a record terminator. -/
  | crSeen
  deriving DecidableEq

/-- What the reader has collected: the bytes of the current field, the
completed fields of the current record, and the completed records. -/
structure CsvAcc where
  field : GoString
  fields : List GoString
  records : List (List GoString)

def CsvAcc.push (a : CsvAcc) (b : UInt8) : CsvAcc := { a with field := a.field ++ [b] }

def CsvAcc.endField (a : CsvAcc) : CsvAcc :=
  { a with field := [], fields := a.fields ++ [a.field] }

def CsvAcc.endRecord (a : CsvAcc) : CsvAcc :=
  { field := [], fields := [], records := a.records ++ [a.fields] }

/-- The states in which a field delimiter closes the current field. -/
def CsvState.atDelim (st : CsvState) : Prop :=
  st = .fieldStart ∨ st = .plain ∨ st = .quoteSeen

/-- One byte of input; `none` is a syntax error. -/
def csvStep (st : CsvState) (a : CsvAcc) (b : UInt8) : Option (CsvState × CsvAcc) :=
  match st with
  | .fieldStart =>
    if b = DQUOTE then some (.quoted, a)
    else if b = COMMA then some (.fieldStart, a.endField)
    else if b = CR then some (.crSeen, a.endField)
    else if b = LF then none
    else some (.plain, a.push b)
  | .plain =>
    if b = COMMA then some (.fieldStart, a.endField)
    else if b = CR then some (.crSeen, a.endField)
    else if b = DQUOTE ∨ b = LF then none
    else some (.plain, a.push b)
  | .quoted =>
    if b = DQUOTE then some (.quoteSeen, a) else some (.quoted, a.push b)
  | .quoteSeen =>
    if b = DQUOTE then some (.quoted, a.push DQUOTE)
    else if b = COMMA then some (.fieldStart, a.endField)
    else if b = CR then some (.crSeen, a.endField)
    else none
  | .crSeen =>
    if b = LF then some (.fieldStart, a.endRecord) else none

/-- End of input. -/
def csvFinish (st : CsvState) (a : CsvAcc) : Option (List (List GoString)) :=
  match st with
  | .fieldStart =>
    if a.fields = [] then some a.records else some a.endField.endRecord.records
  | .plain => some a.endField.endRecord.records
  | .quoteSeen => some a.endField.endRecord.records
  | .quoted => none
  | .crSeen => none

def csvRun : CsvState → CsvAcc → GoString → Option (List (List GoString))
  | st, a, [] => csvFinish st a
  | st, a, b :: rest =>
    match csvStep st a b with
    | none => none
    | some (st1, a1) => csvRun st1 a1 rest

/-- The records of a CSV text, each a list of unquoted field values. -/
def csvParse (s : GoString) : Option (List (List GoString)) :=
  csvRun .fieldStart ⟨[], [], []⟩ s

/-- A field as the Excel format writes it: quoted, with its quotes doubled,
when it contains one of `,`, CR, LF, `"`, and verbatim otherwise. -/
def excelField (v : GoString) : GoString :=
  if hasSpecial v then [DQUOTE] ++ doubleQuotes v ++ [DQUOTE] else v

/-- The bytes of the fields `fs` of a row from field index `i` on, in the
Excel format: each field but the one of index 0 preceded by `,`. -/
def excelFields : Nat → List GoString → GoString
  | _, [] => []
  | i, f :: rest => (if i > 0 then [COMMA] else []) ++ excelField f ++ excelFields (i + 1) rest

/-- A data row in the Excel format. -/
def excelRow (fmt : Time → GoString) (r : ExporterResult) : GoString :=
  excelFields 0 (r.fields.map (RenderValue fmt)) ++ [CR, LF]

/-- The header row in the Excel format. -/
def excelHeader : GoString :=
  ascii ("IssueID,AssignedTo,Count,Culprit,FirstSeen,LastSeen,Level,Logger,Permalink,Project," ++
    "ShareID,ShortID,Status,Title,IssueType,UserCount,UserReportCount,EventID,EventType," ++
    "Release,Message,EventCreated,EventReceived,Platform,GroupID\r\n")

/-- A sample time format, standing in for `time.Time.Format(time.RFC3339)`. -/
def sampleFormat (t : Time) : GoString := ascii "T" ++ Itoa t.sec ++ ascii "Z"

/-- A sample record built from the sample issue and the second sample event. -/
def sampleRecord : ExporterResult :=
  { IssueID := ascii "1", AssignedTo := ascii "a,b", Count := ascii "3", Culprit := [],
    FirstSeen := sampleTime, LastSeen := sampleTime, Level := ascii "error", Logger := [],
    Permalink := [], Project := ascii "web", ShareID := [], ShortID := [], Status := [],
    Title := ascii "Crash, null pointer", IssueType := [], UserCount := 2, UserReportCount := 0,
    EventID := ascii "e2", EventType := [], Release := [],
    Message := ascii "He said \"stop\"\r\n", EventCreated := Time.zero,
    EventReceived := Time.zero, Platform := [], GroupID := [] }

/-- The bytes of the header fields `names` from field index `i` on, for the
format `r`: each name but the one of index 0 preceded by the field separator. -/
def headerFields (r : CSVRenderer) : Nat → List GoString → GoString
  | _, [] => []
  | i, name :: rest =>
    (if i > 0 then r.FieldSeparator else []) ++ name ++ headerFields r (i + 1) rest

/-! ## Reference definitions and sample data for the pipeline claims -/

/-- The data rows of the records `rows` in the Excel format, one after the
other. -/
def excelRows (fmt : Time → GoString) : List ExporterResult → GoString
  | [] => []
  | r :: rest => excelRow fmt r ++ excelRows fmt rest

/-- The records of `BuildExporterResultsForSingleIssue(issue, nil)` for each
issue of the list, in order; `none` when one of the calls panics. -/
def summaryRows : List Issue → Option (List ExporterResult)
  | [] => some []
  | issue :: rest =>
    match BuildExporterResultsForSingleIssue issue none, summaryRows rest with
    | some rows, some more => some (rows ++ more)
    | _, _ => none

/-- A call that fetches a page of issues: the initial listing or a cursor
fetch decoding into issues. -/
def Call.isIssueFetch : Call → Bool
  | .GetIssues => true
  | .GetPage _ .issues => true
  | _ => false

/-- The number of issue-page fetches in a trace. -/
def issueFetches (log : List Call) : Nat := log.countP Call.isIssueFetch

/-- The initial listing call `GetIssues`. -/
def Call.isListing : Call → Bool
  | .GetIssues => true
  | _ => false

/-- The number of initial issue listings in a trace. -/
def issueListings (log : List Call) : Nat := log.countP Call.isListing

/-- Starting from the remote state `s` and the cursor `link` of the page just
received, the client answers the cursor fetches with exactly the issue pages
`pages`, in order and without error: each cursor but the last signals more
results, the last one is nil or signals none; `s1` is the remote state in the
end. -/
def ServesIssuePages {σ : Type} (c : Client σ) : σ → Option Link → List (List Issue) → σ → Prop
  | s, link, [], s1 => (∀ l, link = some l → l.Next.Results = false) ∧ s1 = s
  | s, link, page :: rest, s1 =>
    ∃ l s2 nextLink, link = some l ∧ l.Next.Results = true
      ∧ c.GetPageIssues s l.Next = (s2, .ok (page, nextLink))
      ∧ ServesIssuePages c s2 nextLink rest s1

/-- A mock client over the remote state "number of calls answered": both
lookups succeed, the issue pages `pages` are served in order, page `i` with
the cursor `i + 1`, which signals more results while a page is left; no issue
has events. -/
def mockClient (pages : List (List Issue)) : Client Nat :=
  { doOrganization := fun s name => (s + 1, .ok ⟨some name⟩)
    doProject := fun s _ name => (s + 1, .ok ⟨some name, name⟩)
    doIssues := fun s _ _ _ _ =>
      (s + 1, .ok (pages.headD [], some ⟨⟨0, false⟩, ⟨1, decide (1 < pages.length)⟩⟩))
    doIssueEvents := fun s _ => (s + 1, .ok (some [], none))
    doPageIssues := fun s p =>
      (s + 1, .ok (pages.getD p.URL [],
        some ⟨⟨p.URL - 1, true⟩, ⟨p.URL + 1, decide (p.URL + 1 < pages.length)⟩⟩))
    doPageEvents := fun s _ => (s + 1, .ok (some [], none)) }

/-- A configuration for organization "acme", project "web", expansion
disabled. -/
def sampleConfig : ExporterConfig :=
  { AuthToken := ascii "token", Endpoint := none, Organization := ascii "acme",
    Project := ascii "web", StatsPeriod := none, Query := none, IncludeEvents := false }

/-- An exporter with the Excel renderer over the mock client. -/
def mockExporter (pages : List (List Issue)) : Exporter Nat :=
  { config := sampleConfig, Renderer := NewExcelCSVRenderer, Client := mockClient pages }

/-- The state before a run: nothing served, an empty sink that never fails, an
empty trace, no failed call. -/
def World.start : World Nat := { svc := 0, out := Writer.fresh, log := [], failures := 0 }

/-- A second sample issue, with a title that needs quoting. -/
def sampleIssue2 : Issue :=
  { sampleIssue with ID := some (ascii "2"), Title := some (ascii "Crash, null pointer") }

/-- An issue whose first-seen timestamp is nil. -/
def undatedIssue : Issue := { sampleIssue with FirstSeen := none }

/-! ## Reference definitions for the value, null-mapping and trailing-field claims -/

/-- A digit byte `0`..`9`. -/
def isDigit (b : UInt8) : Prop := 48 ≤ b ∧ b ≤ 57

instance (b : UInt8) : Decidable (isDigit b) := by unfold isDigit; infer_instance

/-- Reading decimal digits, most significant first, onto the value `acc`;
`none` when a byte is not a digit. -/
def parseDigits : GoString → Nat → Option Nat
  | [], acc => some acc
  | b :: rest, acc =>
    if isDigit b then parseDigits rest (acc * 10 + (b.toNat - 48)) else none

/-- Reading a base-10 integer text: an optional leading `-`, then at least one
digit. -/
def Atoi (s : GoString) : Option Int :=
  match s with
  | [] => none
  | b :: rest =>
    if b = 45 then
      if rest = [] then none else (parseDigits rest 0).map (fun (n : Nat) => -(n : Int))
    else (parseDigits (b :: rest) 0).map (fun (n : Nat) => (n : Int))

/-- Canonical digits of a natural number: at least one digit, digits only, and
no leading zero except for the text `0` itself. -/
def canonicalDigits (d : GoString) : Prop :=
  d ≠ [] ∧ (∀ b ∈ d, isDigit b) ∧ (d.head? = some 48 → d = [48])

/-- Canonical base-10 text of an integer: canonical digits, preceded by `-`
exactly for a negative number (so never `-0`). -/
def canonicalInt (s : GoString) : Prop :=
  canonicalDigits s ∨ ∃ d, s = 45 :: d ∧ canonicalDigits d ∧ d ≠ [48]

/-- The record field `x` is the image of the pointer `p`: the value `zero`
for nil, the pointed-to value otherwise. -/
def MapsPointer {α : Type} (p : Option α) (zero : α) (x : α) : Prop :=
  (p = none → x = zero) ∧ (∀ a, p = some a → x = a)

/-- The summary record of the sample issue `{ID: "1", Title: "Crash"}`. -/
def sampleSummary : ExporterResult :=
  { IssueID := ascii "1", AssignedTo := [], Count := [], Culprit := [],
    FirstSeen := sampleTime, LastSeen := sampleTime, Level := [], Logger := [],
    Permalink := [], Project := [], ShareID := [], ShortID := [], Status := [],
    Title := ascii "Crash", IssueType := [], UserCount := 0, UserReportCount := 0,
    EventID := [], EventType := [], Release := [], Message := [],
    EventCreated := Time.zero, EventReceived := Time.zero, Platform := [], GroupID := [] }

/-! ## Occurrences of the quote character -/

/-- The scan of Go `strings.Count(s, q)` for a non-empty `q`, with `fuel`
rounds: the occurrences of `q` in `s` found from the left, each search
resuming after the previous match. -/
def countFrom (q : GoString) : Nat → GoString → Nat
  | 0, _ => 0
  | fuel + 1, s =>
    match Index s q with
    | none => 0
    | some i => 1 + countFrom q fuel (s.drop (i + q.length))

/-- The number of (non-overlapping) occurrences of the non-empty `q` in `s`. -/
def Count (s q : GoString) : Nat := countFrom q (s.length + 1) s

/-- A format with an empty quote character. -/
def unquotedRenderer : CSVRenderer := NewCSVRenderer [COMMA] [CR, LF] []

/-! ## cmd/sentry-event-exporter/main.go: the search query -/

/-- The class `\w` of Go regular expressions: `[0-9A-Za-z_]`. -/
def isWordByte (b : UInt8) : Bool :=
  (48 ≤ b && b ≤ 57) || (65 ≤ b && b ≤ 90) || b == 95 || (97 ≤ b && b ≤ 122)

/-- The byte `:`. -/
abbrev COLON : UInt8 := 58
/-- The byte ` `. -/
abbrev SPACE : UInt8 := 32
/-- The byte `\`. -/
abbrev BACKSLASH : UInt8 := 92

/-- Go `tagRegexp.FindStringIndex(q)` for `tagRegexp = ^\w+:`, a library call:
the match can only start at 0 and consists of the whole leading run of word
bytes, which must be non-empty, and the `:` that must follow it. -/
def tagRegexpFindStringIndex (q : GoString) : Option (Nat × Nat) :=
  let run := (q.takeWhile isWordByte).length
  if 0 < run ∧ q.get? run = some COLON then some (0, run + 1) else none

/-- Go `strings.Replace(q, "\"", "\\\"", -1)`: every `"` replaced by `\"`. -/
def escapeQuotes : GoString → GoString
  | [] => []
  | b :: q => if b = DQUOTE then BACKSLASH :: DQUOTE :: escapeQuotes q else b :: escapeQuotes q

/-- What one round of the loop over the criteria appends to `buf` after the
separating space, for the criterion `q`. -/
def appendCriterion (buf q : GoString) : GoString :=
  match tagRegexpFindStringIndex q with
  | some (lo, hi) =>
    if ContainsAny (q.drop hi) (ascii " \t\n\r") then
      buf ++ slice q lo hi ++ [DQUOTE] ++ escapeQuotes (q.drop hi) ++ [DQUOTE]
    else buf ++ slice q lo hi ++ q.drop hi
  | none =>
    if ContainsAny q (ascii " \t\n\r") then buf ++ [DQUOTE] ++ escapeQuotes q ++ [DQUOTE]
    else buf ++ q

/-- The loop `for i, q := range criteria` of `init`, from index `i`. -/
def criteriaLoop : Nat → List GoString → GoString → GoString
  | _, [], buf => buf
  | i, q :: rest, buf =>
    criteriaLoop (i + 1) rest (appendCriterion (if i > 0 then buf ++ [SPACE] else buf) q)

/-- The value of `config.Query` after `init`, for the positional arguments
`criteria`: nil when there is none. -/
def buildQuery (criteria : List GoString) : Option GoString :=
  if criteria.length > 0 then some (criteriaLoop 0 criteria []) else none

/-- The string `p` matches `\w+:` as a whole. -/
def IsTag (p : GoString) : Prop :=
  ∃ w : GoString, w ≠ [] ∧ (∀ b ∈ w, isWordByte b = true) ∧ p = w ++ [COLON]

/-- The string contains a space, tab, LF or CR. -/
def hasWhitespace (s : GoString) : Prop := SPACE ∈ s ∨ (9 : UInt8) ∈ s ∨ LF ∈ s ∨ CR ∈ s

instance (s : GoString) : Decidable (hasWhitespace s) := by unfold hasWhitespace; infer_instance

/-- The remainder of a term as the specification describes it: in double
quotes with every `"` replaced by `\"` when it contains whitespace, verbatim
otherwise. -/
def quotedIfWhitespace (s : GoString) : GoString :=
  if hasWhitespace s then [DQUOTE] ++ escapeQuotes s ++ [DQUOTE] else s

/-- The string `img` is the image of the term `q`: the longest prefix of `q`
that is a tag, verbatim, followed by the remainder quoted if it contains
whitespace; the whole term quoted if it contains whitespace when no prefix of
`q` is a tag. -/
def IsTermImage (q img : GoString) : Prop :=
  (∃ p rest, q = p ++ rest ∧ IsTag p
      ∧ (∀ p1, p1 <+: q → IsTag p1 → p1.length ≤ p.length)
      ∧ img = p ++ quotedIfWhitespace rest)
  ∨ ((∀ p1, p1 <+: q → ¬ IsTag p1) ∧ img = quotedIfWhitespace q)

/-- The strings joined by single spaces. -/
def joinSpaces : List GoString → GoString
  | [] => []
  | [x] => x
  | x :: y :: rest => x ++ [SPACE] ++ joinSpaces (y :: rest)

/-! ## Reference definitions and sample data for the event-expansion and
failure claims -/

/-- A call that fetches a page of events: the first listing for an issue or a
cursor fetch decoding into events. -/
def Call.isEventFetch : Call → Bool
  | .GetIssueEvents _ => true
  | .GetPage _ .events => true
  | _ => false

/-- The number of event-page fetches in a trace. -/
def eventFetches (log : List Call) : Nat := log.countP Call.isEventFetch

/-- What the service returns for one issue when its events are expanded: the
first page with its cursor, and the later pages, each with its cursor. -/
structure IssueEvents where
  issue : Issue
  first : List Event
  link : Option Link
  later : List (List Event × Option Link)

/-- All events of the issue, in page order and then in-page order. -/
def IssueEvents.events (ie : IssueEvents) : List Event :=
  ie.first ++ (ie.later.map (fun p => p.1)).flatten

/-- The rows of one page of events of an issue (no row when the call panics). -/
def pageRows (issue : Issue) (page : List Event) : List ExporterResult :=
  (BuildExporterResultsForSingleIssue issue (some page)).getD []

/-- Starting from the remote state `s` and the cursor `link` of the page just
received, the client answers the cursor fetches with exactly the non-nil event
pages `pages` and their cursors, in order and without error: each cursor but
the last signals more results, the last one is nil or signals none; `s1` is the
remote state in the end. -/
def ServesEventPages {σ : Type} (c : Client σ) :
    σ → Option Link → List (List Event × Option Link) → σ → Prop
  | s, link, [], s1 => (∀ l, link = some l → l.Next.Results = false) ∧ s1 = s
  | s, link, (page, next) :: rest, s1 =>
    ∃ l s2, link = some l ∧ l.Next.Results = true
      ∧ c.GetPageEvents s l.Next = (s2, .ok (some page, next))
      ∧ ServesEventPages c s2 next rest s1

/-- Starting from the remote state `s`, the client answers the event fetches
for the issues of `ies`, one issue after the other, with exactly the pages
recorded in `ies`; `s1` is the remote state in the end. -/
def ServesIssueEvents {σ : Type} (c : Client σ) : σ → List IssueEvents → σ → Prop
  | s, [], s1 => s1 = s
  | s, ie :: rest, s1 =>
    ∃ s2 s3, c.GetIssueEvents s ie.issue = (s2, .ok (some ie.first, ie.link))
      ∧ ServesEventPages c s2 ie.link ie.later s3
      ∧ ServesIssueEvents c s3 rest s1

/-- The calls made for the later event pages of an issue: for each page the
cursor fetch, then the rendering of its rows. -/
def eventPagesTrace (issue : Issue) : Option Link → List (List Event × Option Link) → List Call
  | _, [] => []
  | link, (page, next) :: rest =>
    (match link with
      | some l => [Call.GetPage l.Next .events]
      | none => [])
    ++ [Call.RenderPartialResults (pageRows issue page)] ++ eventPagesTrace issue next rest

/-- The calls made for one issue: the first event listing, the rendering of
its rows, then the later pages. -/
def issueEventsTrace (ie : IssueEvents) : List Call :=
  [Call.GetIssueEvents ie.issue, Call.RenderPartialResults (pageRows ie.issue ie.first)]
    ++ eventPagesTrace ie.issue ie.link ie.later

/-- A mock client like `mockClient` that also serves, for every issue, the
event pages `eventPages` (page `i` with the cursor `i + 1`), or fails every
first event listing when `failEvents` is set. -/
def mockEventsClient (pages : List (List Issue)) (eventPages : List (List Event))
    (failEvents : Bool) : Client Nat :=
  { doOrganization := (mockClient pages).doOrganization
    doProject := (mockClient pages).doProject
    doIssues := (mockClient pages).doIssues
    doPageIssues := (mockClient pages).doPageIssues
    doIssueEvents := fun s _ =>
      if failEvents then (s + 1, .error (.remote 500))
      else (s + 1, .ok (some (eventPages.headD []),
        some ⟨⟨0, false⟩, ⟨1, decide (1 < eventPages.length)⟩⟩))
    doPageEvents := fun s p =>
      (s + 1, .ok (some (eventPages.getD p.URL []),
        some ⟨⟨p.URL - 1, true⟩, ⟨p.URL + 1, decide (p.URL + 1 < eventPages.length)⟩⟩)) }

/-- The sample configuration with expansion enabled. -/
def eventsConfig : ExporterConfig := { sampleConfig with IncludeEvents := true }

/-- An exporter with the Excel renderer and expansion enabled over the mock
client with events. -/
def mockEventsExporter (pages : List (List Issue)) (eventPages : List (List Event))
    (failEvents : Bool) : Exporter Nat :=
  { config := eventsConfig, Renderer := NewExcelCSVRenderer,
    Client := mockEventsClient pages eventPages failEvents }

/-- An empty sink that accepts `k` writes and fails every later one, writing
nothing. -/
def Writer.failingAfter (k : Nat) : Writer :=
  ⟨[], 0, fun n => if n < k then none else some 0⟩

/-- An event whose creation date is nil. -/
def undatedEvent : Event := { sampleEvent with DateCreated := none }

/-- An issue whose identifier is nil. -/
def anonymousIssue : Issue := { sampleIssue with ID := none }

/-! ## Reference definitions for the claims on failing runs -/

/-- A call on the remote client. -/
def Call.isRemote : Call → Bool
  | .GetOrganization _ => true
  | .GetProject _ _ => true
  | .GetIssues => true
  | .GetIssueEvents _ => true
  | .GetPage _ _ => true
  | _ => false

/-- A call made between the header and the footer: a call on the remote
client or the rendering of rows. -/
def Call.isStep : Call → Bool
  | .RenderPartialResults _ => true
  | c => c.isRemote

/-- The bytes the Excel renderer writes for the calls of a trace when each of
them succeeds: the header row for `RenderHeader`, the rows of the records for
`RenderPartialResults`, nothing for any other call. -/
def traceBytes (fmt : Time → GoString) : List Call → GoString
  | [] => []
  | c :: t =>
    (match c with
      | .RenderHeader => excelHeader
      | .RenderPartialResults rows => excelRows fmt rows
      | _ => [])
    ++ traceBytes fmt t

/-- The call `call`, made on the client of `exp` in the remote state `svc`,
returns an error. -/
def Fails {σ : Type} (exp : Exporter σ) (svc : σ) : Call → Prop
  | .GetOrganization name => ∃ s1 e, exp.Client.GetOrganization svc name = (s1, .error e)
  | .GetProject org name => ∃ s1 e, exp.Client.GetProject svc org name = (s1, .error e)
  | .GetIssues =>
    ∃ org proj s1 e,
      exp.Client.GetIssues svc org proj exp.config.StatsPeriod exp.config.Query = (s1, .error e)
  | .GetIssueEvents issue => ∃ s1 e, exp.Client.GetIssueEvents svc issue = (s1, .error e)
  | .GetPage p .issues => ∃ s1 e, exp.Client.GetPageIssues svc p = (s1, .error e)
  | .GetPage p .events => ∃ s1 e, exp.Client.GetPageEvents svc p = (s1, .error e)
  | _ => False

/-- What holds of a part of a run between the header and the footer that leads
from `s` to `s1` and ends with `x`: the trace grows by calls on the client and
renderings of rows; when the part ends without error, or with a failed remote
call, the Excel renderer has written exactly the rows rendered in it; and
either no remote call has failed in it, or exactly one has, it is the last
call of the part and `x` is an error. -/
def Seg {σ : Type} (fmt : Time → GoString) (exp : Exporter σ) (s s1 : World σ) (x : Exit) :
    Prop :=
  ∃ t, s1.log = s.log ++ t
    ∧ (∀ c ∈ t, c.isStep = true)
    ∧ (exp.Renderer = NewExcelCSVRenderer → (x = Exit.ok ∨ s1.failures ≠ s.failures) →
        s1.out.written = s.out.written ++ traceBytes fmt t)
    ∧ (s1.failures = s.failures
       ∨ (s1.failures = s.failures + 1 ∧ (∃ e, x = Exit.error e)
          ∧ ∃ t0 call svc0, t = t0 ++ [call] ∧ Fails exp svc0 call))

/-- What holds of a run of the body of `Export` that leads from `s` to `s1`
and ends with `x`: the trace grows by calls none of which is `Fini`; when the
body ends without error, or with a failed remote call, the Excel renderer has
written exactly the header and the rows rendered; and either no remote call
has failed, or exactly one has, `x` is an error, and the trace is
`RenderHeader`, then calls on the client and renderings of rows, then the
failed call. -/
def Run {σ : Type} (fmt : Time → GoString) (exp : Exporter σ) (s s1 : World σ) (x : Exit) :
    Prop :=
  ∃ t, s1.log = s.log ++ t
    ∧ Call.Fini ∉ t
    ∧ (exp.Renderer = NewExcelCSVRenderer → (x = Exit.ok ∨ s1.failures ≠ s.failures) →
        s1.out.written = s.out.written ++ traceBytes fmt t)
    ∧ (s1.failures = s.failures
       ∨ (s1.failures = s.failures + 1 ∧ (∃ e, x = Exit.error e)
          ∧ ∃ t0 call svc0, t = Call.RenderHeader :: t0 ++ [call]
            ∧ (∀ c ∈ t0, c.isStep = true) ∧ Fails exp svc0 call))

/-- The chain of cursors starting at `link` ends within `n` fetches by `get`:
after at most `n` pages the cursor is nil or signals no more results, whatever
the remote state in which each fetch is made (a fetch that fails or panics
ends the chain). -/
def EndsWithin {σ α : Type} (get : σ → Page → σ × Reply (α × Option Link)) :
    Nat → Option Link → Prop
  | 0, link => ∀ l, link = some l → l.Next.Results = false
  | n + 1, link =>
    ∀ l, link = some l → l.Next.Results = true →
      ∀ s s1 page next, get s l.Next = (s1, .ok (page, next)) → EndsWithin get n next

/-- Every listing of issues and every first listing of the events of an issue
returns a cursor whose chain ends within `n` fetches. -/
def PagingEndsWithin {σ : Type} (c : Client σ) (n : Nat) : Prop :=
  (∀ s org proj statsPeriod query s1 issues link,
      c.GetIssues s org proj statsPeriod query = (s1, .ok (issues, link)) →
      EndsWithin c.GetPageIssues n link)
  ∧ (∀ s issue s1 events link,
      c.GetIssueEvents s issue = (s1, .ok (events, link)) →
      EndsWithin c.GetPageEvents n link)

/-- A mock client like `mockEventsClient` whose request made in the remote
state `k`, the request number `k` of a run from `World.start`, fails. -/
def flakyClient (pages : List (List Issue)) (eventPages : List (List Event)) (k : Nat) :
    Client Nat :=
  { doOrganization := fun s name =>
      if s = k then (s + 1, .error (.remote 500))
      else (mockEventsClient pages eventPages false).doOrganization s name
    doProject := fun s slug name =>
      if s = k then (s + 1, .error (.remote 500))
      else (mockEventsClient pages eventPages false).doProject s slug name
    doIssues := fun s oslug pslug statsPeriod query =>
      if s = k then (s + 1, .error (.remote 500))
      else (mockEventsClient pages eventPages false).doIssues s oslug pslug statsPeriod query
    doIssueEvents := fun s id =>
      if s = k then (s + 1, .error (.remote 500))
      else (mockEventsClient pages eventPages false).doIssueEvents s id
    doPageIssues := fun s p =>
      if s = k then (s + 1, .error (.remote 500))
      else (mockEventsClient pages eventPages false).doPageIssues s p
    doPageEvents := fun s p =>
      if s = k then (s + 1, .error (.remote 500))
      else (mockEventsClient pages eventPages false).doPageEvents s p }

/-- An exporter with the Excel renderer over the flaky mock client. -/
def flakyExporter (pages : List (List Issue)) (eventPages : List (List Event))
    (includeEvents : Bool) (k : Nat) : Exporter Nat :=
  { config := { sampleConfig with IncludeEvents := includeEvents }
    Renderer := NewExcelCSVRenderer
    Client := flakyClient pages eventPages k }

/-! # Theorems -/

/-! ### Runes and bytes -/

theorem toUInt8_toNat (n : Nat) : (Nat.toUInt8 n).toNat = n % 256 := by
  simp [Nat.toUInt8, UInt8.ofNat, UInt8.toNat, Fin.ofNat]

theorem toNat_toUInt8 (b : UInt8) : Nat.toUInt8 b.toNat = b := by
  cases b with
  | mk v =>
    simp [Nat.toUInt8, UInt8.ofNat, UInt8.toNat, Fin.ofNat]

theorem byte_lt (b : UInt8) : b.toNat < 256 := b.val.2

/-- The first rune of a non-empty string: its width is between 1 and the
length; an ASCII first byte is the rune; otherwise the rune is not ASCII and
neither are the further bytes it takes. -/
theorem DecodeRuneInString_cons (s0 : UInt8) (t : GoString) :
    1 ≤ (DecodeRuneInString (s0 :: t)).2
    ∧ (DecodeRuneInString (s0 :: t)).2 ≤ t.length + 1
    ∧ (s0.toNat < 0x80 → DecodeRuneInString (s0 :: t) = (s0.toNat, 1))
    ∧ (0x80 ≤ s0.toNat → 0x80 ≤ (DecodeRuneInString (s0 :: t)).1
        ∧ ∀ b ∈ t.take ((DecodeRuneInString (s0 :: t)).2 - 1), 0x80 ≤ b.toNat) := by
  unfold DecodeRuneInString RuneError
  by_cases h0 : s0.toNat < 0x80
  · simp [h0]
  · simp only [h0, if_false]
    by_cases h1 : s0.toNat < 0xC2 ∨ 0xF4 < s0.toNat
    · simp [h1]
    · simp only [h1, if_false]
      cases t with
      | nil => simp
      | cons s1 t1 =>
        simp only []
        generalize hlo : (if s0.toNat = 0xE0 then 0xA0
          else if s0.toNat = 0xF0 then 0x90 else 0x80) = lo
        generalize hhi : (if s0.toNat = 0xED then 0x9F
          else if s0.toNat = 0xF4 then 0x8F else 0xBF) = hi
        have hlo1 : 0x80 ≤ lo := by rw [← hlo]; split_ifs <;> omega
        have hlo2 : s0.toNat = 0xE0 → 0xA0 ≤ lo := by intro h; rw [← hlo]; simp [h]
        have hlo3 : s0.toNat = 0xF0 → 0x90 ≤ lo := by intro h; rw [← hlo]; simp [h]
        by_cases hr1 : s1.toNat < lo ∨ hi < s1.toNat
        · simp [hr1]
        · simp only [hr1, if_false]
          have hs1 : lo ≤ s1.toNat := by omega
          by_cases h2 : s0.toNat < 0xE0
          · simp only [h2, if_true]
            refine ⟨by simp, by simp, fun h => h.elim, fun _ => ⟨by omega, ?_⟩⟩
            intro b hb
            simp at hb
            subst hb
            omega
          · simp only [h2, if_false]
            cases t1 with
            | nil => simp
            | cons s2 t2 =>
              simp only []
              by_cases hr2 : s2.toNat < 0x80 ∨ 0xBF < s2.toNat
              · simp [hr2]
              · simp only [hr2, if_false]
                by_cases h3 : s0.toNat < 0xF0
                · simp only [h3, if_true]
                  refine ⟨by simp, by simp, fun h => h.elim, fun _ => ⟨?_, ?_⟩⟩
                  · by_cases he : s0.toNat = 0xE0
                    · have := hlo2 he; omega
                    · omega
                  · intro b hb
                    simp at hb
                    rcases hb with hb | hb <;> subst hb <;> omega
                · simp only [h3, if_false]
                  cases t2 with
                  | nil => simp
                  | cons s3 t3 =>
                    simp only []
                    by_cases hr3 : s3.toNat < 0x80 ∨ 0xBF < s3.toNat
                    · simp [hr3]
                    · simp only [hr3, if_false]
                      refine ⟨by simp, by simp, fun h => h.elim, fun _ => ⟨?_, ?_⟩⟩
                      · by_cases he : s0.toNat = 0xF0
                        · have := hlo3 he; omega
                        · omega
                      · intro b hb
                        simp at hb
                        rcases hb with hb | hb | hb <;> subst hb <;> omega

/-- An ASCII rune is among the runes of a string exactly when it is among its
bytes. -/
theorem mem_runesFrom_ascii (a : Nat) (ha : a < 0x80) : ∀ (n fuel : Nat) (s : GoString),
    s.length ≤ n → s.length ≤ fuel → (a ∈ runesFrom fuel s ↔ ∃ b ∈ s, b.toNat = a) := by
  intro n
  induction n with
  | zero =>
    intro fuel s hn _
    have : s = [] := List.length_eq_zero.1 (by omega)
    subst this
    cases fuel <;> simp [runesFrom]
  | succ n ih =>
    intro fuel s hn hf
    cases s with
    | nil => cases fuel <;> simp [runesFrom]
    | cons s0 t =>
      obtain ⟨f, rfl⟩ : ∃ f, fuel = f + 1 := ⟨fuel - 1, by simp at hf; omega⟩
      obtain ⟨hw1, hw2, hascii, hother⟩ := DecodeRuneInString_cons s0 t
      simp only [runesFrom, List.mem_cons]
      have hlen : ((s0 :: t).drop (DecodeRuneInString (s0 :: t)).2).length ≤ n := by
        rw [List.length_drop]; simp at hn ⊢; omega
      have hlen2 : ((s0 :: t).drop (DecodeRuneInString (s0 :: t)).2).length ≤ f := by
        rw [List.length_drop]; simp at hf ⊢; omega
      rw [ih f _ hlen hlen2]
      by_cases h0 : s0.toNat < 0x80
      · rw [hascii h0]
        simp only [List.drop_succ_cons, List.drop_zero]
        constructor
        · rintro (h | ⟨b, hb, e⟩)
          · exact ⟨s0, Or.inl rfl, h.symm⟩
          · exact ⟨b, Or.inr hb, e⟩
        · rintro ⟨b, hb | hb, e⟩
          · subst hb; exact Or.inl e.symm
          · exact Or.inr ⟨b, hb, e⟩
      · obtain ⟨hr, hb⟩ := hother (by omega)
        obtain ⟨k, hk⟩ : ∃ k, (DecodeRuneInString (s0 :: t)).2 = k + 1 :=
          ⟨(DecodeRuneInString (s0 :: t)).2 - 1, by omega⟩
        rw [hk] at hb ⊢
        simp only [List.drop_succ_cons, Nat.add_sub_cancel] at hb ⊢
        constructor
        · rintro (h | ⟨b, hbm, e⟩)
          · omega
          · exact ⟨b, Or.inr (List.mem_of_mem_drop hbm), e⟩
        · rintro ⟨b, hbm | hbm, e⟩
          · subst hbm; omega
          · rw [← List.take_append_drop k t, List.mem_append] at hbm
            rcases hbm with hbm | hbm
            · have := hb b hbm; omega
            · exact Or.inr ⟨b, hbm, e⟩

/-- The runes of an ASCII string are ASCII. -/
theorem runesFrom_ascii : ∀ (fuel : Nat) (s : GoString), (∀ b ∈ s, b.toNat < 0x80) →
    ∀ r ∈ runesFrom fuel s, r < 0x80 := by
  intro fuel
  induction fuel with
  | zero => intro s _ r hr; simp [runesFrom] at hr
  | succ f ih =>
    intro s hs r hr
    cases s with
    | nil => simp [runesFrom] at hr
    | cons s0 t =>
      have h0 : s0.toNat < 0x80 := hs s0 (by simp)
      simp only [runesFrom, (DecodeRuneInString_cons s0 t).2.2.1 h0, List.mem_cons,
        List.drop_succ_cons, List.drop_zero] at hr
      rcases hr with hr | hr
      · omega
      · exact ih t (fun b hb => hs b (by simp [hb])) r hr

theorem EncodeRune_head (r : Nat) (h1 : 0x80 ≤ r) (h2 : r ≤ 0x10FFFF) :
    ∃ b rest, EncodeRune r = b :: rest ∧ 0x80 ≤ b.toNat := by
  unfold EncodeRune
  have h0 : ¬ r < 0x80 := by omega
  simp only [h0, if_false]
  split_ifs
  · exact ⟨_, _, rfl, by rw [toUInt8_toNat]; omega⟩
  · exact ⟨_, _, rfl, by rw [toUInt8_toNat]; omega⟩
  · exact ⟨_, _, rfl, by rw [toUInt8_toNat]; omega⟩

theorem mem_of_Index_some : ∀ (s : GoString) (b : UInt8) (rest : GoString) (i : Nat),
    Index s (b :: rest) = some i → b ∈ s := by
  intro s
  induction s with
  | nil => intro b rest i h; simp [Index] at h
  | cons c s ih =>
    intro b rest i h
    simp only [Index] at h
    by_cases hp : (b :: rest).isPrefixOf (c :: s) = true
    · have := List.isPrefixOf_iff_prefix.1 hp
      obtain ⟨u, hu⟩ := this
      simp only [List.cons_append, List.cons.injEq] at hu
      simp [hu.1]
    · rw [if_neg hp] at h
      simp only [Option.map_eq_some'] at h
      obtain ⟨k, hk, _⟩ := h
      exact List.mem_cons_of_mem _ (ih b rest k hk)

/-- In an ASCII set only ASCII runes are found, by their bytes. -/
theorem ContainsRune_ascii (chars : GoString) (hc : ∀ b ∈ chars, b.toNat < 0x80) (c : Nat) :
    ContainsRune chars c = true ↔ c < 0x80 ∧ Nat.toUInt8 c ∈ chars := by
  unfold ContainsRune
  by_cases h0 : c < 0x80
  · simp [h0]
  · simp only [h0, if_false, false_and, iff_false]
    by_cases h1 : c = RuneError
    · simp only [h1, if_true]
      intro h
      have hm : RuneError ∈ runes chars := by simpa using h
      have := runesFrom_ascii _ chars hc _ hm
      simp [RuneError] at this
    · simp only [h1, if_false]
      by_cases h2 : ValidRune c = true
      · simp only [h2, if_true]
        intro h
        have hle : c ≤ 0x10FFFF := by
          simp only [ValidRune, Bool.or_eq_true, decide_eq_true_eq, Bool.and_eq_true] at h2
          omega
        obtain ⟨b, rest, he, hb⟩ := EncodeRune_head c (by omega) hle
        rw [he] at h
        obtain ⟨i, hi⟩ := Option.isSome_iff_exists.1 h
        have := hc b (mem_of_Index_some chars b rest i hi)
        omega
      · simp [h2]

/-- For an ASCII set `chars`, `ContainsAny` is the byte-wise test. -/
theorem ContainsAny_iff (v chars : GoString) (hc : ∀ b ∈ chars, b.toNat < 0x80) :
    ContainsAny v chars = true ↔ ∃ b, b ∈ v ∧ b ∈ chars := by
  simp only [ContainsAny, List.any_eq_true, ContainsRune_ascii chars hc]
  constructor
  · rintro ⟨c, hm, hlt, hin⟩
    obtain ⟨b, hb, e⟩ := (mem_runesFrom_ascii c hlt v.length v.length v (Nat.le_refl _)
      (Nat.le_refl _)).1 hm
    refine ⟨b, hb, ?_⟩
    rw [← e, toNat_toUInt8] at hin
    exact hin
  · rintro ⟨b, hb, hin⟩
    have hlt := hc b hin
    refine ⟨b.toNat, ?_, hlt, by rw [toNat_toUInt8]; exact hin⟩
    exact (mem_runesFrom_ascii b.toNat hlt v.length v.length v (Nat.le_refl _)
      (Nat.le_refl _)).2 ⟨b, hb, rfl⟩

theorem ContainsAny_nil (chars : GoString) : ContainsAny [] chars = false := by
  simp [ContainsAny, runes, runesFrom]

theorem Index_single_none (q : UInt8) : ∀ s : GoString, Index s [q] = none → q ∉ s := by
  intro s
  induction s with
  | nil => intro _; simp
  | cons b s ih =>
    intro h
    simp only [Index] at h
    by_cases hb : b = q
    · subst hb; simp [List.isPrefixOf] at h
    · have hp : List.isPrefixOf [q] (b :: s) = false := by
        simp [List.isPrefixOf, Ne.symm hb]
      rw [hp] at h
      simp at h
      simp [ih h, Ne.symm hb]

theorem Index_single_some (q : UInt8) : ∀ (s : GoString) (i : Nat), Index s [q] = some i →
    ∃ pre post, s = pre ++ q :: post ∧ q ∉ pre ∧ pre.length = i := by
  intro s
  induction s with
  | nil => intro i h; simp [Index] at h
  | cons b s ih =>
    intro i h
    simp only [Index] at h
    by_cases hb : b = q
    · subst hb
      simp [List.isPrefixOf] at h
      exact ⟨[], s, by simp, by simp, by simp [h]⟩
    · have hp : List.isPrefixOf [q] (b :: s) = false := by
        simp [List.isPrefixOf, Ne.symm hb]
      rw [hp] at h
      simp at h
      obtain ⟨k, hk, rfl⟩ := h
      obtain ⟨pre, post, hs, hn, hl⟩ := ih k hk
      exact ⟨b :: pre, post, by simp [hs], by simp [hn, Ne.symm hb], by simp [hl]⟩

theorem doubleQuotes_of_not_mem : ∀ v : GoString, DQUOTE ∉ v → doubleQuotes v = v := by
  intro v
  induction v with
  | nil => intro _; rfl
  | cons b v ih =>
    intro h
    simp only [List.mem_cons, not_or] at h
    have hb : b ≠ DQUOTE := fun e => h.1 e.symm
    simp [doubleQuotes, hb, ih h.2]

theorem doubleQuotes_append (u v : GoString) :
    doubleQuotes (u ++ v) = doubleQuotes u ++ doubleQuotes v := by
  induction u with
  | nil => rfl
  | cons b u ih =>
    by_cases hb : b = DQUOTE <;> simp [doubleQuotes, hb, ih]

theorem slice_of_drop (v pre rest : GoString) (j : Nat) (h : v.drop j = pre ++ rest) :
    slice v j (j + pre.length) = pre := by
  unfold slice
  rw [List.drop_take]
  simp [h]

theorem drop_of_drop (v pre rest : GoString) (j : Nat) (h : v.drop j = pre ++ rest) :
    v.drop (j + pre.length) = rest := by
  rw [← List.drop_drop, h]
  simp

/-- Loop invariant of the scanning loop for the Excel format: with enough
rounds the loop exits, and what it has appended plus the unscanned tail is the
scanned part with its quotes doubled. -/
theorem quoteLoop_excel (v : GoString) : ∀ (n fuel j : Nat) (b : GoString),
    v.length - j ≤ n → n < fuel →
    (quoteLoop NewExcelCSVRenderer v fuel j b).map (fun jb => jb.2 ++ v.drop jb.1)
      = some (b ++ doubleQuotes (v.drop j)) := by
  intro n
  induction n with
  | zero =>
    intro fuel j b hn hf
    obtain ⟨f, rfl⟩ : ∃ f, fuel = f + 1 := ⟨fuel - 1, by omega⟩
    have hj : ¬ j < v.length := by omega
    have hd : v.drop j = [] := List.drop_eq_nil_of_le (by omega)
    simp [quoteLoop, hj, hd, doubleQuotes]
  | succ n ih =>
    intro fuel j b hn hf
    obtain ⟨f, rfl⟩ : ∃ f, fuel = f + 1 := ⟨fuel - 1, by omega⟩
    by_cases hj : j < v.length
    · simp only [quoteLoop, hj, if_true]
      have hq : NewExcelCSVRenderer.QuoteCharacterStr = [DQUOTE] := rfl
      have hq2 : NewExcelCSVRenderer.QuoteCharacter = [DQUOTE] := rfl
      rw [hq]
      cases hi : Index (v.drop j) [DQUOTE] with
      | none =>
        simp [doubleQuotes_of_not_mem _ (Index_single_none _ _ hi)]
      | some i =>
        obtain ⟨pre, post, hs, hn', hl⟩ := Index_single_some _ _ _ hi
        subst hl
        simp only []
        have hlen : v.length - j = pre.length + 1 + post.length := by
          have := congrArg List.length hs
          simp at this
          omega
        rw [ih f (j + pre.length + [DQUOTE].length) _ (by simp; omega) (by omega)]
        rw [hq2, slice_of_drop v pre _ j hs]
        have hd : v.drop (j + pre.length + [DQUOTE].length) = post := by
          have h1 := drop_of_drop v (pre ++ [DQUOTE]) post j (by simp [hs])
          simpa [Nat.add_assoc] using h1
        rw [hd, hs, doubleQuotes_append, doubleQuotes_of_not_mem pre hn']
        simp [doubleQuotes]
    · have hd : v.drop j = [] := List.drop_eq_nil_of_le (by omega)
      simp [quoteLoop, hj, hd, doubleQuotes]

theorem ContainsAny_excel (v : GoString) :
    ContainsAny v NewExcelCSVRenderer.CharsNeedToBeQuoted = true ↔ hasSpecial v := by
  have hc : NewExcelCSVRenderer.CharsNeedToBeQuoted = [COMMA, CR, LF, DQUOTE] := rfl
  rw [hc, ContainsAny_iff _ _ (by decide)]
  unfold hasSpecial
  constructor
  · rintro ⟨b, hb, hm⟩
    simp only [List.mem_cons, List.mem_singleton, List.not_mem_nil, or_false] at hm
    rcases hm with h | h | h | h <;> subst h <;> simp [hb]
  · rintro (h | h | h | h)
    · exact ⟨_, h, by simp⟩
    · exact ⟨_, h, by simp⟩
    · exact ⟨_, h, by simp⟩
    · exact ⟨_, h, by simp⟩

/-- What `Quote` returns for the Excel format. -/
theorem Quote_excel (v : GoString) :
    NewExcelCSVRenderer.Quote v
      = some (if hasSpecial v then DQUOTE :: doubleQuotes v ++ [DQUOTE] else v) := by
  unfold CSVRenderer.Quote
  by_cases h : hasSpecial v
  · have hc := (ContainsAny_excel v).2 h
    rw [if_pos hc, if_pos h]
    have hq2 : NewExcelCSVRenderer.QuoteCharacter = [DQUOTE] := rfl
    have := quoteLoop_excel v v.length (v.length + 1) 0 [DQUOTE] (by simp) (by omega)
    rw [hq2]
    cases hl : quoteLoop NewExcelCSVRenderer v (v.length + 1) 0 [DQUOTE] with
    | none => rw [hl] at this; simp at this
    | some jb =>
      rw [hl] at this
      simp only [Option.map_some', Option.some.injEq, List.drop_zero] at this
      simp only [Option.map_some', Option.some.injEq]
      rw [this]
      simp
  · have hc : ¬ ContainsAny v NewExcelCSVRenderer.CharsNeedToBeQuoted = true :=
      fun hc => h ((ContainsAny_excel v).1 hc)
    rw [if_neg hc, if_neg h]

theorem collapseQuotes_doubleQuotes : ∀ v : GoString, collapseQuotes (doubleQuotes v) = v := by
  intro v
  induction v with
  | nil => rfl
  | cons b v ih =>
    by_cases hb : b = DQUOTE
    · simp [doubleQuotes, hb, collapseQuotes, ih]
    · simp only [doubleQuotes, hb, if_false]
      cases hd : doubleQuotes v with
      | nil =>
        rw [hd] at ih
        simp [collapseQuotes] at ih ⊢
        exact ih
      | cons c rest =>
        rw [hd] at ih
        simp [collapseQuotes, hb, ih]

/-- C1: for the Excel format, `Quote(v)` is `"` + (v with every `"` doubled) + `"`
when v contains one of `,`, CR, LF, `"`, and is v itself otherwise; the two
sample values of the specification are quoted as it says. -/
theorem C1_quote_excel_exact :
    (∀ v : GoString, NewExcelCSVRenderer.Quote v
      = some (if COMMA ∈ v ∨ CR ∈ v ∨ LF ∈ v ∨ DQUOTE ∈ v
              then [DQUOTE] ++ doubleQuotes v ++ [DQUOTE] else v))
    ∧ NewExcelCSVRenderer.Quote (ascii "Crash, null pointer")
        = some (ascii "\"Crash, null pointer\"")
    ∧ NewExcelCSVRenderer.Quote (ascii "He said \"stop\"")
        = some (ascii "\"He said \"\"stop\"\"\"") := by
  refine ⟨fun v => ?_, by decide, by decide⟩
  rw [Quote_excel]
  rfl

/-- C2: for the Excel format, standard CSV unquoting of `Quote(v)` gives back
v, for every string v. -/
theorem C2_quote_unquote_roundtrip (v : GoString) :
    (NewExcelCSVRenderer.Quote v).map csvUnquote = some v := by
  rw [Quote_excel]
  by_cases h : hasSpecial v
  · rw [if_pos h]
    simp [csvUnquote, collapseQuotes_doubleQuotes]
  · rw [if_neg h]
    have hq : DQUOTE ∉ v := fun hq => h (Or.inr (Or.inr (Or.inr hq)))
    cases v with
    | nil => rfl
    | cons b rest =>
      have hb : b ≠ DQUOTE := by
        intro e; apply hq; simp [e]
      simp [csvUnquote, hb]

/-- C6, as stated, fails: the value consisting of a lone CR contains no `,`, no
CR LF pair and no `"`, and `Quote` encloses it in quotes. -/
theorem C6_lone_cr_is_quoted :
    COMMA ∉ [CR] ∧ ¬ ([CR, LF] <:+: [CR]) ∧ DQUOTE ∉ [CR]
    ∧ NewExcelCSVRenderer.Quote [CR] = some [DQUOTE, CR, DQUOTE]
    ∧ NewExcelCSVRenderer.Quote [CR] ≠ some [CR] := by
  refine ⟨by decide, ?_, by decide, by decide, by decide⟩
  intro h
  have := h.length_le
  simp at this

/-- C6, amended: for the Excel format, a value in which none of the characters
`,`, CR, LF, `"` occurs is returned by `Quote` byte for byte, unquoted. -/
theorem C6_quote_excel_plain (v : GoString)
    (h : COMMA ∉ v ∧ CR ∉ v ∧ LF ∉ v ∧ DQUOTE ∉ v) :
    NewExcelCSVRenderer.Quote v = some v := by
  rw [Quote_excel]
  have : ¬ hasSpecial v := by
    unfold hasSpecial
    tauto
  rw [if_neg this]

/-- C6, amended, at the value `Crash`. -/
theorem C6_quote_excel_plain_witness :
    (COMMA ∉ ascii "Crash" ∧ CR ∉ ascii "Crash" ∧ LF ∉ ascii "Crash" ∧ DQUOTE ∉ ascii "Crash")
    ∧ NewExcelCSVRenderer.Quote (ascii "Crash") = some (ascii "Crash") :=
  ⟨by decide, C6_quote_excel_plain (ascii "Crash") (by decide)⟩

/-! ### Row model -/

theorem PopulateWithEvent_of_created (r : ExporterResult) (ev : Event)
    (hr : r.EventReceived = Time.zero) (hc : ev.DateCreated.isSome) :
    PopulateWithEvent r ev = some (eventRecord r ev) := by
  cases hd : ev.DateCreated with
  | none => simp [hd] at hc
  | some created =>
    simp only [PopulateWithEvent, hd, eventRecord, Option.getD_some, Option.some.injEq]
    cases ht : ev.Typ <;> cases hm : ev.Message <;> cases hrel : ev.Release <;>
      cases hrc : ev.DateReceived <;> cases hp : ev.Platform <;> cases hg : ev.GroupID <;>
      simp [emptyIfNull, StringizeRelease, hr]

theorem buildLoop_eq (base : ExporterResult) (hr : base.EventReceived = Time.zero) :
    ∀ (evs : List Event) (acc : List ExporterResult),
      (∀ ev ∈ evs, ev.DateCreated.isSome) →
      buildLoop evs (base :: acc) = some (base :: acc ++ evs.map (eventRecord base)) := by
  intro evs
  induction evs with
  | nil => intro acc _; simp [buildLoop]
  | cons ev rest ih =>
    intro acc h
    have h1 : ev.DateCreated.isSome := h ev (by simp)
    have h2 : ∀ e ∈ rest, e.DateCreated.isSome := fun e he => h e (by simp [he])
    simp only [buildLoop, List.head?_cons, PopulateWithEvent_of_created base ev hr h1]
    have := ih (acc ++ [eventRecord base ev]) h2
    simpa using this

/-- C3, as stated, fails: for the sample issue (both timestamps present) and a
non-nil empty slice of events the function returns no record at all. -/
theorem C3_empty_events_gives_no_record :
    sampleIssue.FirstSeen = some sampleTime ∧ sampleIssue.LastSeen = some sampleTime
    ∧ BuildExporterResultsForSingleIssue sampleIssue (some []) = some []
    ∧ (BuildExporterResultsForSingleIssue sampleIssue (some [])).map List.length ≠ some 1 := by
  decide

/-- C3, amended: for every issue with first-seen and last-seen present and a
non-nil empty slice of events, the function returns the empty list of records. -/
theorem C3_empty_events_empty_result (issue : Issue) (firstSeen lastSeen : Time)
    (h1 : issue.FirstSeen = some firstSeen) (h2 : issue.LastSeen = some lastSeen) :
    BuildExporterResultsForSingleIssue issue (some []) = some [] := by
  simp [BuildExporterResultsForSingleIssue, h1, h2, buildLoop]

/-- C3, amended, at the sample issue. -/
theorem C3_empty_events_empty_result_witness :
    BuildExporterResultsForSingleIssue sampleIssue (some []) = some [] :=
  C3_empty_events_empty_result sampleIssue sampleTime sampleTime rfl rfl

/-- C4: for every issue with first-seen and last-seen present and a nil events
argument, the function returns exactly one record; its issue fields are taken
from the issue (a nil pointer giving the empty string or 0; the assignee
giving its username, or `(unknown)` when it has none) and its event fields are
all empty strings and zero timestamps. -/
theorem C4_nil_events_one_summary_record (issue : Issue) (firstSeen lastSeen : Time)
    (h1 : issue.FirstSeen = some firstSeen) (h2 : issue.LastSeen = some lastSeen) :
    ∃ r, BuildExporterResultsForSingleIssue issue none = some [r]
      ∧ r.IssueID = issue.ID.getD []
      ∧ r.AssignedTo = (issue.AssignedTo.map
          (fun u => u.Username.getD (ascii "(unknown)"))).getD []
      ∧ r.Count = issue.Count.getD [] ∧ r.Culprit = issue.Culprit.getD []
      ∧ r.FirstSeen = firstSeen ∧ r.LastSeen = lastSeen
      ∧ r.Level = issue.Level.getD [] ∧ r.Logger = issue.Logger.getD []
      ∧ r.Permalink = issue.Permalink.getD []
      ∧ r.Project = (issue.Project.map (fun p => p.Name)).getD []
      ∧ r.ShareID = issue.ShareID.getD [] ∧ r.ShortID = issue.ShortID.getD []
      ∧ r.Status = issue.Status.getD [] ∧ r.Title = issue.Title.getD []
      ∧ r.IssueType = issue.Typ.getD []
      ∧ r.UserCount = issue.UserCount.getD 0 ∧ r.UserReportCount = issue.UserReportCount.getD 0
      ∧ r.EventID = [] ∧ r.EventType = [] ∧ r.Release = [] ∧ r.Message = []
      ∧ r.Platform = [] ∧ r.GroupID = []
      ∧ r.EventCreated = Time.zero ∧ r.EventReceived = Time.zero := by
  simp only [BuildExporterResultsForSingleIssue, h1, h2]
  refine ⟨_, rfl, ?_⟩
  refine ⟨?_, ?_, ?_, ?_, rfl, rfl, ?_, ?_, ?_, ?_, ?_, ?_, ?_, ?_, ?_, ?_, ?_,
    rfl, rfl, rfl, rfl, rfl, rfl, rfl, rfl⟩
  · cases issue.ID <;> rfl
  · cases issue.AssignedTo with
    | none => rfl
    | some u => cases hu : u.Username <;> simp [StringizeInternalUser, hu]
  · cases issue.Count <;> rfl
  · cases issue.Culprit <;> rfl
  · cases issue.Level <;> rfl
  · cases issue.Logger <;> rfl
  · cases issue.Permalink <;> rfl
  · cases issue.Project <;> rfl
  · cases issue.ShareID <;> rfl
  · cases issue.ShortID <;> rfl
  · cases issue.Status <;> rfl
  · cases issue.Title <;> rfl
  · cases issue.Typ <;> rfl
  · cases issue.UserCount <;> rfl
  · cases issue.UserReportCount <;> rfl

/-- C4 at the sample issue `{ID: "1", Title: "Crash"}` assigned to the user
`alice`. -/
theorem C4_nil_events_one_summary_record_witness :
    ∃ r, BuildExporterResultsForSingleIssue assignedIssue none = some [r]
      ∧ r.IssueID = ascii "1" ∧ r.AssignedTo = ascii "alice" ∧ r.Title = ascii "Crash"
      ∧ r.EventID = [] ∧ r.EventCreated = Time.zero ∧ r.EventReceived = Time.zero := by
  obtain ⟨r, h, hid, ha, _, _, _, _, _, _, _, _, _, _, _, ht, _, _, _, he, _, _, _, _, _, hc,
      hr⟩ :=
    C4_nil_events_one_summary_record assignedIssue sampleTime sampleTime rfl rfl
  exact ⟨r, h, hid, ha, ht, he, hc, hr⟩

/-- C5: for every issue with first-seen and last-seen present and every list
of N events whose creation dates are present (a non-empty list in particular),
the function returns exactly N records in event order; the i-th record has
the issue fields of the summary record built from the same issue with nil
events, and its event fields are those of the i-th event alone, a nil optional
field (the receipt timestamp included) giving the empty string or the zero
timestamp.  The summary record itself is not in the result. -/
theorem C5_one_record_per_event (issue : Issue) (firstSeen lastSeen : Time) (evs : List Event)
    (h1 : issue.FirstSeen = some firstSeen) (h2 : issue.LastSeen = some lastSeen)
    (hc : ∀ ev ∈ evs, ev.DateCreated.isSome) :
    ∃ base, BuildExporterResultsForSingleIssue issue none = some [base]
      ∧ BuildExporterResultsForSingleIssue issue (some evs) = some (evs.map (eventRecord base))
      ∧ (evs.map (eventRecord base)).length = evs.length := by
  simp only [BuildExporterResultsForSingleIssue, h1, h2]
  refine ⟨_, rfl, ?_, by simp⟩
  rw [buildLoop_eq _ rfl evs [] hc]
  simp

/-- C5 at the sample issue and two sample events. -/
theorem C5_one_record_per_event_witness :
    ∃ base, BuildExporterResultsForSingleIssue sampleIssue none = some [base]
      ∧ BuildExporterResultsForSingleIssue sampleIssue (some [sampleEvent2, sampleEvent])
          = some ([sampleEvent2, sampleEvent].map (eventRecord base))
      ∧ ([sampleEvent2, sampleEvent].map (eventRecord base)).length = 2 :=
  C5_one_record_per_event sampleIssue sampleTime sampleTime [sampleEvent2, sampleEvent] rfl rfl
    (by decide)

/-! ### The sink -/

theorem Write_of_neverFails (w : Writer) (p : GoString) (h : w.NeverFails) :
    w.Write p = ({ w with written := w.written ++ p, calls := w.calls + 1 }, none) := by
  unfold Writer.Write
  rw [h w.calls]

theorem neverFails_after (w : Writer) (out : GoString) (n : Nat) (h : w.NeverFails) :
    Writer.NeverFails { w with written := out, calls := n } := h

/-! ### The reference reader on rendered fields -/

theorem bytes_distinct :
    COMMA ≠ DQUOTE ∧ CR ≠ DQUOTE ∧ CR ≠ COMMA ∧ LF ≠ DQUOTE ∧ LF ≠ COMMA ∧ LF ≠ CR := by
  decide

theorem csvRun_quoted_body : ∀ (v : GoString) (a : CsvAcc) (rest : GoString),
    csvRun .quoted a (doubleQuotes v ++ DQUOTE :: rest)
      = csvRun .quoteSeen ⟨a.field ++ v, a.fields, a.records⟩ rest := by
  intro v
  induction v with
  | nil => intro a rest; simp [doubleQuotes, csvRun, csvStep]
  | cons b v ih =>
    intro a rest
    by_cases hb : b = DQUOTE
    · subst hb
      simp [doubleQuotes, csvRun, csvStep, ih, CsvAcc.push]
    · simp [doubleQuotes, hb, csvRun, csvStep, ih, CsvAcc.push]

theorem csvRun_plain_body : ∀ (v : GoString), ¬ hasSpecial v → ∀ (a : CsvAcc) (rest : GoString),
    csvRun .plain a (v ++ rest) = csvRun .plain ⟨a.field ++ v, a.fields, a.records⟩ rest := by
  intro v
  induction v with
  | nil => intro _ a rest; simp
  | cons b v ih =>
    intro h a rest
    have h' : ¬ hasSpecial v := by
      intro hv; apply h
      unfold hasSpecial at hv ⊢
      simp only [List.mem_cons]
      tauto
    have hb : b ≠ COMMA ∧ b ≠ CR ∧ b ≠ LF ∧ b ≠ DQUOTE := by
      unfold hasSpecial at h
      simp only [List.mem_cons, not_or] at h
      exact ⟨fun e => h.1.1 e.symm, fun e => h.2.1.1 e.symm, fun e => h.2.2.1.1 e.symm,
        fun e => h.2.2.2.1 e.symm⟩
    simp [csvRun, csvStep, hb.1, hb.2.1, hb.2.2.1, hb.2.2.2, ih h', CsvAcc.push]

theorem csvRun_comma (st : CsvState) (h : st.atDelim) (a : CsvAcc) (rest : GoString) :
    csvRun st a (COMMA :: rest) = csvRun .fieldStart a.endField rest := by
  obtain ⟨h1, -, -, -, -, -⟩ := bytes_distinct
  rcases h with h | h | h <;> subst h <;> simp [csvRun, csvStep, h1]

theorem csvRun_crlf (st : CsvState) (h : st.atDelim) (a : CsvAcc) (rest : GoString) :
    csvRun st a (CR :: LF :: rest) = csvRun .fieldStart a.endField.endRecord rest := by
  obtain ⟨-, h2, h3, -, -, -⟩ := bytes_distinct
  rcases h with h | h | h <;> subst h <;> simp [csvRun, csvStep, h2, h3]

theorem csvRun_field (v : GoString) (a : CsvAcc) (rest : GoString) :
    ∃ st : CsvState, st.atDelim ∧
      csvRun .fieldStart a (excelField v ++ rest)
        = csvRun st ⟨a.field ++ v, a.fields, a.records⟩ rest := by
  unfold excelField
  by_cases h : hasSpecial v
  · refine ⟨.quoteSeen, Or.inr (Or.inr rfl), ?_⟩
    rw [if_pos h]
    have := csvRun_quoted_body v a rest
    simpa [csvRun, csvStep] using this
  · rw [if_neg h]
    cases v with
    | nil => exact ⟨.fieldStart, Or.inl rfl, by simp⟩
    | cons b v =>
      refine ⟨.plain, Or.inr (Or.inl rfl), ?_⟩
      have h' : ¬ hasSpecial v := by
        intro hv; apply h
        unfold hasSpecial at hv ⊢
        simp only [List.mem_cons]
        tauto
      have hb : b ≠ COMMA ∧ b ≠ CR ∧ b ≠ LF ∧ b ≠ DQUOTE := by
        unfold hasSpecial at h
        simp only [List.mem_cons, not_or] at h
        exact ⟨fun e => h.1.1 e.symm, fun e => h.2.1.1 e.symm, fun e => h.2.2.1.1 e.symm,
          fun e => h.2.2.2.1 e.symm⟩
      have := csvRun_plain_body v h' (a.push b) rest
      simp only [CsvAcc.push, List.append_assoc, List.singleton_append] at this
      simp [csvRun, csvStep, hb.1, hb.2.1, hb.2.2.1, hb.2.2.2, this, CsvAcc.push]

theorem csvRun_row_tail : ∀ (fs : List GoString) (i : Nat) (st : CsvState) (a : CsvAcc),
    st.atDelim →
    csvRun st a (excelFields (i + 1) fs ++ [CR, LF])
      = some (a.records ++ [a.fields ++ a.field :: fs]) := by
  intro fs
  induction fs with
  | nil =>
    intro i st a h
    simp only [excelFields, List.nil_append]
    rw [csvRun_crlf st h]
    simp [csvRun, csvFinish, CsvAcc.endField, CsvAcc.endRecord]
  | cons f fs ih =>
    intro i st a h
    simp only [excelFields, Nat.succ_pos, if_true, List.append_assoc, List.singleton_append,
      gt_iff_lt, Nat.zero_lt_succ, List.cons_append]
    rw [csvRun_comma st h]
    simp only [List.nil_append]
    obtain ⟨st1, h1, e1⟩ := csvRun_field f a.endField (excelFields (i + 1 + 1) fs ++ [CR, LF])
    rw [e1, ih (i + 1) st1 _ h1]
    simp [CsvAcc.endField]

theorem csvParse_row (f : GoString) (fs : List GoString) :
    csvParse (excelFields 0 (f :: fs) ++ [CR, LF]) = some [f :: fs] := by
  unfold csvParse
  simp only [excelFields, lt_self_iff_false, if_false, List.nil_append, List.append_assoc,
    gt_iff_lt, Nat.zero_add]
  obtain ⟨st1, h1, e1⟩ := csvRun_field f ⟨[], [], []⟩ (excelFields 1 fs ++ [CR, LF])
  rw [e1, csvRun_row_tail fs 0 st1 _ h1]
  simp

/-! ### The renderer on a sink that never fails -/

theorem renderOneFrom_excel (fmt : Time → GoString) : ∀ (vals : List Value) (i : Nat) (w : Writer),
    w.NeverFails →
    renderOneFrom fmt NewExcelCSVRenderer i vals w
      = some ({ w with
                written := w.written ++ excelFields i (vals.map (RenderValue fmt))
                calls := w.calls + (if i > 0 then 2 * vals.length else 2 * vals.length - 1) },
              none) := by
  intro vals
  induction vals with
  | nil => intro i w _; simp [renderOneFrom, excelFields]
  | cons v rest ih =>
    intro i w h
    have hsep : NewExcelCSVRenderer.FieldSeparator = [COMMA] := rfl
    simp only [renderOneFrom, hsep, Quote_excel]
    by_cases hi : i > 0
    · simp only [hi, if_true, Write_of_neverFails w _ h]
      rw [Write_of_neverFails _ _ (neverFails_after w _ _ h)]
      simp only []
      rw [ih (i + 1) _ (neverFails_after w _ _ h)]
      simp [excelFields, excelField, hi]
      omega
    · simp only [hi, if_false, Write_of_neverFails w _ h]
      rw [ih (i + 1) _ (neverFails_after w _ _ h)]
      simp [excelFields, excelField, hi]
      omega

theorem RenderOne_excel (fmt : Time → GoString) (r : ExporterResult) (w : Writer)
    (h : w.NeverFails) :
    NewExcelCSVRenderer.RenderOne fmt r w
      = some ({ w with written := w.written ++ excelRow fmt r, calls := w.calls + 50 }, none) := by
  unfold CSVRenderer.RenderOne
  rw [renderOneFrom_excel fmt _ 0 w h]
  simp only []
  rw [Write_of_neverFails _ _ (neverFails_after w _ _ h)]
  simp [excelRow, ExporterResult.fields]
  rfl

/-- C7: for the Excel format and a sink that never fails, `RenderOne(r)`
returns without error and the bytes it appends to the sink, read back with the
standard CSV rules, are exactly one record of exactly 25 fields, the i-th of
which is `RenderValue` of the i-th field of r in declaration order. -/
theorem C7_rendered_row_reads_back (fmt : Time → GoString) (r : ExporterResult) (w : Writer)
    (h : w.NeverFails) :
    ∃ w1 bytes, NewExcelCSVRenderer.RenderOne fmt r w = some (w1, none)
      ∧ w1.written = w.written ++ bytes
      ∧ csvParse bytes = some [r.fields.map (RenderValue fmt)]
      ∧ (r.fields.map (RenderValue fmt)).length = 25 := by
  refine ⟨_, excelRow fmt r, RenderOne_excel fmt r w h, rfl, ?_, by simp [ExporterResult.fields]⟩
  unfold excelRow
  simp only [ExporterResult.fields, List.map_cons]
  exact csvParse_row _ _

/-- C7 at the sample record, on an empty sink that never fails. -/
theorem C7_rendered_row_reads_back_witness :
    Writer.fresh.NeverFails ∧
    ∃ w1 bytes, NewExcelCSVRenderer.RenderOne sampleFormat sampleRecord Writer.fresh = some (w1, none)
      ∧ w1.written = Writer.fresh.written ++ bytes
      ∧ csvParse bytes = some [sampleRecord.fields.map (RenderValue sampleFormat)]
      ∧ (sampleRecord.fields.map (RenderValue sampleFormat)).length = 25 :=
  ⟨fun _ => rfl, C7_rendered_row_reads_back sampleFormat sampleRecord Writer.fresh (fun _ => rfl)⟩

theorem renderHeaderFrom_of_neverFails (r : CSVRenderer) :
    ∀ (names : List GoString) (i : Nat) (w : Writer), w.NeverFails →
    renderHeaderFrom r i names w
      = ({ w with
           written := w.written ++ headerFields r i names
           calls := w.calls + (if i > 0 then 2 * names.length else 2 * names.length - 1) },
         none) := by
  intro names
  induction names with
  | nil => intro i w _; simp [renderHeaderFrom, headerFields]
  | cons name rest ih =>
    intro i w h
    simp only [renderHeaderFrom]
    by_cases hi : i > 0
    · simp only [hi, if_true, Write_of_neverFails w _ h]
      rw [Write_of_neverFails _ _ (neverFails_after w _ _ h)]
      simp only []
      rw [ih (i + 1) _ (neverFails_after w _ _ h)]
      simp [headerFields, hi]
      omega
    · simp only [hi, if_false, Write_of_neverFails w _ h]
      rw [ih (i + 1) _ (neverFails_after w _ _ h)]
      simp [headerFields, hi]
      omega

set_option maxRecDepth 100000 in
theorem RenderHeader_excel (w : Writer) (h : w.NeverFails) :
    NewExcelCSVRenderer.RenderHeader w
      = ({ w with written := w.written ++ excelHeader, calls := w.calls + 50 }, none) := by
  unfold CSVRenderer.RenderHeader
  rw [renderHeaderFrom_of_neverFails _ _ 0 w h]
  simp only []
  rw [Write_of_neverFails _ _ (neverFails_after w _ _ h)]
  have hb : headerFields NewExcelCSVRenderer 0 ExporterResult.fieldNames
      ++ NewExcelCSVRenderer.RecordSeparator = excelHeader := by decide
  simp [← hb, ExporterResult.fieldNames]

/-- C8: for the Excel format and a sink that never fails, `RenderHeader`
returns without error and appends to the sink exactly the 25 field names in
declaration order, separated by `,` and followed by CR LF, whatever the sink
already holds. -/
theorem C8_header_row_fixed (w : Writer) (h : w.NeverFails) :
    ∃ w1, NewExcelCSVRenderer.RenderHeader w = (w1, none)
      ∧ w1.written = w.written ++ ascii
          ("IssueID,AssignedTo,Count,Culprit,FirstSeen,LastSeen,Level,Logger,Permalink," ++
           "Project,ShareID,ShortID,Status,Title,IssueType,UserCount,UserReportCount,EventID," ++
           "EventType,Release,Message,EventCreated,EventReceived,Platform,GroupID\r\n")
      ∧ w1.NeverFails := by
  refine ⟨_, RenderHeader_excel w h, ?_, neverFails_after w _ _ h⟩
  show w.written ++ excelHeader = _
  congr 1

/-- C8 on an empty sink that never fails. -/
theorem C8_header_row_fixed_witness :
    Writer.fresh.NeverFails ∧
    ∃ w1, NewExcelCSVRenderer.RenderHeader Writer.fresh = (w1, none)
      ∧ w1.written = Writer.fresh.written ++ ascii
          ("IssueID,AssignedTo,Count,Culprit,FirstSeen,LastSeen,Level,Logger,Permalink," ++
           "Project,ShareID,ShortID,Status,Title,IssueType,UserCount,UserReportCount,EventID," ++
           "EventType,Release,Message,EventCreated,EventReceived,Platform,GroupID\r\n")
      ∧ w1.NeverFails :=
  ⟨fun _ => rfl, C8_header_row_fixed Writer.fresh (fun _ => rfl)⟩

/-! ### Termination of `Quote` for a non-empty quote character -/

theorem Index_some_le : ∀ (s q : GoString) (i : Nat), Index s q = some i →
    i + q.length ≤ s.length := by
  intro s
  induction s with
  | nil =>
    intro q i h
    by_cases hq : q = []
    · subst hq; simp [Index] at h; simp [h]
    · simp [Index, hq] at h
  | cons b s ih =>
    intro q i h
    simp only [Index] at h
    by_cases hp : q.isPrefixOf (b :: s) = true
    · rw [if_pos hp] at h
      have := (List.isPrefixOf_iff_prefix.1 hp).length_le
      simp only [Option.some.injEq] at h
      omega
    · rw [if_neg hp] at h
      simp only [Option.map_eq_some'] at h
      obtain ⟨k, hk, rfl⟩ := h
      have := ih q k hk
      simp only [List.length_cons]
      omega

theorem quoteLoop_isSome (r : CSVRenderer) (v : GoString) (hq : r.QuoteCharacterStr ≠ []) :
    ∀ (n fuel j : Nat) (b : GoString), v.length - j ≤ n → n < fuel →
      ∃ jb, quoteLoop r v fuel j b = some jb := by
  intro n
  induction n with
  | zero =>
    intro fuel j b hn hf
    obtain ⟨f, rfl⟩ : ∃ f, fuel = f + 1 := ⟨fuel - 1, by omega⟩
    have hj : ¬ j < v.length := by omega
    exact ⟨(j, b), by simp [quoteLoop, hj]⟩
  | succ n ih =>
    intro fuel j b hn hf
    obtain ⟨f, rfl⟩ : ∃ f, fuel = f + 1 := ⟨fuel - 1, by omega⟩
    by_cases hj : j < v.length
    · simp only [quoteLoop, hj, if_true]
      cases hi : Index (v.drop j) r.QuoteCharacterStr with
      | none => exact ⟨(j, b), rfl⟩
      | some i =>
        have hle := Index_some_le _ _ _ hi
        rw [List.length_drop] at hle
        have hpos : 0 < r.QuoteCharacterStr.length := List.length_pos.2 hq
        exact ih f _ _ (by omega) (by omega)
    · exact ⟨(j, b), by simp [quoteLoop, hj]⟩

theorem Index_empty (s : GoString) : Index s [] = some 0 := by
  cases s <;> simp [Index, List.isPrefixOf]

theorem quoteLoop_empty_quote (r : CSVRenderer) (v : GoString) (hq : r.QuoteCharacterStr = []) :
    ∀ (fuel j : Nat) (b : GoString), j < v.length → quoteLoop r v fuel j b = none := by
  intro fuel
  induction fuel with
  | zero => intro j b _; rfl
  | succ f ih =>
    intro j b hj
    simp only [quoteLoop, hj, if_true, hq, Index_empty, List.length_nil, Nat.add_zero]
    exact ih j _ hj

theorem Quote_isSome (r : CSVRenderer) (v : GoString) (hq : r.QuoteCharacterStr ≠ []) :
    ∃ q, r.Quote v = some q := by
  unfold CSVRenderer.Quote
  by_cases hc : ContainsAny v r.CharsNeedToBeQuoted = true
  · rw [if_pos hc]
    obtain ⟨jb, hjb⟩ := quoteLoop_isSome r v hq v.length (v.length + 1) 0 r.QuoteCharacter
      (by simp) (by omega)
    exact ⟨_, by rw [hjb]; rfl⟩
  · rw [if_neg hc]
    exact ⟨v, rfl⟩

/-! ### Rendering on a sink that never fails, any format -/

theorem renderOneFrom_of_neverFails (fmt : Time → GoString) (r : CSVRenderer) :
    ∀ (vals : List Value) (i : Nat) (w : Writer), w.NeverFails →
      renderOneFrom fmt r i vals w = none
      ∨ ∃ w1, renderOneFrom fmt r i vals w = some (w1, none) ∧ w1.NeverFails := by
  intro vals
  induction vals with
  | nil => intro i w h; exact Or.inr ⟨w, rfl, h⟩
  | cons v rest ih =>
    intro i w h
    simp only [renderOneFrom]
    by_cases hi : i > 0
    · simp only [hi, if_true, Write_of_neverFails w _ h]
      cases hq : r.Quote (RenderValue fmt v) with
      | none => exact Or.inl rfl
      | some q =>
        simp only []
        rw [Write_of_neverFails _ _ (neverFails_after w _ _ h)]
        exact ih (i + 1) _ (neverFails_after w _ _ h)
    · simp only [hi, if_false]
      cases hq : r.Quote (RenderValue fmt v) with
      | none => exact Or.inl rfl
      | some q =>
        simp only []
        rw [Write_of_neverFails _ _ h]
        exact ih (i + 1) _ (neverFails_after w _ _ h)

theorem renderOneFrom_returns (fmt : Time → GoString) (r : CSVRenderer)
    (hq : r.QuoteCharacterStr ≠ []) :
    ∀ (vals : List Value) (i : Nat) (w : Writer), renderOneFrom fmt r i vals w ≠ none := by
  intro vals
  induction vals with
  | nil => intro i w; simp [renderOneFrom]
  | cons v rest ih =>
    intro i w
    obtain ⟨q, hq'⟩ := Quote_isSome r (RenderValue fmt v) hq
    simp only [renderOneFrom, hq']
    split
    · simp
    · split
      · simp
      · exact ih _ _

theorem RenderOne_of_neverFails (fmt : Time → GoString) (r : CSVRenderer) (res : ExporterResult)
    (w : Writer) (h : w.NeverFails) :
    r.RenderOne fmt res w = none
    ∨ ∃ w1, r.RenderOne fmt res w = some (w1, none) ∧ w1.NeverFails := by
  unfold CSVRenderer.RenderOne
  rcases renderOneFrom_of_neverFails fmt r res.fields 0 w h with h0 | ⟨w1, h1, hn⟩
  · rw [h0]; exact Or.inl rfl
  · rw [h1]
    simp only []
    rw [Write_of_neverFails _ _ hn]
    exact Or.inr ⟨_, rfl, neverFails_after w1 _ _ hn⟩

theorem RenderOne_returns (fmt : Time → GoString) (r : CSVRenderer)
    (hq : r.QuoteCharacterStr ≠ []) (res : ExporterResult) (w : Writer) :
    r.RenderOne fmt res w ≠ none := by
  unfold CSVRenderer.RenderOne
  have := renderOneFrom_returns fmt r hq res.fields 0 w
  split
  · contradiction
  · simp
  · simp

theorem RenderPartialResults_of_neverFails (fmt : Time → GoString) (r : CSVRenderer) :
    ∀ (rows : List ExporterResult) (w : Writer), w.NeverFails →
      r.RenderPartialResults fmt rows w = none
      ∨ ∃ w1, r.RenderPartialResults fmt rows w = some (w1, none) ∧ w1.NeverFails := by
  intro rows
  induction rows with
  | nil => intro w h; exact Or.inr ⟨w, rfl, h⟩
  | cons res rest ih =>
    intro w h
    simp only [CSVRenderer.RenderPartialResults]
    rcases RenderOne_of_neverFails fmt r res w h with h0 | ⟨w1, h1, hn⟩
    · rw [h0]; exact Or.inl rfl
    · rw [h1]; exact ih w1 hn

theorem RenderPartialResults_returns (fmt : Time → GoString) (r : CSVRenderer)
    (hq : r.QuoteCharacterStr ≠ []) :
    ∀ (rows : List ExporterResult) (w : Writer), r.RenderPartialResults fmt rows w ≠ none := by
  intro rows
  induction rows with
  | nil => intro w; simp [CSVRenderer.RenderPartialResults]
  | cons res rest ih =>
    intro w
    simp only [CSVRenderer.RenderPartialResults]
    have := RenderOne_returns fmt r hq res w
    split
    · contradiction
    · simp
    · exact ih _

theorem RenderPartialResults_append (fmt : Time → GoString) (r : CSVRenderer) :
    ∀ (a b : List ExporterResult) (w : Writer), w.NeverFails →
      (r.RenderPartialResults fmt a w).bind (fun p => r.RenderPartialResults fmt b p.1)
        = r.RenderPartialResults fmt (a ++ b) w := by
  intro a
  induction a with
  | nil => intro b w _; simp [CSVRenderer.RenderPartialResults]
  | cons res rest ih =>
    intro b w h
    simp only [CSVRenderer.RenderPartialResults, List.cons_append]
    rcases RenderOne_of_neverFails fmt r res w h with h0 | ⟨w1, h1, hn⟩
    · rw [h0]; rfl
    · rw [h1]; exact ih b w1 hn

/-- C9: for every render format and a sink that never fails, rendering the
records a and then the records b leaves the sink exactly as one call on
a ++ b does (when the first call does not return, neither does the single
call); rendering the empty list leaves the sink untouched; and for a
non-empty quote character the call on a ++ b returns, without error. -/
theorem C9_partial_results_concatenate (fmt : Time → GoString) (r : CSVRenderer)
    (a b : List ExporterResult) (w : Writer) (h : w.NeverFails) :
    (r.RenderPartialResults fmt a w).bind (fun p => r.RenderPartialResults fmt b p.1)
        = r.RenderPartialResults fmt (a ++ b) w
    ∧ r.RenderPartialResults fmt [] w = some (w, none)
    ∧ (r.QuoteCharacterStr ≠ [] →
        ∃ w1, r.RenderPartialResults fmt (a ++ b) w = some (w1, none)) := by
  refine ⟨RenderPartialResults_append fmt r a b w h, rfl, fun hq => ?_⟩
  rcases RenderPartialResults_of_neverFails fmt r (a ++ b) w h with h0 | ⟨w1, h1, _⟩
  · exact absurd h0 (RenderPartialResults_returns fmt r hq _ _)
  · exact ⟨w1, h1⟩

/-- C9 for the Excel format at lists of sample records. -/
theorem C9_partial_results_concatenate_witness :
    Writer.fresh.NeverFails
    ∧ (NewExcelCSVRenderer.RenderPartialResults sampleFormat [sampleRecord] Writer.fresh).bind
          (fun p => NewExcelCSVRenderer.RenderPartialResults sampleFormat [sampleRecord, sampleRecord] p.1)
        = NewExcelCSVRenderer.RenderPartialResults sampleFormat
            ([sampleRecord] ++ [sampleRecord, sampleRecord]) Writer.fresh
    ∧ ∃ w1, NewExcelCSVRenderer.RenderPartialResults sampleFormat
            ([sampleRecord] ++ [sampleRecord, sampleRecord]) Writer.fresh = some (w1, none) :=
  have h := C9_partial_results_concatenate sampleFormat NewExcelCSVRenderer [sampleRecord]
    [sampleRecord, sampleRecord] Writer.fresh (fun _ => rfl)
  ⟨fun _ => rfl, h.1, h.2.2 (by decide)⟩

/-! ### The pipeline with expansion disabled -/

theorem RenderPartialResults_excel (fmt : Time → GoString) :
    ∀ (rows : List ExporterResult) (w : Writer), w.NeverFails →
      NewExcelCSVRenderer.RenderPartialResults fmt rows w
        = some ({ w with written := w.written ++ excelRows fmt rows
                         calls := w.calls + 50 * rows.length }, none) := by
  intro rows
  induction rows with
  | nil => intro w _; simp [CSVRenderer.RenderPartialResults, excelRows]
  | cons r rest ih =>
    intro w h
    simp only [CSVRenderer.RenderPartialResults, RenderOne_excel fmt r w h]
    rw [ih _ (neverFails_after w _ _ h)]
    simp [excelRows]
    omega

theorem summaryRows_append : ∀ (a b : List Issue) (ra rb : List ExporterResult),
    summaryRows a = some ra → summaryRows b = some rb →
    summaryRows (a ++ b) = some (ra ++ rb) := by
  intro a
  induction a with
  | nil => intro b ra rb ha hb; simp [summaryRows] at ha; subst ha; simpa using hb
  | cons x a ih =>
    intro b ra rb ha hb
    simp only [summaryRows, List.cons_append] at ha ⊢
    cases hx : BuildExporterResultsForSingleIssue x none with
    | none => simp [hx] at ha
    | some rx =>
      cases hs : summaryRows a with
      | none => simp [hx, hs] at ha
      | some rs =>
        simp [hx, hs] at ha
        subst ha
        simp [ih b rs rb hs hb]

theorem excelRows_append (fmt : Time → GoString) (a b : List ExporterResult) :
    excelRows fmt (a ++ b) = excelRows fmt a ++ excelRows fmt b := by
  induction a with
  | nil => rfl
  | cons r a ih => simp [excelRows, ih]

theorem build_nil_events (issue : Issue) (firstSeen lastSeen : Time)
    (h1 : issue.FirstSeen = some firstSeen) (h2 : issue.LastSeen = some lastSeen) :
    ∃ r, BuildExporterResultsForSingleIssue issue none = some [r] := by
  simp only [BuildExporterResultsForSingleIssue, h1, h2]
  exact ⟨_, rfl⟩

theorem buildAndRender_summary {σ : Type} (fmt : Time → GoString) (exp : Exporter σ)
    (hr : exp.Renderer = NewExcelCSVRenderer) (issue : Issue) (s : World σ)
    (hw : s.out.NeverFails) (ht : issue.FirstSeen.isSome ∧ issue.LastSeen.isSome) :
    ∃ s1 r, buildAndRender fmt exp issue none s = some (s1, none)
      ∧ BuildExporterResultsForSingleIssue issue none = some [r]
      ∧ s1.svc = s.svc ∧ s1.out.written = s.out.written ++ excelRow fmt r
      ∧ s1.out.NeverFails ∧ s1.log = s.log ++ [Call.RenderPartialResults [r]] := by
  obtain ⟨h1, h2⟩ := ht
  obtain ⟨firstSeen, hf⟩ := Option.isSome_iff_exists.1 h1
  obtain ⟨lastSeen, hl⟩ := Option.isSome_iff_exists.1 h2
  obtain ⟨r, hb⟩ := build_nil_events issue firstSeen lastSeen hf hl
  have e : buildAndRender fmt exp issue none s
      = some ({ s with
                out := { s.out with written := s.out.written ++ excelRows fmt [r]
                                    calls := s.out.calls + 50 * [r].length }
                log := s.log ++ [Call.RenderPartialResults [r]] }, none) := by
    simp only [buildAndRender, hb, renderRows, hr, RenderPartialResults_excel fmt _ _ hw]
  exact ⟨_, r, e, hb, rfl, by simp [excelRows], neverFails_after _ _ _ hw, rfl⟩

theorem renderIssuesOnly_ok {σ : Type} (fmt : Time → GoString) (exp : Exporter σ)
    (hr : exp.Renderer = NewExcelCSVRenderer) :
    ∀ (issues : List Issue) (s : World σ), s.out.NeverFails →
      (∀ issue ∈ issues, issue.FirstSeen.isSome ∧ issue.LastSeen.isSome) →
      ∃ s1 rows, renderIssuesOnly fmt exp issues s = some (s1, Exit.ok)
        ∧ summaryRows issues = some rows ∧ rows.length = issues.length
        ∧ s1.svc = s.svc ∧ s1.out.written = s.out.written ++ excelRows fmt rows
        ∧ s1.out.NeverFails ∧ issueFetches s1.log = issueFetches s.log
        ∧ issueListings s1.log = issueListings s.log := by
  intro issues
  induction issues with
  | nil => intro s hw _; exact ⟨s, [], rfl, rfl, rfl, rfl, by simp [excelRows], hw, rfl, rfl⟩
  | cons issue rest ih =>
    intro s hw ht
    obtain ⟨s1, r, e1, hb, hsvc, hout, hnf, hlog⟩ :=
      buildAndRender_summary fmt exp hr issue s hw (ht issue (by simp))
    obtain ⟨s2, rows, e2, hrows, hlen, hsvc2, hout2, hnf2, hlog2, hlis2⟩ :=
      ih s1 hnf (fun i hi => ht i (by simp [hi]))
    refine ⟨s2, r :: rows, ?_, ?_, by simp [hlen], by rw [hsvc2, hsvc], ?_, hnf2, ?_, ?_⟩
    · simp only [renderIssuesOnly, e1, e2]
    · simp [summaryRows, hb, hrows]
    · rw [hout2, hout]; simp [excelRows]
    · rw [hlog2, hlog]; simp [issueFetches, Call.isIssueFetch]
    · rw [hlis2, hlog]; simp [issueListings, Call.isListing]

theorem issuePageLoop_ok {σ : Type} (fmt : Time → GoString) (exp : Exporter σ) (n : Nat)
    (hc : exp.config.IncludeEvents = false) (hr : exp.Renderer = NewExcelCSVRenderer) (s4 : σ) :
    ∀ (later : List (List Issue)) (link : Option Link) (s : World σ) (fuel : Nat),
      ServesIssuePages exp.Client s.svc link later s4 → s.out.NeverFails →
      (∀ issue ∈ later.flatten, issue.FirstSeen.isSome ∧ issue.LastSeen.isSome) →
      later.length < fuel →
      ∃ s1 rows, issuePageLoop fmt exp n fuel link s = some (s1, Exit.ok)
        ∧ summaryRows later.flatten = some rows ∧ rows.length = later.flatten.length
        ∧ s1.svc = s4 ∧ s1.out.written = s.out.written ++ excelRows fmt rows
        ∧ s1.out.NeverFails ∧ issueFetches s1.log = issueFetches s.log + later.length
        ∧ issueListings s1.log = issueListings s.log := by
  intro later
  induction later with
  | nil =>
    intro link s fuel hp hw _ hf
    obtain ⟨f, rfl⟩ : ∃ f, fuel = f + 1 := ⟨fuel - 1, by omega⟩
    obtain ⟨hlast, hs⟩ := hp
    refine ⟨s, [], ?_, rfl, rfl, hs.symm, by simp [excelRows], hw, rfl, rfl⟩
    cases link with
    | none => rfl
    | some l => simp [issuePageLoop, hlast l rfl]
  | cons page rest ih =>
    intro link s fuel hp hw ht hf
    obtain ⟨f, rfl⟩ : ∃ f, fuel = f + 1 := ⟨fuel - 1, by omega⟩
    obtain ⟨l, s2, nextLink, hl, hres, hget, hrest⟩ := hp
    subst hl
    obtain ⟨sa, rowsa, ea, hra, hlena, hsvca, houta, hnfa, hloga, hlisa⟩ :=
      renderIssuesOnly_ok fmt exp hr page
        { s with svc := s2, log := s.log ++ [Call.GetPage l.Next .issues] } hw
        (fun i hi => ht i (by simp [hi]))
    obtain ⟨sb, rowsb, eb, hrb, hlenb, hsvcb, houtb, hnfb, hlogb, hlisb⟩ :=
      ih nextLink sa f (by rw [hsvca]; exact hrest) hnfa
        (fun i hi => ht i (by simp only [List.flatten_cons, List.mem_append]; exact Or.inr hi))
        (by simp at hf; omega)
    refine ⟨sb, rowsa ++ rowsb, ?_, ?_, ?_, hsvcb, ?_, hnfb, ?_, ?_⟩
    · simp only [issuePageLoop, hres, if_true, hget, Exporter.RenderIssues, hc, ea]
      exact eb
    · simpa using summaryRows_append _ _ _ _ hra hrb
    · simp [hlena, hlenb]
    · rw [houtb, houta]; simp [excelRows_append]
    · rw [hlogb, hloga]; simp [issueFetches, Call.isIssueFetch]; omega
    · rw [hlisb, hlisa]; simp [issueListings, Call.isListing]

set_option maxRecDepth 100000 in
/-- C10, as stated, fails: with expansion disabled, a sink that never fails and
a mock service whose lookups succeed and which returns one page holding one
issue, `Export` panics when that issue has no first-seen timestamp; the output
is the header row alone and no error is returned to the caller. -/
theorem C10_undated_issue_panics :
    (mockExporter [[undatedIssue]]).config.IncludeEvents = false
    ∧ World.start.out.NeverFails
    ∧ (mockExporter [[undatedIssue]]).Client.GetOrganization 0 (ascii "acme")
        = (1, .ok ⟨some (ascii "acme")⟩)
    ∧ (mockExporter [[undatedIssue]]).Client.GetProject 1 ⟨some (ascii "acme")⟩ (ascii "web")
        = (2, .ok ⟨some (ascii "web"), ascii "web"⟩)
    ∧ (mockExporter [[undatedIssue]]).Client.GetIssues 2 ⟨some (ascii "acme")⟩
        ⟨some (ascii "web"), ascii "web"⟩ none none
        = (3, .ok ([undatedIssue], some ⟨⟨0, false⟩, ⟨1, false⟩⟩))
    ∧ ServesIssuePages (mockExporter [[undatedIssue]]).Client 3
        (some ⟨⟨0, false⟩, ⟨1, false⟩⟩) [] 3
    ∧ ((mockExporter [[undatedIssue]]).Export sampleFormat 5 World.start).map (fun p => p.2)
        = some Exit.panic
    ∧ ((mockExporter [[undatedIssue]]).Export sampleFormat 5 World.start).map
        (fun p => p.1.out.written) = some excelHeader := by
  refine ⟨rfl, fun _ => rfl, rfl, rfl, rfl, ⟨fun l hl => ?_, rfl⟩, by decide, by decide⟩
  cases hl
  rfl

/-- C10, amended: with expansion disabled, the Excel renderer on a sink that
never fails, and a service whose organization and project lookups succeed and
which returns k >= 1 issue pages (the first listing and `later`), each but the
last with a cursor that signals more results, every issue having first-seen
and last-seen present: for every bound `fuel >= k` on the rounds of the page
loop, `Export` returns without error after exactly k issue-page fetches, one
of them the initial listing, and the output is the header row followed by exactly one row per issue, in page
order and then in-page order; it is what the renderer writes for the header
followed by the records of `BuildExporterResultsForSingleIssue(issue, nil)` of
all issues in that order. -/
theorem C10_export_without_events {σ : Type} (fmt : Time → GoString) (exp : Exporter σ)
    (s : World σ) (fuel : Nat) (org : Organization) (proj : Project) (s1 s2 s3 s4 : σ)
    (first : List Issue) (link : Option Link) (later : List (List Issue))
    (hc : exp.config.IncludeEvents = false)
    (hr : exp.Renderer = NewExcelCSVRenderer)
    (hw : s.out.NeverFails)
    (horg : exp.Client.GetOrganization s.svc exp.config.Organization = (s1, .ok org))
    (hproj : exp.Client.GetProject s1 org exp.config.Project = (s2, .ok proj))
    (hiss : exp.Client.GetIssues s2 org proj exp.config.StatsPeriod exp.config.Query
      = (s3, .ok (first, link)))
    (hpages : ServesIssuePages exp.Client s3 link later s4)
    (ht : ∀ issue ∈ (first :: later).flatten, issue.FirstSeen.isSome ∧ issue.LastSeen.isSome)
    (hf : (first :: later).length ≤ fuel) :
    ∃ final rows w1 w2,
      exp.Export fmt fuel s = some (final, Exit.ok)
      ∧ issueFetches final.log = issueFetches s.log + (first :: later).length
      ∧ issueListings final.log = issueListings s.log + 1
      ∧ summaryRows (first :: later).flatten = some rows
      ∧ rows.length = (first :: later).flatten.length
      ∧ NewExcelCSVRenderer.RenderHeader s.out = (w1, none)
      ∧ NewExcelCSVRenderer.RenderPartialResults fmt rows w1 = some (w2, none)
      ∧ final.out.written = w2.written
      ∧ final.out.written = s.out.written ++ excelHeader ++ excelRows fmt rows := by
  have hhead := RenderHeader_excel s.out hw
  have hw1 := neverFails_after s.out (s.out.written ++ excelHeader) (s.out.calls + 50) hw
  obtain ⟨sa, rowsa, ea, hra, hlena, hsvca, houta, hnfa, hloga, hlisa⟩ :=
    renderIssuesOnly_ok fmt exp hr first
      { svc := s3
        out := { s.out with written := s.out.written ++ excelHeader, calls := s.out.calls + 50 }
        failures := s.failures
        log := s.log ++ [Call.RenderHeader, Call.GetOrganization exp.config.Organization,
          Call.GetProject org exp.config.Project, Call.GetIssues] }
      hw1 (fun i hi => ht i (by simp [hi]))
  obtain ⟨sb, rowsb, eb, hrb, hlenb, hsvcb, houtb, hnfb, hlogb, hlisb⟩ :=
    issuePageLoop_ok fmt exp fuel hc hr s4 later link sa fuel (by rw [hsvca]; exact hpages) hnfa
      (fun i hi => ht i (by simp only [List.flatten_cons, List.mem_append]; exact Or.inr hi))
      (by simp at hf; omega)
  have hrows : summaryRows (first :: later).flatten = some (rowsa ++ rowsb) := by
    simpa using summaryRows_append _ _ _ _ hra hrb
  have hout : sb.out.written = s.out.written ++ excelHeader ++ excelRows fmt (rowsa ++ rowsb) := by
    rw [houtb, houta]; simp [excelRows_append]
  have hE : exp.Export fmt fuel s
      = some ({ sb with out := sb.out, log := sb.log ++ [Call.RenderFooter] ++ [Call.Fini] },
          Exit.ok) := by
    simp only [Exporter.Export, exportBody, hr, hhead, horg, hproj, hiss]
    simp only [← hr, Exporter.RenderIssues, hc, ea, eb, CSVRenderer.RenderFooter,
      CSVRenderer.Fini]
    simp [eb]
  have hlog : issueFetches (sb.log ++ [Call.RenderFooter] ++ [Call.Fini])
      = issueFetches s.log + (first :: later).length := by
    have h1 : issueFetches (sb.log ++ [Call.RenderFooter] ++ [Call.Fini]) = issueFetches sb.log := by
      simp [issueFetches, Call.isIssueFetch]
    rw [h1, hlogb, hloga]
    simp [issueFetches, Call.isIssueFetch]
    omega
  have hlis : issueListings (sb.log ++ [Call.RenderFooter] ++ [Call.Fini])
      = issueListings s.log + 1 := by
    have h1 : issueListings (sb.log ++ [Call.RenderFooter] ++ [Call.Fini])
        = issueListings sb.log := by
      simp [issueListings, Call.isListing]
    rw [h1, hlisb, hlisa]
    simp [issueListings, Call.isListing]
  exact ⟨_, rowsa ++ rowsb, _, _, hE, hlog, hlis, hrows, by simp [hlena, hlenb], hhead,
    RenderPartialResults_excel fmt _ _ hw1, hout, hout⟩

/-- C10, amended, at the mock service with the two pages `[sampleIssue]` and
`[sampleIssue2, sampleIssue]` and the bound 2. -/
theorem C10_export_without_events_witness :
    ∃ final rows w1 w2,
      (mockExporter [[sampleIssue], [sampleIssue2, sampleIssue]]).Export sampleFormat 2 World.start
        = some (final, Exit.ok)
      ∧ issueFetches final.log = issueFetches World.start.log
          + ([sampleIssue] :: [[sampleIssue2, sampleIssue]]).length
      ∧ issueListings final.log = issueListings World.start.log + 1
      ∧ summaryRows ([sampleIssue] :: [[sampleIssue2, sampleIssue]]).flatten = some rows
      ∧ rows.length = ([sampleIssue] :: [[sampleIssue2, sampleIssue]]).flatten.length
      ∧ NewExcelCSVRenderer.RenderHeader World.start.out = (w1, none)
      ∧ NewExcelCSVRenderer.RenderPartialResults sampleFormat rows w1 = some (w2, none)
      ∧ final.out.written = w2.written
      ∧ final.out.written
          = World.start.out.written ++ excelHeader ++ excelRows sampleFormat rows :=
  C10_export_without_events sampleFormat (mockExporter [[sampleIssue], [sampleIssue2, sampleIssue]])
    World.start 2 ⟨some (ascii "acme")⟩ ⟨some (ascii "web"), ascii "web"⟩ 1 2 3 4 [sampleIssue]
    (some ⟨⟨0, false⟩, ⟨1, true⟩⟩) [[sampleIssue2, sampleIssue]]
    rfl rfl (fun _ => rfl) rfl rfl rfl
    ⟨_, _, _, rfl, rfl, rfl, ⟨fun l hl => by cases hl; rfl, rfl⟩⟩
    (by decide) (by decide)

/-! ### `Itoa` -/

theorem digitChar_byte : ∀ k : Fin 10,
    isDigit (Nat.digitChar k.val).toNat.toUInt8
    ∧ (Nat.digitChar k.val).toNat.toUInt8.toNat - 48 = k.val
    ∧ ((Nat.digitChar k.val).toNat.toUInt8 = 48 → k.val = 0) := by
  decide

theorem parseDigits_append : ∀ (xs ys : GoString) (acc : Nat),
    parseDigits (xs ++ ys) acc = (parseDigits xs acc).bind (parseDigits ys) := by
  intro xs
  induction xs with
  | nil => intro ys acc; rfl
  | cons b xs ih =>
    intro ys acc
    by_cases hb : isDigit b
    · simp [parseDigits, hb, ih]
    · simp [parseDigits, hb]

/-- What `Nat.toDigitsCore 10` puts in front of its accumulator. -/
theorem toDigitsCore_spec : ∀ (fuel n : Nat) (ds : List Char), n < fuel →
    ∃ pre : List Char, Nat.toDigitsCore 10 fuel n ds = pre ++ ds
      ∧ pre ≠ []
      ∧ (∀ b ∈ pre.map (fun c => c.toNat.toUInt8), isDigit b)
      ∧ parseDigits (pre.map (fun c => c.toNat.toUInt8)) 0 = some n
      ∧ ((pre.map (fun c => c.toNat.toUInt8)).head? = some 48 → n = 0)
      ∧ (n = 0 → pre.map (fun c => c.toNat.toUInt8) = [48]) := by
  intro fuel
  induction fuel with
  | zero => intro n ds h; omega
  | succ f ih =>
    intro n ds h
    have hk := digitChar_byte ⟨n % 10, Nat.mod_lt _ (by norm_num)⟩
    simp only at hk
    obtain ⟨hd, hv, hz⟩ := hk
    simp only [Nat.toDigitsCore]
    by_cases h0 : n / 10 = 0
    · have hn : n % 10 = n := Nat.mod_eq_of_lt (by omega)
      rw [if_pos h0]
      refine ⟨[Nat.digitChar (n % 10)], rfl, by simp, ?_, ?_, ?_, ?_⟩
      · intro b hb
        simp only [List.map_cons, List.map_nil, List.mem_singleton] at hb
        rw [hb]; exact hd
      · simp only [List.map_cons, List.map_nil, parseDigits, hd, if_true, hv]
        simp [hn]
      · intro hh
        simp only [List.map_cons, List.map_nil, List.head?_cons, Option.some.injEq] at hh
        have := hz hh
        omega
      · intro hn0
        subst hn0
        rfl
    · rw [if_neg h0]
      obtain ⟨pre, e, hne, hall, hp, hh, _⟩ := ih (n / 10) (Nat.digitChar (n % 10) :: ds) (by omega)
      refine ⟨pre ++ [Nat.digitChar (n % 10)], by simp [e], by simp, ?_, ?_, ?_, ?_⟩
      · intro b hb
        simp only [List.map_append, List.map_cons, List.map_nil, List.mem_append,
          List.mem_singleton] at hb
        rcases hb with hb | hb
        · exact hall b hb
        · rw [hb]; exact hd
      · simp only [List.map_append, List.map_cons, List.map_nil, parseDigits_append, hp,
          Option.some_bind, parseDigits, hd, if_true, hv]
        congr 1
        omega
      · intro hh'
        exfalso
        apply h0
        apply hh
        cases pre with
        | nil => exact absurd rfl hne
        | cons c cs => simpa using hh'
      · intro hn0
        subst hn0
        simp at h0

/-- The digits that `Itoa` writes for the absolute value. -/
theorem toDigits_spec (n : Nat) :
    canonicalDigits ((Nat.toDigits 10 n).map (fun c => c.toNat.toUInt8))
    ∧ parseDigits ((Nat.toDigits 10 n).map (fun c => c.toNat.toUInt8)) 0 = some n
    ∧ ((Nat.toDigits 10 n).map (fun c => c.toNat.toUInt8) = [48] → n = 0) := by
  obtain ⟨pre, e, hne, hall, hp, hh, hz⟩ := toDigitsCore_spec (n + 1) n [] (by omega)
  unfold Nat.toDigits
  rw [e, List.append_nil]
  refine ⟨⟨by simpa using hne, hall, fun h => hz (hh h)⟩, hp, fun h => hh (by rw [h]; rfl)⟩

theorem Itoa_ne_nil (n : Int) : Itoa n ≠ [] := by
  have h := (toDigits_spec n.natAbs).1.1
  unfold Itoa
  by_cases hn : n < 0
  · simp [hn]
  · simpa [hn] using h

theorem Itoa_canonical (n : Int) : canonicalInt (Itoa n) ∧ Atoi (Itoa n) = some n := by
  obtain ⟨hc, hp, hz⟩ := toDigits_spec n.natAbs
  unfold Itoa
  by_cases hn : n < 0
  · simp only [hn, if_true]
    refine ⟨Or.inr ⟨_, rfl, hc, fun h => ?_⟩, ?_⟩
    · have := hz h
      omega
    · have hne := hc.1
      simp only [Atoi, if_true, hne, if_false, hp, Option.map_some', Option.some.injEq]
      omega
  · simp only [hn, if_false]
    refine ⟨Or.inl hc, ?_⟩
    obtain ⟨hne, hall, _⟩ := hc
    cases hd : (Nat.toDigits 10 n.natAbs).map (fun c => c.toNat.toUInt8) with
    | nil => exact absurd hd hne
    | cons b rest =>
      have hb : isDigit b := hall b (by rw [hd]; simp)
      have hb45 : b ≠ 45 := by
        intro e; subst e; revert hb; decide
      rw [hd] at hp
      simp only [Atoi, hb45, if_false, hp, Option.map_some', Option.some.injEq]
      omega

/-! ### Row model: panics, null mapping, trailing fields -/

theorem PopulateWithEvent_eq_none (r : ExporterResult) (ev : Event) :
    PopulateWithEvent r ev = none ↔ ev.DateCreated = none := by
  unfold PopulateWithEvent
  cases ev.DateCreated <;> simp

theorem buildLoop_eq_none (base : ExporterResult) :
    ∀ (evs : List Event) (acc : List ExporterResult),
      buildLoop evs (base :: acc) = none ↔ ∃ ev ∈ evs, ev.DateCreated = none := by
  intro evs
  induction evs with
  | nil => intro acc; simp [buildLoop]
  | cons ev rest ih =>
    intro acc
    simp only [buildLoop, List.head?_cons, List.mem_cons, exists_eq_or_imp]
    cases hp : PopulateWithEvent base ev with
    | none =>
      have := (PopulateWithEvent_eq_none base ev).1 hp
      simp [this]
    | some r =>
      have hne : ev.DateCreated ≠ none := fun h => by
        rw [(PopulateWithEvent_eq_none base ev).2 h] at hp
        exact absurd hp (by simp)
      have := ih (acc ++ [r])
      simp only [List.cons_append] at this
      simp [this, hne]

/-- C18: `BuildExporterResultsForSingleIssue` returns (no panic) exactly when
the issue has first-seen and last-seen present and every supplied event has its
creation date present, whatever the other pointers are; it panics on a nil
dereference exactly when first-seen or last-seen is nil or some supplied event
has a nil creation date. -/
theorem C18_build_panics_iff (issue : Issue) (events : Option (List Event)) :
    ((BuildExporterResultsForSingleIssue issue events).isSome ↔
      issue.FirstSeen.isSome ∧ issue.LastSeen.isSome
      ∧ ∀ evs, events = some evs → ∀ ev ∈ evs, ev.DateCreated.isSome)
    ∧ (BuildExporterResultsForSingleIssue issue events = none ↔
      issue.FirstSeen = none ∨ issue.LastSeen = none
      ∨ ∃ evs, events = some evs ∧ ∃ ev ∈ evs, ev.DateCreated = none) := by
  have key : BuildExporterResultsForSingleIssue issue events = none ↔
      issue.FirstSeen = none ∨ issue.LastSeen = none
      ∨ ∃ evs, events = some evs ∧ ∃ ev ∈ evs, ev.DateCreated = none := by
    unfold BuildExporterResultsForSingleIssue
    cases hf : issue.FirstSeen with
    | none => simp
    | some firstSeen =>
      cases hl : issue.LastSeen with
      | none => simp
      | some lastSeen =>
        cases events with
        | none => simp
        | some evs => simp [buildLoop_eq_none]
  refine ⟨?_, key⟩
  rw [← Option.not_isSome_iff_eq_none] at key
  constructor
  · intro h
    have hk := fun hx => (key.2 hx) h
    refine ⟨?_, ?_, ?_⟩
    · cases hf : issue.FirstSeen with
      | none => exact absurd (Or.inl hf) hk
      | some _ => rfl
    · cases hl : issue.LastSeen with
      | none => exact absurd (Or.inr (Or.inl hl)) hk
      | some _ => rfl
    · intro evs he ev hev
      cases hd : ev.DateCreated with
      | none => exact absurd (Or.inr (Or.inr ⟨evs, he, ev, hev, hd⟩)) hk
      | some _ => rfl
  · rintro ⟨h1, h2, h3⟩
    by_contra hn
    rcases key.1 hn with h | h | ⟨evs, he, ev, hev, hd⟩
    · simp [h] at h1
    · simp [h] at h2
    · have := h3 evs he ev hev
      simp [hd] at this

/-- C15: in the record built for an issue with first-seen and last-seen
present, every string field that comes from a nullable issue field is the
empty string for nil and the pointed-to string otherwise (for the project, the
name of the pointed-to project; for the assignee, the username of the
pointed-to user when it has one), and both integer fields are 0 for nil and the
pointed-to integer otherwise; likewise the event fields type, message,
platform and group id are the empty string for nil and the pointed-to string
otherwise, and the release field is the empty string for nil and the version
of the pointed-to release otherwise. -/
theorem C15_nil_fields_map_to_zero_values (issue : Issue) (firstSeen lastSeen : Time)
    (h1 : issue.FirstSeen = some firstSeen) (h2 : issue.LastSeen = some lastSeen)
    (r0 : ExporterResult) (ev : Event) (created : Time) (h3 : ev.DateCreated = some created) :
    (∃ r, BuildExporterResultsForSingleIssue issue none = some [r]
      ∧ MapsPointer issue.ID [] r.IssueID
      ∧ MapsPointer (issue.AssignedTo.map (fun u => StringizeInternalUser (some u))) []
          r.AssignedTo
      ∧ (∀ u name, issue.AssignedTo = some u → u.Username = some name → r.AssignedTo = name)
      ∧ MapsPointer issue.Count [] r.Count
      ∧ MapsPointer issue.Culprit [] r.Culprit
      ∧ MapsPointer issue.Level [] r.Level
      ∧ MapsPointer issue.Logger [] r.Logger
      ∧ MapsPointer issue.Permalink [] r.Permalink
      ∧ MapsPointer (issue.Project.map (fun p => p.Name)) [] r.Project
      ∧ MapsPointer issue.ShareID [] r.ShareID
      ∧ MapsPointer issue.ShortID [] r.ShortID
      ∧ MapsPointer issue.Status [] r.Status
      ∧ MapsPointer issue.Title [] r.Title
      ∧ MapsPointer issue.Typ [] r.IssueType
      ∧ MapsPointer issue.UserCount 0 r.UserCount
      ∧ MapsPointer issue.UserReportCount 0 r.UserReportCount)
    ∧ (∃ r1, PopulateWithEvent r0 ev = some r1
      ∧ MapsPointer ev.Typ [] r1.EventType
      ∧ MapsPointer ev.Message [] r1.Message
      ∧ MapsPointer (ev.Release.map (fun rel => rel.Version)) [] r1.Release
      ∧ MapsPointer ev.Platform [] r1.Platform
      ∧ MapsPointer ev.GroupID [] r1.GroupID) := by
  constructor
  · simp only [BuildExporterResultsForSingleIssue, h1, h2]
    refine ⟨_, rfl, ?_, ?_, ?_, ?_, ?_, ?_, ?_, ?_, ?_, ?_, ?_, ?_, ?_, ?_, ?_, ?_⟩
    · cases issue.ID <;> simp [MapsPointer, emptyIfNull]
    · cases issue.AssignedTo <;> simp [MapsPointer, StringizeInternalUser]
    · intro u name hu hn
      simp [hu, StringizeInternalUser, hn]
    · cases issue.Count <;> simp [MapsPointer, emptyIfNull]
    · cases issue.Culprit <;> simp [MapsPointer, emptyIfNull]
    · cases issue.Level <;> simp [MapsPointer, emptyIfNull]
    · cases issue.Logger <;> simp [MapsPointer, emptyIfNull]
    · cases issue.Permalink <;> simp [MapsPointer, emptyIfNull]
    · cases issue.Project <;> simp [MapsPointer, StringizeProject]
    · cases issue.ShareID <;> simp [MapsPointer, emptyIfNull]
    · cases issue.ShortID <;> simp [MapsPointer, emptyIfNull]
    · cases issue.Status <;> simp [MapsPointer, StringizeStatus]
    · cases issue.Title <;> simp [MapsPointer, emptyIfNull]
    · cases issue.Typ <;> simp [MapsPointer, emptyIfNull]
    · cases issue.UserCount <;> simp [MapsPointer, zeroIfNull]
    · cases issue.UserReportCount <;> simp [MapsPointer, zeroIfNull]
  · simp only [PopulateWithEvent, h3]
    refine ⟨_, rfl, ?_, ?_, ?_, ?_, ?_⟩
    · cases ev.Typ <;> simp [MapsPointer, emptyIfNull]
    · cases ev.Message <;> simp [MapsPointer, emptyIfNull]
    · cases ev.Release <;> simp [MapsPointer, StringizeRelease]
    · cases ev.Platform <;> simp [MapsPointer, emptyIfNull]
    · cases ev.GroupID <;> simp [MapsPointer, emptyIfNull]

/-- C15 at the sample issue (nil culprit, title `Crash`) and the first sample
event (nil type). -/
theorem C15_nil_fields_map_to_zero_values_witness :
    (∃ r, BuildExporterResultsForSingleIssue sampleIssue none = some [r]
      ∧ r.Culprit = [] ∧ r.Title = ascii "Crash" ∧ r.UserCount = 0)
    ∧ (∃ r1, PopulateWithEvent sampleRecord sampleEvent = some r1 ∧ r1.EventType = []) := by
  obtain ⟨⟨r, hr, _, _, _, _, hcul, _, _, _, _, _, _, _, htitle, _, hcount, _⟩,
      ⟨r1, hr1, htyp, _⟩⟩ :=
    C15_nil_fields_map_to_zero_values sampleIssue sampleTime sampleTime rfl rfl
      sampleRecord sampleEvent sampleTime rfl
  exact ⟨⟨r, hr, hcul.1 rfl, htitle.2 _ rfl, hcount.1 rfl⟩, ⟨r1, hr1, htyp.1 rfl⟩⟩

/-- C16: `RenderValue` returns a string value unchanged, the empty string for
the zero-value timestamp (for every timestamp that `IsZero`; another timestamp
is formatted), for an integer n the text `Itoa n`, which is canonical base-10
(digits only, an optional leading `-`, no leading zero, never `-0`) and reads
back as n, and `N/A` for a value of another type.  It is a total function. -/
theorem C16_render_value (fmt : Time → GoString) :
    (∀ s, RenderValue fmt (.string s) = s)
    ∧ RenderValue fmt (.time Time.zero) = []
    ∧ (∀ t, RenderValue fmt (.time t) = if t.IsZero then [] else fmt t)
    ∧ (∀ n, RenderValue fmt (.int n) = Itoa n ∧ canonicalInt (Itoa n) ∧ Atoi (Itoa n) = some n)
    ∧ RenderValue fmt .other = ascii "N/A" :=
  ⟨fun _ => rfl, rfl, fun _ => rfl, fun n => ⟨rfl, Itoa_canonical n⟩, rfl⟩

/-- C20: `StringizeInternalUser` returns the empty string for a nil assignee,
the username for an assignee whose username is present, and the non-empty
placeholder `(unknown)` for an assignee whose username is nil; hence, in every
record that `BuildExporterResultsForSingleIssue` returns, `AssignedTo` is
empty exactly when the issue has no assignee or its assignee's username is the
empty string. -/
theorem C20_assigned_to (issue : Issue) (events : Option (List Event))
    (rs : List ExporterResult) (h : BuildExporterResultsForSingleIssue issue events = some rs) :
    StringizeInternalUser none = []
    ∧ (∀ name, StringizeInternalUser (some ⟨some name⟩) = name)
    ∧ StringizeInternalUser (some ⟨none⟩) = ascii "(unknown)"
    ∧ ascii "(unknown)" ≠ []
    ∧ ∀ r ∈ rs, (r.AssignedTo = [] ↔
        issue.AssignedTo = none ∨ ∃ u, issue.AssignedTo = some u ∧ u.Username = some []) := by
  refine ⟨rfl, fun _ => rfl, rfl, by decide, ?_⟩
  have hs : ∀ r ∈ rs, r.AssignedTo = StringizeInternalUser issue.AssignedTo := by
    unfold BuildExporterResultsForSingleIssue at h
    cases hf : issue.FirstSeen with
    | none => simp [hf] at h
    | some firstSeen =>
      cases hl : issue.LastSeen with
      | none => simp [hf, hl] at h
      | some lastSeen =>
        simp only [hf, hl] at h
        cases events with
        | none =>
          simp only [Option.some.injEq] at h
          subst h
          intro r hr
          simp only [List.mem_singleton] at hr
          subst hr
          rfl
        | some evs =>
          simp only [Option.map_eq_some'] at h
          obtain ⟨full, hfull, rfl⟩ := h
          have hc : ∀ ev ∈ evs, ev.DateCreated.isSome := by
            intro ev hev
            cases hd : ev.DateCreated with
            | some _ => rfl
            | none =>
              rw [(buildLoop_eq_none _ evs []).2 ⟨ev, hev, hd⟩] at hfull
              exact absurd hfull (by simp)
          rw [buildLoop_eq _ rfl evs [] hc] at hfull
          simp only [Option.some.injEq] at hfull
          subst hfull
          intro r hr
          simp only [List.singleton_append, List.cons_append, List.nil_append,
            List.drop_succ_cons, List.drop_zero, List.mem_map] at hr
          obtain ⟨ev, _, rfl⟩ := hr
          rfl
  intro r hr
  rw [hs r hr]
  cases ha : issue.AssignedTo with
  | none => simp [StringizeInternalUser]
  | some u =>
    cases hu : u.Username with
    | none =>
      have : ascii "(unknown)" ≠ [] := by decide
      simp [StringizeInternalUser, hu, this]
    | some name =>
      simp [StringizeInternalUser, hu]

/-- C20 at the sample issue, which has no assignee. -/
theorem C20_assigned_to_witness :
    BuildExporterResultsForSingleIssue sampleIssue none = some [sampleSummary]
    ∧ (sampleSummary.AssignedTo = [] ↔
        sampleIssue.AssignedTo = none
        ∨ ∃ u, sampleIssue.AssignedTo = some u ∧ u.Username = some []) :=
  ⟨by decide,
    (C20_assigned_to sampleIssue none [sampleSummary] (by decide)).2.2.2.2 sampleSummary
      (by simp)⟩

/-- C14, as stated, fails: in the row of the sample issue `{ID: "1", Title:
"Crash"}` the ninth field from the end is the user-report count, rendered `0`;
only the eight fields after it are empty, and the row ends in `0` followed by
eight commas. -/
theorem C14_ninth_trailing_field_is_a_count :
    BuildExporterResultsForSingleIssue sampleIssue none = some [sampleSummary]
    ∧ (sampleSummary.fields.map (RenderValue sampleFormat)).drop 16
        = [ascii "0", [], [], [], [], [], [], [], []]
    ∧ excelRow sampleFormat sampleSummary
        = ascii "1,,,,T63700000000Z,T63700000000Z,,,,,,,,Crash,,0,0,,,,,,,,\r\n" := by
  decide

/-- C14, amended: for every issue with first-seen and last-seen present,
exported with expansion disabled through the Excel renderer on a sink that
never fails, the eight trailing fields of the data row (the event fields) are
empty and the field before them, the user-report count, is not: the row is the
first 17 fields followed by eight commas and CR LF. -/
theorem C14_eight_trailing_fields_empty (fmt : Time → GoString) (issue : Issue)
    (firstSeen lastSeen : Time)
    (h1 : issue.FirstSeen = some firstSeen) (h2 : issue.LastSeen = some lastSeen)
    (w : Writer) (hw : w.NeverFails) :
    ∃ r w1, BuildExporterResultsForSingleIssue issue none = some [r]
      ∧ (r.fields.map (RenderValue fmt)).drop 16
          = Itoa (issue.UserReportCount.getD 0) :: List.replicate 8 []
      ∧ Itoa (issue.UserReportCount.getD 0) ≠ []
      ∧ NewExcelCSVRenderer.RenderOne fmt r w = some (w1, none)
      ∧ w1.written = w.written
          ++ excelFields 0 ((r.fields.map (RenderValue fmt)).take 17)
          ++ ascii ",,,,,,,," ++ [CR, LF] := by
  simp only [BuildExporterResultsForSingleIssue, h1, h2]
  refine ⟨_, _, rfl, ?_, Itoa_ne_nil _, RenderOne_excel fmt _ w hw, ?_⟩
  · have hz : Time.zero.IsZero = true := rfl
    cases issue.UserReportCount <;>
      simp [ExporterResult.fields, RenderValue, hz, zeroIfNull, List.replicate]
  · have hz : Time.zero.IsZero = true := rfl
    have hc : ascii ",,,,,,,," = [COMMA, COMMA, COMMA, COMMA, COMMA, COMMA, COMMA, COMMA] := by
      decide
    have he : excelField [] = [] := by decide
    simp [excelRow, ExporterResult.fields, RenderValue, hz, excelFields, he, hc]

/-- C14, amended, at the sample issue on an empty sink that never fails. -/
theorem C14_eight_trailing_fields_empty_witness :
    ∃ r w1, BuildExporterResultsForSingleIssue sampleIssue none = some [r]
      ∧ (r.fields.map (RenderValue sampleFormat)).drop 16
          = Itoa (sampleIssue.UserReportCount.getD 0) :: List.replicate 8 []
      ∧ Itoa (sampleIssue.UserReportCount.getD 0) ≠ []
      ∧ NewExcelCSVRenderer.RenderOne sampleFormat r Writer.fresh = some (w1, none)
      ∧ w1.written = Writer.fresh.written
          ++ excelFields 0 ((r.fields.map (RenderValue sampleFormat)).take 17)
          ++ ascii ",,,,,,,," ++ [CR, LF] :=
  C14_eight_trailing_fields_empty sampleFormat sampleIssue sampleTime sampleTime rfl rfl
    Writer.fresh (fun _ => rfl)

/-! ### The scanning loop of `Quote` -/

theorem Index_some_match : ∀ (s q : GoString) (i : Nat), Index s q = some i →
    q <+: s.drop i := by
  intro s
  induction s with
  | nil =>
    intro q i h
    by_cases hq : q = []
    · subst hq; simp
    · simp [Index, hq] at h
  | cons b s ih =>
    intro q i h
    simp only [Index] at h
    by_cases hp : q.isPrefixOf (b :: s) = true
    · rw [if_pos hp] at h
      simp only [Option.some.injEq] at h
      subst h
      simpa using List.isPrefixOf_iff_prefix.1 hp
    · rw [if_neg hp] at h
      simp only [Option.map_eq_some'] at h
      obtain ⟨k, hk, rfl⟩ := h
      simpa using ih q k hk

theorem countFrom_le (q : GoString) (hq : q ≠ []) : ∀ (fuel : Nat) (s : GoString),
    countFrom q fuel s ≤ s.length := by
  intro fuel
  induction fuel with
  | zero => intro s; simp [countFrom]
  | succ f ih =>
    intro s
    simp only [countFrom]
    cases hi : Index s q with
    | none => simp
    | some i =>
      have hle := Index_some_le _ _ _ hi
      have hpos : 0 < q.length := List.length_pos.2 hq
      have := ih (s.drop (i + q.length))
      rw [List.length_drop] at this
      simp only []
      omega

theorem quoteLoop_within_count (r : CSVRenderer) (v : GoString)
    (hq : r.QuoteCharacterStr ≠ []) :
    ∀ (n fuel j : Nat) (b : GoString), v.length - j ≤ n → v.length - j < fuel →
      ∃ jb, quoteLoop r v (countFrom r.QuoteCharacterStr fuel (v.drop j) + 1) j b = some jb := by
  intro n
  induction n with
  | zero =>
    intro fuel j b hn _
    have hj : ¬ j < v.length := by omega
    exact ⟨(j, b), by simp [quoteLoop, hj]⟩
  | succ n ih =>
    intro fuel j b hn hf
    obtain ⟨f, rfl⟩ : ∃ f, fuel = f + 1 := ⟨fuel - 1, by omega⟩
    by_cases hj : j < v.length
    · simp only [quoteLoop, hj, if_true, countFrom]
      cases hi : Index (v.drop j) r.QuoteCharacterStr with
      | none => exact ⟨(j, b), rfl⟩
      | some i =>
        have hle := Index_some_le _ _ _ hi
        rw [List.length_drop] at hle
        have hpos : 0 < r.QuoteCharacterStr.length := List.length_pos.2 hq
        simp only [List.drop_drop]
        have := ih f (j + i + r.QuoteCharacterStr.length)
          (b ++ slice v j (j + i) ++ r.QuoteCharacter ++ r.QuoteCharacter) (by omega) (by omega)
        rw [Nat.add_comm 1, show j + (i + r.QuoteCharacterStr.length)
          = j + i + r.QuoteCharacterStr.length by omega]
        exact this
    · exact ⟨(j, b), by simp [quoteLoop, hj]⟩

theorem quoteLoop_fuel_mono (r : CSVRenderer) (v : GoString) :
    ∀ (fuel k j : Nat) (b : GoString) (jb : Nat × GoString),
      quoteLoop r v fuel j b = some jb → quoteLoop r v (fuel + k) j b = some jb := by
  intro fuel
  induction fuel with
  | zero => intro k j b jb h; simp [quoteLoop] at h
  | succ f ih =>
    intro k j b jb h
    rw [show f + 1 + k = (f + k) + 1 by omega]
    simp only [quoteLoop] at h ⊢
    by_cases hj : j < v.length
    · simp only [hj, if_true] at h ⊢
      cases hi : Index (v.drop j) r.QuoteCharacterStr with
      | none => rw [hi] at h; exact h
      | some i => rw [hi] at h; exact ih k _ _ jb h
    · simp only [hj, if_false] at h ⊢
      exact h

theorem Count_single (c : UInt8) : ∀ (n fuel : Nat) (s : GoString), s.length ≤ n →
    s.length < fuel → countFrom [c] fuel s = s.count c := by
  intro n
  induction n with
  | zero =>
    intro fuel s hn hf
    obtain ⟨f, rfl⟩ : ∃ f, fuel = f + 1 := ⟨fuel - 1, by omega⟩
    have : s = [] := List.length_eq_zero.1 (by omega)
    subst this
    simp [countFrom, Index]
  | succ n ih =>
    intro fuel s hn hf
    obtain ⟨f, rfl⟩ : ∃ f, fuel = f + 1 := ⟨fuel - 1, by omega⟩
    simp only [countFrom]
    cases hi : Index s [c] with
    | none =>
      have := Index_single_none c s hi
      simp [List.count_eq_zero_of_not_mem this]
    | some i =>
      obtain ⟨pre, post, hs, hn', hl⟩ := Index_single_some c s i hi
      subst hl
      have hd : s.drop (pre.length + [c].length) = post := by
        rw [hs]
        simp
      have hlen : s.length = pre.length + 1 + post.length := by
        rw [hs]; simp; omega
      simp only [hd]
      rw [ih f post (by omega) (by omega), hs]
      simp [List.count_append, List.count_eq_zero_of_not_mem hn']
      omega

/-- C19: for a format with a non-empty quote character `Quote(v)` returns;
its scanning loop is over within (number of occurrences of the quote character
in v) + 1 rounds, because a round that finds the quote character at offset i
goes on at the position j + i + len(quote), which is behind the match and
greater than j.  For an empty quote character and a value that contains a
character of the quoting alphabet, every round goes on at the same position:
the loop never ends and `Quote(v)` does not return. -/
theorem C19_quote_terminates (r : CSVRenderer) (v : GoString) :
    (r.QuoteCharacterStr ≠ [] →
      (∃ out, r.Quote v = some out)
      ∧ (∀ b, ∃ jb, quoteLoop r v (Count v r.QuoteCharacterStr + 1) 0 b = some jb
          ∧ quoteLoop r v (v.length + 1) 0 b = some jb)
      ∧ (∀ c, r.QuoteCharacterStr = [c] → Count v r.QuoteCharacterStr = v.count c)
      ∧ (∀ fuel j i b, j < v.length → Index (v.drop j) r.QuoteCharacterStr = some i →
          quoteLoop r v (fuel + 1) j b
            = quoteLoop r v fuel (j + i + r.QuoteCharacterStr.length)
                (b ++ slice v j (j + i) ++ r.QuoteCharacter ++ r.QuoteCharacter)
          ∧ j < j + i + r.QuoteCharacterStr.length
          ∧ j + i + r.QuoteCharacterStr.length ≤ v.length
          ∧ r.QuoteCharacterStr <+: v.drop (j + i)))
    ∧ (r.QuoteCharacterStr = [] → ContainsAny v r.CharsNeedToBeQuoted = true →
      (∀ fuel j b, j < v.length →
          quoteLoop r v (fuel + 1) j b
            = quoteLoop r v fuel j (b ++ r.QuoteCharacter ++ r.QuoteCharacter))
      ∧ (∀ fuel b, quoteLoop r v fuel 0 b = none)
      ∧ r.Quote v = none) := by
  constructor
  · intro hq
    refine ⟨Quote_isSome r v hq, fun b => ?_, fun c hc => ?_, fun fuel j i b hj hi => ?_⟩
    · obtain ⟨jb, hjb⟩ := quoteLoop_within_count r v hq v.length (v.length + 1) 0 b
        (by simp) (by simp)
      simp only [List.drop_zero] at hjb
      refine ⟨jb, hjb, ?_⟩
      have hle := countFrom_le r.QuoteCharacterStr hq (v.length + 1) v
      have := quoteLoop_fuel_mono r v _ (v.length - countFrom r.QuoteCharacterStr (v.length + 1) v)
        0 b jb hjb
      rw [show countFrom r.QuoteCharacterStr (v.length + 1) v + 1
        + (v.length - countFrom r.QuoteCharacterStr (v.length + 1) v) = v.length + 1 by omega]
        at this
      exact this
    · rw [hc]
      exact Count_single c v.length (v.length + 1) v (Nat.le_refl _) (by omega)
    · have hle := Index_some_le _ _ _ hi
      rw [List.length_drop] at hle
      have hpos : 0 < r.QuoteCharacterStr.length := List.length_pos.2 hq
      refine ⟨by simp only [quoteLoop, hj, if_true, hi], by omega, by omega, ?_⟩
      have := Index_some_match _ _ _ hi
      rw [List.drop_drop] at this
      exact this
  · intro hq hc
    have hne : 0 < v.length := by
      cases v with
      | nil => rw [ContainsAny_nil] at hc; exact absurd hc (by simp)
      | cons b t => simp
    refine ⟨fun fuel j b hj => ?_, fun fuel b => quoteLoop_empty_quote r v hq fuel 0 b hne, ?_⟩
    · have hs : slice v j j = [] :=
        List.drop_eq_nil_of_le (List.length_take_le _ _)
      simp [quoteLoop, hj, hq, Index_empty, hs]
    · unfold CSVRenderer.Quote
      rw [if_pos hc, quoteLoop_empty_quote r v hq _ 0 _ hne]
      rfl

set_option maxRecDepth 100000 in
/-- C19 at the Excel format with the value `He said "stop"` (two quote
characters, three rounds), at a format with an empty quote character with the
value `a,b`, and at a format with the separator U+00E9 (bytes C3 A9) and an
empty quote character: the value U+00E9 contains the separator and `Quote`
does not return, the value U+00E8 (bytes C3 A8) shares a byte with the
separator but not a character, and `Quote` returns it. -/
theorem C19_quote_terminates_witness :
    ((∃ out, NewExcelCSVRenderer.Quote (ascii "He said \"stop\"") = some out)
      ∧ Count (ascii "He said \"stop\"") NewExcelCSVRenderer.QuoteCharacterStr = 2
      ∧ ∃ jb, quoteLoop NewExcelCSVRenderer (ascii "He said \"stop\"") (2 + 1) 0 [DQUOTE]
          = some jb)
    ∧ unquotedRenderer.Quote (ascii "a,b") = none
    ∧ (NewCSVRenderer [0xC3, 0xA9] [CR, LF] []).Quote [0xC3, 0xA9] = none
    ∧ (NewCSVRenderer [0xC3, 0xA9] [CR, LF] []).Quote [0xC3, 0xA8] = some [0xC3, 0xA8] :=
  have h1 := (C19_quote_terminates NewExcelCSVRenderer (ascii "He said \"stop\"")).1 (by decide)
  have h2 := (C19_quote_terminates unquotedRenderer (ascii "a,b")).2 rfl (by decide)
  have h3 := (C19_quote_terminates (NewCSVRenderer [0xC3, 0xA9] [CR, LF] []) [0xC3, 0xA9]).2
    rfl (by decide)
  ⟨⟨h1.1, by decide, (h1.2.1 [DQUOTE]).imp (fun _ h => h.1)⟩, h2.2.2, h3.2.2, by decide⟩

/-! ### The search query of `main` -/

theorem takeWhile_word_of_tag : ∀ (w rest : GoString), (∀ b ∈ w, isWordByte b = true) →
    (w ++ COLON :: rest).takeWhile isWordByte = w := by
  intro w
  induction w with
  | nil =>
    intro rest _
    have : isWordByte COLON = false := by decide
    simp [List.takeWhile, this]
  | cons b w ih =>
    intro rest h
    have hb : isWordByte b = true := h b (by simp)
    simp [List.takeWhile, hb, ih rest (fun c hc => h c (by simp [hc]))]

theorem tagRegexp_of_tag_start (q p : GoString) (hp : p <+: q) (ht : IsTag p) :
    tagRegexpFindStringIndex q = some (0, p.length) := by
  obtain ⟨w, hw, hall, rfl⟩ := ht
  obtain ⟨rest, rfl⟩ := hp
  have htw : (w ++ [COLON] ++ rest).takeWhile isWordByte = w := by
    simpa using takeWhile_word_of_tag w rest hall
  have hpos : 0 < w.length := List.length_pos.2 hw
  have hget : (w ++ [COLON] ++ rest).get? w.length = some COLON := by
    rw [List.get?_eq_getElem?, List.append_assoc, List.getElem?_append_right (Nat.le_refl _)]
    simp
  unfold tagRegexpFindStringIndex
  simp only [htw, hpos, hget, and_self, if_true]
  simp

theorem tagRegexp_some (q : GoString) (lo hi : Nat)
    (h : tagRegexpFindStringIndex q = some (lo, hi)) :
    lo = 0 ∧ IsTag (q.take hi) := by
  unfold tagRegexpFindStringIndex at h
  simp only at h
  split at h
  · rename_i hc
    obtain ⟨hpos, hget⟩ := hc
    simp only [Option.some.injEq, Prod.mk.injEq] at h
    obtain ⟨rfl, rfl⟩ := h
    refine ⟨rfl, q.takeWhile isWordByte, List.length_pos.1 hpos, ?_, ?_⟩
    · intro b hb
      exact (List.mem_takeWhile_imp hb)
    · have hpre : q.takeWhile isWordByte <+: q := List.takeWhile_prefix _
      have ht : q.take (q.takeWhile isWordByte).length = q.takeWhile isWordByte :=
        (List.prefix_iff_eq_take.1 hpre).symm
      rw [List.take_succ, ht]
      rw [List.get?_eq_getElem?] at hget
      rw [hget]
      rfl
  · exact absurd h (by simp)

theorem ContainsAny_whitespace (s : GoString) :
    ContainsAny s (ascii " \t\n\r") = true ↔ hasWhitespace s := by
  have hc : ascii " \t\n\r" = [SPACE, 9, LF, CR] := by decide
  rw [hc, ContainsAny_iff _ _ (by decide)]
  unfold hasWhitespace
  constructor
  · rintro ⟨b, hb, hm⟩
    simp only [List.mem_cons, List.mem_singleton, List.not_mem_nil, or_false] at hm
    rcases hm with h | h | h | h <;> subst h <;> simp [hb]
  · rintro (h | h | h | h)
    · exact ⟨_, h, by simp⟩
    · exact ⟨_, h, by simp⟩
    · exact ⟨_, h, by simp⟩
    · exact ⟨_, h, by simp⟩

theorem quotedIfWhitespace_eq (s : GoString) :
    (if ContainsAny s (ascii " \t\n\r") = true then [DQUOTE] ++ escapeQuotes s ++ [DQUOTE] else s)
      = quotedIfWhitespace s := by
  unfold quotedIfWhitespace
  by_cases h : hasWhitespace s
  · rw [if_pos h, if_pos ((ContainsAny_whitespace s).2 h)]
  · rw [if_neg h, if_neg (fun hc => h ((ContainsAny_whitespace s).1 hc))]

theorem appendCriterion_image (buf q : GoString) :
    ∃ img, appendCriterion buf q = buf ++ img ∧ IsTermImage q img := by
  unfold appendCriterion
  cases ht : tagRegexpFindStringIndex q with
  | none =>
    refine ⟨quotedIfWhitespace q, ?_, Or.inr ⟨fun p1 hp1 htag => ?_, rfl⟩⟩
    · rw [← quotedIfWhitespace_eq]
      by_cases hc : ContainsAny q (ascii " \t\n\r") = true <;> simp [hc]
    · rw [tagRegexp_of_tag_start q p1 hp1 htag] at ht
      exact absurd ht (by simp)
  | some m =>
    obtain ⟨lo, hi⟩ := m
    obtain ⟨rfl, htag⟩ := tagRegexp_some q lo hi ht
    refine ⟨q.take hi ++ quotedIfWhitespace (q.drop hi), ?_,
      Or.inl ⟨q.take hi, q.drop hi, (List.take_append_drop hi q).symm, htag, ?_, rfl⟩⟩
    · rw [← quotedIfWhitespace_eq]
      by_cases hc : ContainsAny (q.drop hi) (ascii " \t\n\r") = true <;> simp [hc, slice]
    · intro p1 hp1 htag1
      have h1 := tagRegexp_of_tag_start q p1 hp1 htag1
      have h2 := tagRegexp_of_tag_start q (q.take hi) (List.take_prefix hi q) htag
      rw [h1] at h2
      simp only [Option.some.injEq, Prod.mk.injEq, true_and] at h2
      omega

theorem appendCriterion_buf (buf q : GoString) :
    appendCriterion buf q = buf ++ appendCriterion [] q := by
  unfold appendCriterion
  cases tagRegexpFindStringIndex q with
  | none =>
    by_cases hc : ContainsAny q (ascii " \t\n\r") = true <;> simp [hc]
  | some m =>
    obtain ⟨lo, hi⟩ := m
    by_cases hc : ContainsAny (q.drop hi) (ascii " \t\n\r") = true <;> simp [hc]

theorem criteriaLoop_eq : ∀ (rest : List GoString) (i : Nat) (buf x : GoString), 0 < i →
    criteriaLoop i rest (buf ++ x) = buf ++ joinSpaces (x :: rest.map (appendCriterion [])) := by
  intro rest
  induction rest with
  | nil => intro i buf x _; simp [criteriaLoop, joinSpaces]
  | cons q rest ih =>
    intro i buf x hi
    simp only [criteriaLoop, hi, if_true, List.map_cons, joinSpaces]
    rw [appendCriterion_buf, show buf ++ x ++ [SPACE] ++ appendCriterion [] q
      = (buf ++ x ++ [SPACE]) ++ appendCriterion [] q by simp]
    rw [ih (i + 1) _ _ (by omega)]
    simp

/-- C17: for an empty list of terms no query is set; for a non-empty list the
query is the images of the terms joined by single spaces, the image of a term
being its longest prefix matching `\w+:` (if any) verbatim, followed by the
remainder, which is put in double quotes with every `"` replaced by `\"`
exactly when it contains a space, tab, LF or CR. -/
theorem C17_search_query :
    buildQuery [] = none
    ∧ (∀ t ts, buildQuery (t :: ts) = some (joinSpaces ((t :: ts).map (appendCriterion []))))
    ∧ (∀ q, IsTermImage q (appendCriterion [] q))
    ∧ buildQuery [ascii "is:unresolved", ascii "title:null pointer", ascii "say \"hi\""]
        = some (ascii "is:unresolved title:\"null pointer\" \"say \\\"hi\\\"\"") := by
  refine ⟨rfl, fun t ts => ?_, fun q => ?_, by decide⟩
  · simp only [buildQuery, List.length_cons, Nat.succ_pos, gt_iff_lt, Nat.zero_lt_succ, if_true,
      criteriaLoop, lt_self_iff_false, if_false, List.map_cons]
    have := criteriaLoop_eq ts 1 [] (appendCriterion [] t) (by omega)
    simpa using this
  · obtain ⟨img, h1, h2⟩ := appendCriterion_image [] q
    rw [h1]
    simpa using h2

/-! ### The trace of a run -/

theorem traceBytes_append (fmt : Time → GoString) : ∀ (a b : List Call),
    traceBytes fmt (a ++ b) = traceBytes fmt a ++ traceBytes fmt b := by
  intro a
  induction a with
  | nil => intro b; simp [traceBytes]
  | cons c t ih => intro b; simp [traceBytes, ih]

theorem traceBytes_remote (fmt : Time → GoString) : ∀ (t : List Call),
    (∀ c ∈ t, c.isRemote = true) → traceBytes fmt t = [] := by
  intro t
  induction t with
  | nil => intro _; rfl
  | cons c t ih =>
    intro h
    have hc := h c (by simp)
    have ht := ih (fun d hd => h d (by simp [hd]))
    cases c <;> simp [Call.isRemote] at hc <;> simp [traceBytes, ht]

theorem isStep_of_isRemote (c : Call) (h : c.isRemote = true) : c.isStep = true := by
  cases c <;> simp [Call.isRemote] at h <;> simp [Call.isStep, Call.isRemote]

theorem Fails.isRemote {σ : Type} {exp : Exporter σ} {svc : σ} {call : Call}
    (h : Fails exp svc call) : call.isRemote = true := by
  cases call <;> simp [Fails] at h <;> simp [Call.isRemote]

theorem not_mem_of_isStep (t : List Call) (h : ∀ c ∈ t, c.isStep = true) :
    Call.RenderHeader ∉ t ∧ Call.RenderFooter ∉ t ∧ Call.Fini ∉ t := by
  refine ⟨fun hm => ?_, fun hm => ?_, fun hm => ?_⟩ <;>
    · have := h _ hm
      simp [Call.isStep, Call.isRemote] at this

theorem Seg.failures_of_ok {σ : Type} {fmt : Time → GoString} {exp : Exporter σ}
    {s s1 : World σ} (h : Seg fmt exp s s1 Exit.ok) : s1.failures = s.failures := by
  obtain ⟨t, _, _, _, hf⟩ := h
  rcases hf with hf | ⟨_, ⟨e, he⟩, _⟩
  · exact hf
  · cases he

theorem Seg.trans {σ : Type} {fmt : Time → GoString} {exp : Exporter σ}
    {s a b : World σ} {x : Exit} (h1 : Seg fmt exp s a Exit.ok) (h2 : Seg fmt exp a b x) :
    Seg fmt exp s b x := by
  have hfa := h1.failures_of_ok
  obtain ⟨t1, l1, st1, b1, _⟩ := h1
  obtain ⟨t2, l2, st2, b2, f2⟩ := h2
  refine ⟨t1 ++ t2, by rw [l2, l1, List.append_assoc], ?_, ?_, ?_⟩
  · intro c hc
    rcases List.mem_append.1 hc with hc | hc
    · exact st1 c hc
    · exact st2 c hc
  · intro hr hx
    rw [b2 hr (by rw [hfa]; exact hx), b1 hr (Or.inl rfl), traceBytes_append,
      List.append_assoc]
  · rcases f2 with f2 | ⟨f2, he, t0, call, svc0, ht, hF⟩
    · exact Or.inl (by rw [f2, hfa])
    · exact Or.inr ⟨by rw [f2, hfa], he, t1 ++ t0, call, svc0,
        by rw [ht, List.append_assoc], hF⟩

/-- Calls on the remote client that return without error, or the last of which
panics, write nothing and fail nothing. -/
theorem Seg.of_remote {σ : Type} (fmt : Time → GoString) (exp : Exporter σ)
    (s s1 : World σ) (t : List Call) (x : Exit)
    (hlog : s1.log = s.log ++ t) (hout : s1.out = s.out) (hf : s1.failures = s.failures)
    (ht : ∀ c ∈ t, c.isRemote = true) : Seg fmt exp s s1 x :=
  ⟨t, hlog, fun c hc => isStep_of_isRemote c (ht c hc),
    fun _ _ => by rw [hout, traceBytes_remote fmt t ht, List.append_nil], Or.inl hf⟩

/-- Calls on the remote client the last of which returns an error. -/
theorem Seg.of_failure {σ : Type} (fmt : Time → GoString) (exp : Exporter σ)
    (s s1 : World σ) (t0 : List Call) (call : Call) (svc0 : σ) (e : GoError)
    (hlog : s1.log = s.log ++ (t0 ++ [call])) (hout : s1.out = s.out)
    (hf : s1.failures = s.failures + 1)
    (ht : ∀ c ∈ t0, c.isRemote = true) (hF : Fails exp svc0 call) :
    Seg fmt exp s s1 (Exit.error e) := by
  have hall : ∀ c ∈ t0 ++ [call], c.isRemote = true := by
    intro c hc
    rcases List.mem_append.1 hc with hc | hc
    · exact ht c hc
    · rw [List.mem_singleton.1 hc]; exact hF.isRemote
  exact ⟨t0 ++ [call], hlog, fun c hc => isStep_of_isRemote c (hall c hc),
    fun _ _ => by rw [hout, traceBytes_remote fmt _ hall, List.append_nil],
    Or.inr ⟨hf, ⟨e, rfl⟩, t0, call, svc0, rfl, hF⟩⟩

theorem Seg.refl {σ : Type} (fmt : Time → GoString) (exp : Exporter σ) (s : World σ)
    (x : Exit) : Seg fmt exp s s x :=
  Seg.of_remote fmt exp s s [] x (by simp) rfl rfl (by simp)

/-! ### Rendering with the Excel format on any sink, when no error is returned -/

theorem Write_ok (w w1 : Writer) (p : GoString) (h : w.Write p = (w1, none)) :
    w1.written = w.written ++ p := by
  unfold Writer.Write at h
  cases hs : w.script w.calls with
  | none =>
    rw [hs] at h
    simp only [Prod.mk.injEq, and_true] at h
    rw [← h]
  | some n =>
    rw [hs] at h
    simp at h

theorem renderOneFrom_excel_ok (fmt : Time → GoString) :
    ∀ (vals : List Value) (i : Nat) (w w1 : Writer),
      renderOneFrom fmt NewExcelCSVRenderer i vals w = some (w1, none) →
      w1.written = w.written ++ excelFields i (vals.map (RenderValue fmt)) := by
  intro vals
  induction vals with
  | nil =>
    intro i w w1 h
    simp only [renderOneFrom, Option.some.injEq, Prod.mk.injEq, and_true] at h
    simp [excelFields, h]
  | cons v rest ih =>
    intro i w w1 h
    have hsep : NewExcelCSVRenderer.FieldSeparator = [COMMA] := rfl
    have hq : NewExcelCSVRenderer.Quote (RenderValue fmt v)
        = some (excelField (RenderValue fmt v)) := by
      rw [Quote_excel]
      simp [excelField]
    simp only [renderOneFrom, hsep, hq] at h
    by_cases hi : i > 0
    · simp only [hi, if_true] at h
      cases ha : w.Write [COMMA] with
      | mk wa ea =>
        cases ea with
        | some e => simp [ha] at h
        | none =>
          simp only [ha] at h
          cases hb : wa.Write (excelField (RenderValue fmt v)) with
          | mk wb eb =>
            cases eb with
            | some e => simp [hb] at h
            | none =>
              simp only [hb] at h
              rw [ih (i + 1) wb w1 h, Write_ok _ _ _ hb, Write_ok _ _ _ ha]
              simp [excelFields, hi]
    · simp only [hi, if_false] at h
      cases hb : w.Write (excelField (RenderValue fmt v)) with
      | mk wb eb =>
        cases eb with
        | some e => simp [hb] at h
        | none =>
          simp only [hb] at h
          rw [ih (i + 1) wb w1 h, Write_ok _ _ _ hb]
          simp [excelFields, hi]

theorem RenderOne_excel_ok (fmt : Time → GoString) (r : ExporterResult) (w w1 : Writer)
    (h : NewExcelCSVRenderer.RenderOne fmt r w = some (w1, none)) :
    w1.written = w.written ++ excelRow fmt r := by
  unfold CSVRenderer.RenderOne at h
  cases ha : renderOneFrom fmt NewExcelCSVRenderer 0 r.fields w with
  | none => simp [ha] at h
  | some we =>
    obtain ⟨wa, ea⟩ := we
    cases ea with
    | some e => simp [ha] at h
    | none =>
      simp only [ha, Option.some.injEq] at h
      rw [Write_ok _ _ _ h, renderOneFrom_excel_ok fmt _ _ _ _ ha]
      simp [excelRow]
      rfl

theorem RenderPartialResults_excel_ok (fmt : Time → GoString) :
    ∀ (rows : List ExporterResult) (w w1 : Writer),
      NewExcelCSVRenderer.RenderPartialResults fmt rows w = some (w1, none) →
      w1.written = w.written ++ excelRows fmt rows := by
  intro rows
  induction rows with
  | nil =>
    intro w w1 h
    simp only [CSVRenderer.RenderPartialResults, Option.some.injEq, Prod.mk.injEq, and_true] at h
    simp [excelRows, h]
  | cons r rest ih =>
    intro w w1 h
    simp only [CSVRenderer.RenderPartialResults] at h
    cases ha : NewExcelCSVRenderer.RenderOne fmt r w with
    | none => simp [ha] at h
    | some we =>
      obtain ⟨wa, ea⟩ := we
      cases ea with
      | some e => simp [ha] at h
      | none =>
        simp only [ha] at h
        rw [ih wa w1 h, RenderOne_excel_ok fmt r w wa ha]
        simp [excelRows]

theorem renderHeaderFrom_ok (r : CSVRenderer) :
    ∀ (names : List GoString) (i : Nat) (w w1 : Writer),
      renderHeaderFrom r i names w = (w1, none) →
      w1.written = w.written ++ headerFields r i names := by
  intro names
  induction names with
  | nil =>
    intro i w w1 h
    simp only [renderHeaderFrom, Prod.mk.injEq, and_true] at h
    simp [headerFields, h]
  | cons name rest ih =>
    intro i w w1 h
    simp only [renderHeaderFrom] at h
    by_cases hi : i > 0
    · simp only [hi, if_true] at h
      cases ha : w.Write r.FieldSeparator with
      | mk wa ea =>
        cases ea with
        | some e => simp [ha] at h
        | none =>
          simp only [ha] at h
          cases hb : wa.Write name with
          | mk wb eb =>
            cases eb with
            | some e => simp [hb] at h
            | none =>
              simp only [hb] at h
              rw [ih (i + 1) wb w1 h, Write_ok _ _ _ hb, Write_ok _ _ _ ha]
              simp [headerFields, hi]
    · simp only [hi, if_false] at h
      cases hb : w.Write name with
      | mk wb eb =>
        cases eb with
        | some e => simp [hb] at h
        | none =>
          simp only [hb] at h
          rw [ih (i + 1) wb w1 h, Write_ok _ _ _ hb]
          simp [headerFields, hi]

set_option maxRecDepth 100000 in
theorem RenderHeader_excel_ok (w w1 : Writer)
    (h : NewExcelCSVRenderer.RenderHeader w = (w1, none)) :
    w1.written = w.written ++ excelHeader := by
  unfold CSVRenderer.RenderHeader at h
  cases ha : renderHeaderFrom NewExcelCSVRenderer 0 ExporterResult.fieldNames w with
  | mk wa ea =>
    cases ea with
    | some e => simp [ha] at h
    | none =>
      simp only [ha] at h
      have hb : headerFields NewExcelCSVRenderer 0 ExporterResult.fieldNames
          ++ NewExcelCSVRenderer.RecordSeparator = excelHeader := by decide
      rw [Write_ok _ _ _ h, renderHeaderFrom_ok _ _ _ _ _ ha, List.append_assoc, hb]

/-! ### The client methods and the dereferences they make -/

theorem GetIssueEvents_ok_id {σ : Type} (c : Client σ) (s s1 : σ) (i : Issue)
    (v : Option (List Event) × Option Link) (h : c.GetIssueEvents s i = (s1, .ok v)) :
    ∃ id, i.ID = some id := by
  unfold Client.GetIssueEvents at h
  cases hid : i.ID with
  | none => simp [hid] at h
  | some id => exact ⟨id, rfl⟩

theorem GetIssueEvents_error_id {σ : Type} (c : Client σ) (s s1 : σ) (i : Issue)
    (e : GoError) (h : c.GetIssueEvents s i = (s1, .error e)) :
    ∃ id, i.ID = some id := by
  unfold Client.GetIssueEvents at h
  cases hid : i.ID with
  | none => simp [hid] at h
  | some id => exact ⟨id, rfl⟩

theorem eventsFailure_of_id (issue : Issue) (err : GoError) (h : ∃ id, issue.ID = some id) :
    ∃ e, eventsFailure issue err = Exit.error e := by
  obtain ⟨id, hid⟩ := h
  exact ⟨.wrapped "failed to retrieve events for issue %s" [id] err,
    by simp [eventsFailure, hid]⟩

/-! ### The parts of a run between the header and the footer -/

theorem renderRows_seg {σ : Type} (fmt : Time → GoString) (exp : Exporter σ)
    (rows : List ExporterResult) (s s1 : World σ) (e : Option GoError) (x : Exit)
    (h : renderRows fmt exp rows s = some (s1, e)) (hx : x = Exit.ok → e = none) :
    Seg fmt exp s s1 x := by
  unfold renderRows at h
  cases hr : exp.Renderer.RenderPartialResults fmt rows s.out with
  | none => simp [hr] at h
  | some we =>
    obtain ⟨w, e1⟩ := we
    simp only [hr, Option.some.injEq, Prod.mk.injEq] at h
    obtain ⟨rfl, rfl⟩ := h
    refine ⟨[Call.RenderPartialResults rows], rfl, by simp [Call.isStep], ?_, Or.inl rfl⟩
    intro hexcel hcond
    have hok : x = Exit.ok := by
      rcases hcond with hc | hc
      · exact hc
      · exact absurd rfl hc
    have he := hx hok
    subst he
    rw [hexcel] at hr
    simp [traceBytes, RenderPartialResults_excel_ok fmt rows s.out w hr]

theorem buildAndRender_seg {σ : Type} (fmt : Time → GoString) (exp : Exporter σ)
    (issue : Issue) (events : Option (List Event)) (s s1 : World σ) (ox : Option Exit)
    (h : buildAndRender fmt exp issue events s = some (s1, ox)) :
    Seg fmt exp s s1 (ox.getD Exit.ok) := by
  unfold buildAndRender at h
  cases hb : BuildExporterResultsForSingleIssue issue events with
  | none =>
    simp only [hb, Option.some.injEq, Prod.mk.injEq] at h
    obtain ⟨rfl, rfl⟩ := h
    exact Seg.refl fmt exp s _
  | some rows =>
    simp only [hb] at h
    cases hr : renderRows fmt exp rows s with
    | none => simp [hr] at h
    | some se =>
      obtain ⟨s2, e⟩ := se
      cases e with
      | none =>
        simp only [hr, Option.some.injEq, Prod.mk.injEq] at h
        obtain ⟨rfl, rfl⟩ := h
        exact renderRows_seg fmt exp rows s s2 none _ hr (fun _ => rfl)
      | some err =>
        simp only [hr, Option.some.injEq, Prod.mk.injEq] at h
        obtain ⟨rfl, rfl⟩ := h
        exact renderRows_seg fmt exp rows s s2 (some err) _ hr (fun hx => by simp at hx)

theorem eventPageLoop_seg {σ : Type} (fmt : Time → GoString) (exp : Exporter σ)
    (issue : Issue) (hid : ∃ id, issue.ID = some id) :
    ∀ (fuel : Nat) (link : Option Link) (s s1 : World σ) (x : Exit),
      eventPageLoop fmt exp issue fuel link s = some (s1, x) → Seg fmt exp s s1 x := by
  intro fuel
  induction fuel with
  | zero => intro link s s1 x h; simp [eventPageLoop] at h
  | succ f ih =>
    intro link s s1 x h
    cases link with
    | none =>
      simp only [eventPageLoop, Option.some.injEq, Prod.mk.injEq] at h
      obtain ⟨rfl, rfl⟩ := h
      exact Seg.refl fmt exp s _
    | some l =>
      by_cases hres : l.Next.Results = true
      · simp only [eventPageLoop, hres, if_true] at h
        cases hg : exp.Client.GetPageEvents s.svc l.Next with
        | mk svc1 res =>
          cases res with
          | panic =>
            simp only [hg, Option.some.injEq, Prod.mk.injEq] at h
            obtain ⟨rfl, rfl⟩ := h
            exact Seg.of_remote fmt exp s _ [Call.GetPage l.Next .events] _ rfl rfl rfl
              (by simp [Call.isRemote])
          | error err =>
            simp only [hg, Option.some.injEq, Prod.mk.injEq] at h
            obtain ⟨rfl, rfl⟩ := h
            obtain ⟨e, he⟩ := eventsFailure_of_id issue err hid
            rw [he]
            exact Seg.of_failure fmt exp s _ [] (Call.GetPage l.Next .events) s.svc e
              rfl rfl rfl (by simp) ⟨svc1, err, hg⟩
          | ok pl =>
            obtain ⟨events, nextLink⟩ := pl
            simp only [hg] at h
            have hstep : Seg fmt exp s
                { s with svc := svc1, log := s.log ++ [Call.GetPage l.Next .events] } Exit.ok :=
              Seg.of_remote fmt exp s _ [Call.GetPage l.Next .events] _ rfl rfl rfl
                (by simp [Call.isRemote])
            cases hb : buildAndRender fmt exp issue events
                { s with svc := svc1, log := s.log ++ [Call.GetPage l.Next .events] } with
            | none => simp [hb] at h
            | some sx =>
              obtain ⟨s2, ox⟩ := sx
              have h2 := buildAndRender_seg fmt exp issue events _ s2 ox hb
              cases ox with
              | some x2 =>
                simp only [hb, Option.some.injEq, Prod.mk.injEq] at h
                obtain ⟨rfl, rfl⟩ := h
                exact hstep.trans h2
              | none =>
                simp only [hb] at h
                exact (hstep.trans h2).trans (ih nextLink s2 s1 x h)
      · simp only [eventPageLoop, hres, if_false, Option.some.injEq, Prod.mk.injEq] at h
        obtain ⟨rfl, rfl⟩ := h
        exact Seg.refl fmt exp s _

theorem renderIssuesWithEvents_seg {σ : Type} (fmt : Time → GoString) (exp : Exporter σ)
    (fuel : Nat) : ∀ (issues : List Issue) (s s1 : World σ) (x : Exit),
      renderIssuesWithEvents fmt exp fuel issues s = some (s1, x) → Seg fmt exp s s1 x := by
  intro issues
  induction issues with
  | nil =>
    intro s s1 x h
    simp only [renderIssuesWithEvents, Option.some.injEq, Prod.mk.injEq] at h
    obtain ⟨rfl, rfl⟩ := h
    exact Seg.refl fmt exp s _
  | cons issue rest ih =>
    intro s s1 x h
    simp only [renderIssuesWithEvents] at h
    cases hg : exp.Client.GetIssueEvents s.svc issue with
    | mk svc1 res =>
      cases res with
      | panic =>
        simp only [hg, Option.some.injEq, Prod.mk.injEq] at h
        obtain ⟨rfl, rfl⟩ := h
        exact Seg.of_remote fmt exp s _ [Call.GetIssueEvents issue] _ rfl rfl rfl
          (by simp [Call.isRemote])
      | error err =>
        simp only [hg, Option.some.injEq, Prod.mk.injEq] at h
        obtain ⟨rfl, rfl⟩ := h
        obtain ⟨e, he⟩ := eventsFailure_of_id issue err
          (GetIssueEvents_error_id exp.Client s.svc svc1 issue err hg)
        rw [he]
        exact Seg.of_failure fmt exp s _ [] (Call.GetIssueEvents issue) s.svc e
          rfl rfl rfl (by simp) ⟨svc1, err, hg⟩
      | ok pl =>
        have hid := GetIssueEvents_ok_id exp.Client s.svc svc1 issue pl hg
        obtain ⟨events, link⟩ := pl
        simp only [hg] at h
        have hstep : Seg fmt exp s
            { s with svc := svc1, log := s.log ++ [Call.GetIssueEvents issue] } Exit.ok :=
          Seg.of_remote fmt exp s _ [Call.GetIssueEvents issue] _ rfl rfl rfl
            (by simp [Call.isRemote])
        cases hb : buildAndRender fmt exp issue events
            { s with svc := svc1, log := s.log ++ [Call.GetIssueEvents issue] } with
        | none => simp [hb] at h
        | some sx =>
          obtain ⟨s2, ox⟩ := sx
          have h2 := buildAndRender_seg fmt exp issue events _ s2 ox hb
          cases ox with
          | some x2 =>
            simp only [hb, Option.some.injEq, Prod.mk.injEq] at h
            obtain ⟨rfl, rfl⟩ := h
            exact hstep.trans h2
          | none =>
            simp only [hb] at h
            cases hl : eventPageLoop fmt exp issue fuel link s2 with
            | none => simp [hl] at h
            | some sy =>
              obtain ⟨s3, x3⟩ := sy
              have h3 := eventPageLoop_seg fmt exp issue hid fuel link s2 s3 x3 hl
              cases x3 with
              | ok =>
                simp only [hl] at h
                exact ((hstep.trans h2).trans h3).trans (ih s3 s1 x h)
              | error e3 =>
                simp only [hl, Option.some.injEq, Prod.mk.injEq] at h
                obtain ⟨rfl, rfl⟩ := h
                exact (hstep.trans h2).trans h3
              | panic =>
                simp only [hl, Option.some.injEq, Prod.mk.injEq] at h
                obtain ⟨rfl, rfl⟩ := h
                exact (hstep.trans h2).trans h3

theorem renderIssuesOnly_seg {σ : Type} (fmt : Time → GoString) (exp : Exporter σ) :
    ∀ (issues : List Issue) (s s1 : World σ) (x : Exit),
      renderIssuesOnly fmt exp issues s = some (s1, x) → Seg fmt exp s s1 x := by
  intro issues
  induction issues with
  | nil =>
    intro s s1 x h
    simp only [renderIssuesOnly, Option.some.injEq, Prod.mk.injEq] at h
    obtain ⟨rfl, rfl⟩ := h
    exact Seg.refl fmt exp s _
  | cons issue rest ih =>
    intro s s1 x h
    simp only [renderIssuesOnly] at h
    cases hb : buildAndRender fmt exp issue none s with
    | none => simp [hb] at h
    | some sx =>
      obtain ⟨s2, ox⟩ := sx
      have h2 := buildAndRender_seg fmt exp issue none _ s2 ox hb
      cases ox with
      | some x2 =>
        simp only [hb, Option.some.injEq, Prod.mk.injEq] at h
        obtain ⟨rfl, rfl⟩ := h
        exact h2
      | none =>
        simp only [hb] at h
        exact h2.trans (ih s2 s1 x h)

theorem RenderIssues_seg {σ : Type} (fmt : Time → GoString) (exp : Exporter σ)
    (fuel : Nat) (issues : List Issue) (s s1 : World σ) (x : Exit)
    (h : exp.RenderIssues fmt fuel issues s = some (s1, x)) : Seg fmt exp s s1 x := by
  unfold Exporter.RenderIssues at h
  by_cases hc : exp.config.IncludeEvents = true
  · rw [if_pos hc] at h
    exact renderIssuesWithEvents_seg fmt exp fuel issues s s1 x h
  · rw [if_neg hc] at h
    exact renderIssuesOnly_seg fmt exp issues s s1 x h

theorem issuePageLoop_seg {σ : Type} (fmt : Time → GoString) (exp : Exporter σ) (n : Nat) :
    ∀ (fuel : Nat) (link : Option Link) (s s1 : World σ) (x : Exit),
      issuePageLoop fmt exp n fuel link s = some (s1, x) → Seg fmt exp s s1 x := by
  intro fuel
  induction fuel with
  | zero => intro link s s1 x h; simp [issuePageLoop] at h
  | succ f ih =>
    intro link s s1 x h
    cases link with
    | none =>
      simp only [issuePageLoop, Option.some.injEq, Prod.mk.injEq] at h
      obtain ⟨rfl, rfl⟩ := h
      exact Seg.refl fmt exp s _
    | some l =>
      by_cases hres : l.Next.Results = true
      · simp only [issuePageLoop, hres, if_true] at h
        cases hg : exp.Client.GetPageIssues s.svc l.Next with
        | mk svc1 res =>
          cases res with
          | panic =>
            simp only [hg, Option.some.injEq, Prod.mk.injEq] at h
            obtain ⟨rfl, rfl⟩ := h
            exact Seg.of_remote fmt exp s _ [Call.GetPage l.Next .issues] _ rfl rfl rfl
              (by simp [Call.isRemote])
          | error err =>
            simp only [hg, Option.some.injEq, Prod.mk.injEq] at h
            obtain ⟨rfl, rfl⟩ := h
            exact Seg.of_failure fmt exp s _ [] (Call.GetPage l.Next .issues) s.svc _
              rfl rfl rfl (by simp) ⟨svc1, err, hg⟩
          | ok pl =>
            obtain ⟨issues, nextLink⟩ := pl
            simp only [hg] at h
            have hstep : Seg fmt exp s
                { s with svc := svc1, log := s.log ++ [Call.GetPage l.Next .issues] } Exit.ok :=
              Seg.of_remote fmt exp s _ [Call.GetPage l.Next .issues] _ rfl rfl rfl
                (by simp [Call.isRemote])
            cases hb : exp.RenderIssues fmt n issues
                { s with svc := svc1, log := s.log ++ [Call.GetPage l.Next .issues] } with
            | none => simp [hb] at h
            | some sx =>
              obtain ⟨s2, x2⟩ := sx
              have h2 := RenderIssues_seg fmt exp n issues _ s2 x2 hb
              cases x2 with
              | ok =>
                simp only [hb] at h
                exact (hstep.trans h2).trans (ih nextLink s2 s1 x h)
              | error e2 =>
                simp only [hb, Option.some.injEq, Prod.mk.injEq] at h
                obtain ⟨rfl, rfl⟩ := h
                exact hstep.trans h2
              | panic =>
                simp only [hb, Option.some.injEq, Prod.mk.injEq] at h
                obtain ⟨rfl, rfl⟩ := h
                exact hstep.trans h2
      · simp only [issuePageLoop, hres, if_false, Option.some.injEq, Prod.mk.injEq] at h
        obtain ⟨rfl, rfl⟩ := h
        exact Seg.refl fmt exp s _

/-! ### The body of `Export` -/

theorem Run.of_seg {σ : Type} (fmt : Time → GoString) (exp : Exporter σ)
    (s s0 s1 : World σ) (x : Exit)
    (hlog0 : s0.log = s.log ++ [Call.RenderHeader]) (hf0 : s0.failures = s.failures)
    (hout0 : exp.Renderer = NewExcelCSVRenderer →
      s0.out.written = s.out.written ++ excelHeader)
    (hseg : Seg fmt exp s0 s1 x) : Run fmt exp s s1 x := by
  obtain ⟨t, hl, hst, hb, hf⟩ := hseg
  refine ⟨Call.RenderHeader :: t, by rw [hl, hlog0]; simp, ?_, ?_, ?_⟩
  · have := (not_mem_of_isStep t hst).2.2
    simp [this]
  · intro hr hx
    rw [hb hr (by rw [hf0]; exact hx), hout0 hr]
    simp [traceBytes]
  · rcases hf with hf | ⟨hf, he, t0, call, svc0, ht, hF⟩
    · exact Or.inl (by rw [hf, hf0])
    · refine Or.inr ⟨by rw [hf, hf0], he, t0, call, svc0, by rw [ht]; simp, ?_, hF⟩
      intro c hc
      exact hst c (by rw [ht]; simp [hc])

theorem Run.of_footer {σ : Type} (fmt : Time → GoString) (exp : Exporter σ)
    (s s0 s6 s1 : World σ) (x : Exit)
    (hlog0 : s0.log = s.log ++ [Call.RenderHeader]) (hf0 : s0.failures = s.failures)
    (hout0 : exp.Renderer = NewExcelCSVRenderer →
      s0.out.written = s.out.written ++ excelHeader)
    (hseg : Seg fmt exp s0 s6 Exit.ok)
    (hlog1 : s1.log = s6.log ++ [Call.RenderFooter]) (hout1 : s1.out = s6.out)
    (hf1 : s1.failures = s6.failures) : Run fmt exp s s1 x := by
  have hf6 := hseg.failures_of_ok
  obtain ⟨t, hl, hst, hb, _⟩ := hseg
  refine ⟨Call.RenderHeader :: t ++ [Call.RenderFooter], by rw [hlog1, hl, hlog0]; simp,
    ?_, ?_, Or.inl (by rw [hf1, hf6, hf0])⟩
  · have := (not_mem_of_isStep t hst).2.2
    simp [this]
  · intro hr _
    rw [hout1, hb hr (Or.inl rfl), hout0 hr]
    simp [traceBytes, traceBytes_append]

theorem exportBody_run {σ : Type} (fmt : Time → GoString) (exp : Exporter σ)
    (fuel : Nat) (s s1 : World σ) (x : Exit)
    (h : exportBody fmt exp fuel s = some (s1, x)) : Run fmt exp s s1 x := by
  unfold exportBody at h
  cases hh : exp.Renderer.RenderHeader s.out with
  | mk w1 e1 =>
    cases e1 with
    | some e =>
      simp only [hh, Option.some.injEq, Prod.mk.injEq] at h
      obtain ⟨rfl, rfl⟩ := h
      exact ⟨[Call.RenderHeader], rfl, by simp, fun _ hx => by simp at hx, Or.inl rfl⟩
    | none =>
      simp only [hh] at h
      have hout0 : exp.Renderer = NewExcelCSVRenderer →
          w1.written = s.out.written ++ excelHeader := by
        intro hr
        rw [hr] at hh
        exact RenderHeader_excel_ok s.out w1 hh
      have run : ∀ s1 x, Seg fmt exp
          { svc := s.svc, out := w1, log := s.log ++ [Call.RenderHeader],
            failures := s.failures } s1 x → Run fmt exp s s1 x :=
        fun s1 x hs => Run.of_seg fmt exp s
          { svc := s.svc, out := w1, log := s.log ++ [Call.RenderHeader],
            failures := s.failures } s1 x rfl rfl hout0 hs
      cases hg : exp.Client.GetOrganization s.svc exp.config.Organization with
      | mk svc2 res2 =>
        cases res2 with
        | panic =>
          simp only [hg, Option.some.injEq, Prod.mk.injEq] at h
          obtain ⟨rfl, rfl⟩ := h
          exact run _ _ (Seg.of_remote fmt exp _ _
            [Call.GetOrganization exp.config.Organization] _ (by simp) rfl rfl
            (by simp [Call.isRemote]))
        | error err =>
          simp only [hg, Option.some.injEq, Prod.mk.injEq] at h
          obtain ⟨rfl, rfl⟩ := h
          exact run _ _ (Seg.of_failure fmt exp _ _ []
            (Call.GetOrganization exp.config.Organization) s.svc _ (by simp) rfl rfl
            (by simp) ⟨svc2, err, hg⟩)
        | ok org =>
          simp only [hg] at h
          cases hp : exp.Client.GetProject svc2 org exp.config.Project with
          | mk svc3 res3 =>
            cases res3 with
            | panic =>
              simp only [hp, Option.some.injEq, Prod.mk.injEq] at h
              obtain ⟨rfl, rfl⟩ := h
              exact run _ _ (Seg.of_remote fmt exp _ _
                [Call.GetOrganization exp.config.Organization,
                  Call.GetProject org exp.config.Project] _ (by simp) rfl rfl
                (by simp [Call.isRemote]))
            | error err =>
              simp only [hp, Option.some.injEq, Prod.mk.injEq] at h
              obtain ⟨rfl, rfl⟩ := h
              exact run _ _ (Seg.of_failure fmt exp _ _
                [Call.GetOrganization exp.config.Organization]
                (Call.GetProject org exp.config.Project) svc2 _ (by simp) rfl rfl
                (by simp [Call.isRemote]) ⟨svc3, err, hp⟩)
            | ok proj =>
              simp only [hp] at h
              cases hi : exp.Client.GetIssues svc3 org proj exp.config.StatsPeriod
                  exp.config.Query with
              | mk svc4 res4 =>
                cases res4 with
                | panic =>
                  simp only [hi, Option.some.injEq, Prod.mk.injEq] at h
                  obtain ⟨rfl, rfl⟩ := h
                  exact run _ _ (Seg.of_remote fmt exp _ _
                    [Call.GetOrganization exp.config.Organization,
                      Call.GetProject org exp.config.Project, Call.GetIssues] _
                    (by simp) rfl rfl (by simp [Call.isRemote]))
                | error err =>
                  simp only [hi, Option.some.injEq, Prod.mk.injEq] at h
                  obtain ⟨rfl, rfl⟩ := h
                  exact run _ _ (Seg.of_failure fmt exp _ _
                    [Call.GetOrganization exp.config.Organization,
                      Call.GetProject org exp.config.Project]
                    Call.GetIssues svc3 _ (by simp) rfl rfl
                    (by simp [Call.isRemote]) ⟨org, proj, svc4, err, hi⟩)
                | ok pl =>
                  obtain ⟨issues, link⟩ := pl
                  simp only [hi] at h
                  have hstep : Seg fmt exp
                      { svc := s.svc, out := w1, log := s.log ++ [Call.RenderHeader],
                        failures := s.failures }
                      { svc := svc4, out := w1, failures := s.failures,
                        log := s.log ++ [Call.RenderHeader,
                          Call.GetOrganization exp.config.Organization,
                          Call.GetProject org exp.config.Project, Call.GetIssues] } Exit.ok :=
                    Seg.of_remote fmt exp _ _
                      [Call.GetOrganization exp.config.Organization,
                        Call.GetProject org exp.config.Project, Call.GetIssues] _
                      (by simp) rfl rfl (by simp [Call.isRemote])
                  cases hr : exp.RenderIssues fmt fuel issues
                      { svc := svc4, out := w1, failures := s.failures,
                        log := s.log ++ [Call.RenderHeader,
                          Call.GetOrganization exp.config.Organization,
                          Call.GetProject org exp.config.Project, Call.GetIssues] } with
                  | none => simp [hr] at h
                  | some sx =>
                    obtain ⟨s5, x5⟩ := sx
                    have h5 := hstep.trans (RenderIssues_seg fmt exp fuel issues _ s5 x5 hr)
                    cases x5 with
                    | error e5 =>
                      simp only [hr, Option.some.injEq, Prod.mk.injEq] at h
                      obtain ⟨rfl, rfl⟩ := h
                      exact run _ _ h5
                    | panic =>
                      simp only [hr, Option.some.injEq, Prod.mk.injEq] at h
                      obtain ⟨rfl, rfl⟩ := h
                      exact run _ _ h5
                    | ok =>
                      simp only [hr] at h
                      cases hl : issuePageLoop fmt exp fuel fuel link s5 with
                      | none => simp [hl] at h
                      | some sy =>
                        obtain ⟨s6, x6⟩ := sy
                        have h6 := h5.trans
                          (issuePageLoop_seg fmt exp fuel fuel link s5 s6 x6 hl)
                        cases x6 with
                        | error e6 =>
                          simp only [hl, Option.some.injEq, Prod.mk.injEq] at h
                          obtain ⟨rfl, rfl⟩ := h
                          exact run _ _ h6
                        | panic =>
                          simp only [hl, Option.some.injEq, Prod.mk.injEq] at h
                          obtain ⟨rfl, rfl⟩ := h
                          exact run _ _ h6
                        | ok =>
                          simp only [hl] at h
                          cases hf : exp.Renderer.RenderFooter s6.out with
                          | mk w7 e7 =>
                            have hw7 : w7 = s6.out := by
                              simp only [CSVRenderer.RenderFooter, Prod.mk.injEq] at hf
                              exact hf.1.symm
                            cases e7 with
                            | some e =>
                              simp only [hf, Option.some.injEq, Prod.mk.injEq] at h
                              obtain ⟨rfl, rfl⟩ := h
                              exact Run.of_footer fmt exp s
                                { svc := s.svc, out := w1, log := s.log ++ [Call.RenderHeader],
                                  failures := s.failures } s6 _ _ rfl rfl hout0 h6 rfl hw7 rfl
                            | none =>
                              simp only [hf, Option.some.injEq, Prod.mk.injEq] at h
                              obtain ⟨rfl, rfl⟩ := h
                              exact Run.of_footer fmt exp s
                                { svc := s.svc, out := w1, log := s.log ++ [Call.RenderHeader],
                                  failures := s.failures } s6 _ _ rfl rfl hout0 h6 rfl hw7 rfl

/-! ### Runs return when the quote character is not empty and paging ends -/

theorem renderRows_returns {σ : Type} (fmt : Time → GoString) (exp : Exporter σ)
    (hq : exp.Renderer.QuoteCharacterStr ≠ []) (rows : List ExporterResult) (s : World σ) :
    renderRows fmt exp rows s ≠ none := by
  unfold renderRows
  have := RenderPartialResults_returns fmt exp.Renderer hq rows s.out
  split
  · contradiction
  · simp

theorem buildAndRender_returns {σ : Type} (fmt : Time → GoString) (exp : Exporter σ)
    (hq : exp.Renderer.QuoteCharacterStr ≠ []) (issue : Issue) (events : Option (List Event))
    (s : World σ) : buildAndRender fmt exp issue events s ≠ none := by
  unfold buildAndRender
  cases hb : BuildExporterResultsForSingleIssue issue events with
  | none => simp
  | some rows =>
    simp only []
    have := renderRows_returns fmt exp hq rows s
    cases hr : renderRows fmt exp rows s with
    | none => contradiction
    | some se =>
      obtain ⟨s1, e⟩ := se
      cases e <;> simp

theorem eventPageLoop_returns {σ : Type} (fmt : Time → GoString) (exp : Exporter σ)
    (hq : exp.Renderer.QuoteCharacterStr ≠ []) (issue : Issue) :
    ∀ (fuel n : Nat) (link : Option Link) (s : World σ), n < fuel →
      EndsWithin exp.Client.GetPageEvents n link →
      eventPageLoop fmt exp issue fuel link s ≠ none := by
  intro fuel
  induction fuel with
  | zero => intro n link s hn; omega
  | succ f ih =>
    intro n link s hn he
    cases link with
    | none => simp [eventPageLoop]
    | some l =>
      by_cases hres : l.Next.Results = true
      · cases n with
        | zero =>
          simp only [EndsWithin] at he
          have := he l rfl
          rw [hres] at this
          cases this
        | succ m =>
          simp only [EndsWithin] at he
          simp only [eventPageLoop, hres, if_true]
          cases hg : exp.Client.GetPageEvents s.svc l.Next with
          | mk svc1 res =>
            cases res with
            | panic => simp
            | error err => simp
            | ok pl =>
              obtain ⟨events, nextLink⟩ := pl
              have hnext := he l rfl hres s.svc svc1 events nextLink hg
              simp only []
              have hb := buildAndRender_returns fmt exp hq issue events
                { s with svc := svc1, log := s.log ++ [Call.GetPage l.Next .events] }
              cases hbr : buildAndRender fmt exp issue events
                  { s with svc := svc1, log := s.log ++ [Call.GetPage l.Next .events] } with
              | none => contradiction
              | some sx =>
                obtain ⟨s2, ox⟩ := sx
                cases ox with
                | some x2 => simp
                | none => exact ih m nextLink s2 (by omega) hnext
      · simp [eventPageLoop, hres]

theorem renderIssuesWithEvents_returns {σ : Type} (fmt : Time → GoString) (exp : Exporter σ)
    (hq : exp.Renderer.QuoteCharacterStr ≠ []) (n fuel : Nat) (hf : n < fuel)
    (hp : PagingEndsWithin exp.Client n) :
    ∀ (issues : List Issue) (s : World σ),
      renderIssuesWithEvents fmt exp fuel issues s ≠ none := by
  intro issues
  induction issues with
  | nil => intro s; simp [renderIssuesWithEvents]
  | cons issue rest ih =>
    intro s
    simp only [renderIssuesWithEvents]
    cases hg : exp.Client.GetIssueEvents s.svc issue with
    | mk svc1 res =>
      cases res with
      | panic => simp
      | error err => simp
      | ok pl =>
        obtain ⟨events, link⟩ := pl
        have hlink := hp.2 s.svc issue svc1 events link hg
        simp only []
        have hb := buildAndRender_returns fmt exp hq issue events
          { s with svc := svc1, log := s.log ++ [Call.GetIssueEvents issue] }
        cases hbr : buildAndRender fmt exp issue events
            { s with svc := svc1, log := s.log ++ [Call.GetIssueEvents issue] } with
        | none => contradiction
        | some sx =>
          obtain ⟨s2, ox⟩ := sx
          cases ox with
          | some x2 => simp
          | none =>
            simp only []
            have hl := eventPageLoop_returns fmt exp hq issue fuel n link s2 hf hlink
            cases hlr : eventPageLoop fmt exp issue fuel link s2 with
            | none => contradiction
            | some sy =>
              obtain ⟨s3, x3⟩ := sy
              cases x3 with
              | ok => exact ih s3
              | error e3 => simp
              | panic => simp

theorem renderIssuesOnly_returns {σ : Type} (fmt : Time → GoString) (exp : Exporter σ)
    (hq : exp.Renderer.QuoteCharacterStr ≠ []) :
    ∀ (issues : List Issue) (s : World σ), renderIssuesOnly fmt exp issues s ≠ none := by
  intro issues
  induction issues with
  | nil => intro s; simp [renderIssuesOnly]
  | cons issue rest ih =>
    intro s
    simp only [renderIssuesOnly]
    have hb := buildAndRender_returns fmt exp hq issue none s
    cases hbr : buildAndRender fmt exp issue none s with
    | none => contradiction
    | some sx =>
      obtain ⟨s2, ox⟩ := sx
      cases ox with
      | some x2 => simp
      | none => exact ih s2

theorem RenderIssues_returns {σ : Type} (fmt : Time → GoString) (exp : Exporter σ)
    (hq : exp.Renderer.QuoteCharacterStr ≠ []) (n fuel : Nat) (hf : n < fuel)
    (hp : PagingEndsWithin exp.Client n) (issues : List Issue) (s : World σ) :
    exp.RenderIssues fmt fuel issues s ≠ none := by
  unfold Exporter.RenderIssues
  split
  · exact renderIssuesWithEvents_returns fmt exp hq n fuel hf hp issues s
  · exact renderIssuesOnly_returns fmt exp hq issues s

theorem issuePageLoop_returns {σ : Type} (fmt : Time → GoString) (exp : Exporter σ)
    (hq : exp.Renderer.QuoteCharacterStr ≠ []) (n k : Nat) (hk : n < k)
    (hp : PagingEndsWithin exp.Client n) :
    ∀ (fuel m : Nat) (link : Option Link) (s : World σ), m < fuel →
      EndsWithin exp.Client.GetPageIssues m link →
      issuePageLoop fmt exp k fuel link s ≠ none := by
  intro fuel
  induction fuel with
  | zero => intro m link s hm; omega
  | succ f ih =>
    intro m link s hm he
    cases link with
    | none => simp [issuePageLoop]
    | some l =>
      by_cases hres : l.Next.Results = true
      · cases m with
        | zero =>
          simp only [EndsWithin] at he
          have := he l rfl
          rw [hres] at this
          cases this
        | succ m =>
          simp only [EndsWithin] at he
          simp only [issuePageLoop, hres, if_true]
          cases hg : exp.Client.GetPageIssues s.svc l.Next with
          | mk svc1 res =>
            cases res with
            | panic => simp
            | error err => simp
            | ok pl =>
              obtain ⟨issues, nextLink⟩ := pl
              have hnext := he l rfl hres s.svc svc1 issues nextLink hg
              simp only []
              have hb := RenderIssues_returns fmt exp hq n k hk hp issues
                { s with svc := svc1, log := s.log ++ [Call.GetPage l.Next .issues] }
              cases hbr : exp.RenderIssues fmt k issues
                  { s with svc := svc1, log := s.log ++ [Call.GetPage l.Next .issues] } with
              | none => contradiction
              | some sx =>
                obtain ⟨s2, x2⟩ := sx
                cases x2 with
                | ok => exact ih m nextLink s2 (by omega) hnext
                | error e2 => simp
                | panic => simp
      · simp [issuePageLoop, hres]

theorem exportBody_returns {σ : Type} (fmt : Time → GoString) (exp : Exporter σ)
    (hq : exp.Renderer.QuoteCharacterStr ≠ []) (n fuel : Nat) (hf : n < fuel)
    (hp : PagingEndsWithin exp.Client n) (s : World σ) :
    exportBody fmt exp fuel s ≠ none := by
  unfold exportBody
  cases hh : exp.Renderer.RenderHeader s.out with
  | mk w1 e1 =>
    cases e1 with
    | some e => simp
    | none =>
      simp only []
      cases hg : exp.Client.GetOrganization s.svc exp.config.Organization with
      | mk svc2 res2 =>
        cases res2 with
        | panic => simp
        | error err => simp
        | ok org =>
          simp only []
          cases hpj : exp.Client.GetProject svc2 org exp.config.Project with
          | mk svc3 res3 =>
            cases res3 with
            | panic => simp
            | error err => simp
            | ok proj =>
              simp only []
              cases hi : exp.Client.GetIssues svc3 org proj exp.config.StatsPeriod
                  exp.config.Query with
              | mk svc4 res4 =>
                cases res4 with
                | panic => simp
                | error err => simp
                | ok pl =>
                  obtain ⟨issues, link⟩ := pl
                  have hlink := hp.1 svc3 org proj _ _ svc4 issues link hi
                  simp only []
                  have hb := RenderIssues_returns fmt exp hq n fuel hf hp issues
                    { svc := svc4, out := w1, failures := s.failures,
                      log := s.log ++ [Call.RenderHeader,
                        Call.GetOrganization exp.config.Organization,
                        Call.GetProject org exp.config.Project, Call.GetIssues] }
                  cases hr : exp.RenderIssues fmt fuel issues
                      { svc := svc4, out := w1, failures := s.failures,
                        log := s.log ++ [Call.RenderHeader,
                          Call.GetOrganization exp.config.Organization,
                          Call.GetProject org exp.config.Project, Call.GetIssues] } with
                  | none => contradiction
                  | some sx =>
                    obtain ⟨s5, x5⟩ := sx
                    cases x5 with
                    | error e5 => simp
                    | panic => simp
                    | ok =>
                      simp only []
                      have hl := issuePageLoop_returns fmt exp hq n fuel hf hp fuel n link s5
                        hf hlink
                      cases hlr : issuePageLoop fmt exp fuel fuel link s5 with
                      | none => contradiction
                      | some sy =>
                        obtain ⟨s6, x6⟩ := sy
                        cases x6 with
                        | error e6 => simp
                        | panic => simp
                        | ok =>
                          simp only []
                          cases hft : exp.Renderer.RenderFooter s6.out with
                          | mk w7 e7 => cases e7 <;> simp

theorem Export_returns {σ : Type} (fmt : Time → GoString) (exp : Exporter σ)
    (hq : exp.Renderer.QuoteCharacterStr ≠ []) (n fuel : Nat) (hf : n < fuel)
    (hp : PagingEndsWithin exp.Client n) (s : World σ) :
    ∃ final x, exp.Export fmt fuel s = some (final, x) := by
  unfold Exporter.Export
  have hb := exportBody_returns fmt exp hq n fuel hf hp s
  cases hbr : exportBody fmt exp fuel s with
  | none => contradiction
  | some sx =>
    obtain ⟨s1, x⟩ := sx
    exact ⟨_, x, rfl⟩

/-! ### Paging of the mock clients -/

theorem flakyClient_cursors_issues (pages : List (List Issue)) (eventPages : List (List Event))
    (k : Nat) : ∀ (n u : Nat) (prev : Page), pages.length ≤ u + n →
      EndsWithin (flakyClient pages eventPages k).GetPageIssues n
        (some ⟨prev, ⟨u, decide (u < pages.length)⟩⟩) := by
  intro n
  induction n with
  | zero =>
    intro u prev h
    simp only [EndsWithin]
    intro l hl
    cases hl
    simp
    omega
  | succ n ih =>
    intro u prev h
    simp only [EndsWithin]
    intro l hl hres s s1 page next hg
    cases hl
    simp only [Client.GetPageIssues, flakyClient, mockEventsClient, mockClient] at hg
    by_cases hs : s = k
    · simp [hs, Reply.ofExcept] at hg
    · simp only [hs, if_false, Reply.ofExcept, Prod.mk.injEq, Reply.ok.injEq] at hg
      obtain ⟨_, _, rfl⟩ := hg
      exact ih (u + 1) _ (by omega)

theorem flakyClient_cursors_events (pages : List (List Issue)) (eventPages : List (List Event))
    (k : Nat) : ∀ (n u : Nat) (prev : Page), eventPages.length ≤ u + n →
      EndsWithin (flakyClient pages eventPages k).GetPageEvents n
        (some ⟨prev, ⟨u, decide (u < eventPages.length)⟩⟩) := by
  intro n
  induction n with
  | zero =>
    intro u prev h
    simp only [EndsWithin]
    intro l hl
    cases hl
    simp
    omega
  | succ n ih =>
    intro u prev h
    simp only [EndsWithin]
    intro l hl hres s s1 page next hg
    cases hl
    simp only [Client.GetPageEvents, flakyClient, mockEventsClient] at hg
    by_cases hs : s = k
    · simp [hs, Reply.ofExcept] at hg
    · simp only [hs, if_false, Reply.ofExcept, Prod.mk.injEq, Reply.ok.injEq] at hg
      obtain ⟨_, _, rfl⟩ := hg
      exact ih (u + 1) _ (by omega)

theorem flakyClient_paging (pages : List (List Issue)) (eventPages : List (List Event))
    (k n : Nat) (hp : pages.length ≤ n + 1) (he : eventPages.length ≤ n + 1) :
    PagingEndsWithin (flakyClient pages eventPages k) n := by
  refine ⟨?_, ?_⟩
  · intro s org proj statsPeriod query s1 issues link hg
    unfold Client.GetIssues at hg
    cases ho : org.Slug with
    | none => simp [ho] at hg
    | some oslug =>
      cases hj : proj.Slug with
      | none => simp [ho, hj] at hg
      | some pslug =>
        simp only [ho, hj, flakyClient, mockEventsClient, mockClient] at hg
        by_cases hs : s = k
        · simp [hs, Reply.ofExcept] at hg
        · simp only [hs, if_false, Reply.ofExcept, Prod.mk.injEq, Reply.ok.injEq] at hg
          obtain ⟨_, _, rfl⟩ := hg
          exact flakyClient_cursors_issues pages eventPages k n 1 _ (by omega)
  · intro s issue s1 events link hg
    unfold Client.GetIssueEvents at hg
    cases hi : issue.ID with
    | none => simp [hi] at hg
    | some id =>
      simp only [hi, flakyClient, mockEventsClient] at hg
      by_cases hs : s = k
      · simp [hs, Reply.ofExcept] at hg
      · simp only [hs, if_false, Reply.ofExcept, Prod.mk.injEq, Reply.ok.injEq] at hg
        obtain ⟨_, _, rfl⟩ := hg
        exact flakyClient_cursors_events pages eventPages k n 1 _ (by omega)

/-- C12: first, every run of `Export` that ends, by a normal return, by the
return of an error from the header, from a lookup, from a page fetch, from a
render call or from the footer, or by a panic, has made a sequence of calls
without `Fini` followed by `Fini`: the renderer's `Fini` is invoked exactly
once and it is the last call, no renderer operation follows it.  Second, such
runs do end: when the quote character of the format is not empty and every
chain of cursors of the service ends within n fetches, `Export` with a bound
`fuel > n` on the rounds of each page loop returns, whatever the lookups, the
fetches and the sink answer, and its calls are a sequence without `Fini`
followed by `Fini`. -/
theorem C12_fini_once_and_last {σ : Type} (fmt : Time → GoString) (exp : Exporter σ)
    (fuel : Nat) (s : World σ) :
    (∀ final x, exp.Export fmt fuel s = some (final, x) →
      ∃ t, final.log = s.log ++ t ++ [Call.Fini]
        ∧ Call.Fini ∉ t
        ∧ (t ++ [Call.Fini]).count Call.Fini = 1
        ∧ (t ++ [Call.Fini]).getLast? = some Call.Fini)
    ∧ (exp.Renderer.QuoteCharacterStr ≠ [] →
        ∀ n, n < fuel → PagingEndsWithin exp.Client n →
        ∃ final x t, exp.Export fmt fuel s = some (final, x)
          ∧ final.log = s.log ++ t ++ [Call.Fini]
          ∧ Call.Fini ∉ t
          ∧ (t ++ [Call.Fini]).count Call.Fini = 1
          ∧ (t ++ [Call.Fini]).getLast? = some Call.Fini) := by
  have first : ∀ final x, exp.Export fmt fuel s = some (final, x) →
      ∃ t, final.log = s.log ++ t ++ [Call.Fini]
        ∧ Call.Fini ∉ t
        ∧ (t ++ [Call.Fini]).count Call.Fini = 1
        ∧ (t ++ [Call.Fini]).getLast? = some Call.Fini := by
    intro final x h
    unfold Exporter.Export at h
    cases hb : exportBody fmt exp fuel s with
    | none => simp [hb] at h
    | some sx =>
      obtain ⟨s1, x1⟩ := sx
      simp only [hb, Option.some.injEq, Prod.mk.injEq] at h
      obtain ⟨rfl, _⟩ := h
      obtain ⟨t, ht, hn, _, _⟩ := exportBody_run fmt exp fuel s s1 x1 hb
      refine ⟨t, by simp [ht], hn, ?_, by simp⟩
      simp [List.count_append, List.count_eq_zero_of_not_mem hn]
  refine ⟨first, fun hq n hf hp => ?_⟩
  obtain ⟨final, x, h⟩ := Export_returns fmt exp hq n fuel hf hp s
  obtain ⟨t, ht⟩ := first final x h
  exact ⟨final, x, t, h, ht⟩

set_option maxRecDepth 100000 in
/-- C12 at the mock services.  The run over the flaky service with two issue
pages and two event pages per issue returns, by the second part of C12.  The
other runs are evaluated: each ends with `Fini` as its last call, called once;
they are a run that succeeds, a run whose header write fails, runs whose
organization lookup, project lookup, issue listing, issue-page fetch, first
event listing or event-page fetch fails, a run whose first row write fails,
a run that panics on an issue without first-seen, and a run that panics inside
the client on an issue without identifier. -/
theorem C12_fini_once_and_last_witness :
    (∃ final x t,
      (flakyExporter [[sampleIssue], [sampleIssue2]] [[sampleEvent], [sampleEvent2]] true 5).Export
          sampleFormat 2 World.start = some (final, x)
        ∧ final.log = World.start.log ++ t ++ [Call.Fini] ∧ Call.Fini ∉ t)
    ∧ ((mockExporter [[sampleIssue]]).Export sampleFormat 2 World.start).map
          (fun p => (p.2, p.1.log.getLast?, p.1.log.count Call.Fini))
        = some (Exit.ok, some Call.Fini, 1)
    ∧ ((mockExporter [[sampleIssue]]).Export sampleFormat 2
          { World.start with out := Writer.failingAfter 0 }).map (fun p => (p.2, p.1.log))
        = some (Exit.error (.wrapped "failed to render a header" [] .sink),
            [Call.RenderHeader, Call.Fini])
    ∧ ((flakyExporter [[sampleIssue]] [] false 0).Export sampleFormat 2 World.start).map
          (fun p => (p.2, p.1.log))
        = some (Exit.error (.wrapped "failed to retrieve organization %s" [ascii "acme"]
              (.remote 500)),
            [Call.RenderHeader, Call.GetOrganization (ascii "acme"), Call.Fini])
    ∧ ((flakyExporter [[sampleIssue]] [] false 1).Export sampleFormat 2 World.start).map
          (fun p => (p.2, p.1.log.getLast?, p.1.log.count Call.Fini))
        = some (Exit.error (.wrapped "failed to retrieve project %s in organization %s"
              [ascii "web", ascii "acme"] (.remote 500)), some Call.Fini, 1)
    ∧ ((flakyExporter [[sampleIssue]] [] false 2).Export sampleFormat 2 World.start).map
          (fun p => (p.2, p.1.log.getLast?, p.1.log.count Call.Fini))
        = some (Exit.error (.wrapped "failed to retrieve issues" [] (.remote 500)),
            some Call.Fini, 1)
    ∧ ((flakyExporter [[sampleIssue], [sampleIssue2]] [] false 3).Export sampleFormat 2
          World.start).map (fun p => (p.2, p.1.log.getLast?, p.1.log.count Call.Fini))
        = some (Exit.error (.wrapped "failed to retrieve issues" [] (.remote 500)),
            some Call.Fini, 1)
    ∧ ((flakyExporter [[sampleIssue]] [[sampleEvent], [sampleEvent2]] true 3).Export
          sampleFormat 2 World.start).map
            (fun p => (p.2, p.1.log.getLast?, p.1.log.count Call.Fini))
        = some (Exit.error (.wrapped "failed to retrieve events for issue %s" [ascii "1"]
              (.remote 500)), some Call.Fini, 1)
    ∧ ((flakyExporter [[sampleIssue]] [[sampleEvent], [sampleEvent2]] true 4).Export
          sampleFormat 2 World.start).map
            (fun p => (p.2, p.1.log.getLast?, p.1.log.count Call.Fini))
        = some (Exit.error (.wrapped "failed to retrieve events for issue %s" [ascii "1"]
              (.remote 500)), some Call.Fini, 1)
    ∧ ((mockExporter [[sampleIssue]]).Export sampleFormat 2
          { World.start with out := Writer.failingAfter 50 }).map
            (fun p => (p.2, p.1.log.getLast?, p.1.log.count Call.Fini))
        = some (Exit.error (.wrapped "failed to render results" [] .sink), some Call.Fini, 1)
    ∧ ((mockExporter [[undatedIssue]]).Export sampleFormat 2 World.start).map
          (fun p => (p.2, p.1.log.getLast?, p.1.log.count Call.Fini))
        = some (Exit.panic, some Call.Fini, 1)
    ∧ ((mockEventsExporter [[anonymousIssue]] [] false).Export sampleFormat 2 World.start).map
          (fun p => (p.2, p.1.log.getLast?, p.1.log.count Call.Fini))
        = some (Exit.panic, some Call.Fini, 1) := by
  refine ⟨?_, by decide, by decide, by decide, by decide, by decide, by decide, by decide,
    by decide, by decide, by decide, by decide⟩
  obtain ⟨final, x, t, h, hl, hn, _, _⟩ :=
    (C12_fini_once_and_last sampleFormat
      (flakyExporter [[sampleIssue], [sampleIssue2]] [[sampleEvent], [sampleEvent2]] true 5) 2
      World.start).2 (by decide) 1 (by decide)
      (flakyClient_paging _ _ 5 1 (by decide) (by decide))
  exact ⟨final, x, t, h, hl, hn⟩

/-! ### The pipeline with expansion enabled -/

theorem build_base (issue : Issue)
    (ht : issue.FirstSeen.isSome ∧ issue.LastSeen.isSome) :
    ∃ base, BuildExporterResultsForSingleIssue issue none = some [base]
      ∧ ∀ evs : List Event, (∀ ev ∈ evs, ev.DateCreated.isSome) →
          BuildExporterResultsForSingleIssue issue (some evs) = some (evs.map (eventRecord base))
          ∧ pageRows issue evs = evs.map (eventRecord base) := by
  obtain ⟨firstSeen, hf⟩ := Option.isSome_iff_exists.1 ht.1
  obtain ⟨lastSeen, hl⟩ := Option.isSome_iff_exists.1 ht.2
  simp only [pageRows, BuildExporterResultsForSingleIssue, hf, hl]
  refine ⟨_, rfl, fun evs hc => ?_⟩
  rw [buildLoop_eq _ rfl evs [] hc]
  simp

theorem buildAndRender_events {σ : Type} (fmt : Time → GoString) (exp : Exporter σ)
    (hr : exp.Renderer = NewExcelCSVRenderer) (issue : Issue) (page : List Event) (s : World σ)
    (hw : s.out.NeverFails) (ht : issue.FirstSeen.isSome ∧ issue.LastSeen.isSome)
    (hc : ∀ ev ∈ page, ev.DateCreated.isSome) :
    ∃ s1, buildAndRender fmt exp issue (some page) s = some (s1, none)
      ∧ s1.svc = s.svc
      ∧ s1.out.written = s.out.written ++ excelRows fmt (pageRows issue page)
      ∧ s1.out.NeverFails
      ∧ s1.log = s.log ++ [Call.RenderPartialResults (pageRows issue page)] := by
  obtain ⟨base, _, hall⟩ := build_base issue ht
  obtain ⟨hb, hp⟩ := hall page hc
  have e : buildAndRender fmt exp issue (some page) s
      = some ({ s with
                out := { s.out with
                  written := s.out.written ++ excelRows fmt (page.map (eventRecord base))
                  calls := s.out.calls + 50 * (page.map (eventRecord base)).length }
                log := s.log ++ [Call.RenderPartialResults (page.map (eventRecord base))] },
              none) := by
    simp only [buildAndRender, hb, renderRows, hr, RenderPartialResults_excel fmt _ _ hw]
  rw [hp]
  exact ⟨_, e, rfl, rfl, neverFails_after _ _ _ hw, rfl⟩

theorem eventPageLoop_ok {σ : Type} (fmt : Time → GoString) (exp : Exporter σ)
    (hr : exp.Renderer = NewExcelCSVRenderer) (issue : Issue)
    (ht : issue.FirstSeen.isSome ∧ issue.LastSeen.isSome) (s3 : σ) :
    ∀ (later : List (List Event × Option Link)) (link : Option Link) (s : World σ) (fuel : Nat),
      ServesEventPages exp.Client s.svc link later s3 → s.out.NeverFails →
      (∀ p ∈ later, ∀ ev ∈ p.1, ev.DateCreated.isSome) →
      later.length < fuel →
      ∃ s1, eventPageLoop fmt exp issue fuel link s = some (s1, Exit.ok)
        ∧ s1.svc = s3
        ∧ s1.out.written = s.out.written
            ++ excelRows fmt (later.map (fun p => pageRows issue p.1)).flatten
        ∧ s1.out.NeverFails
        ∧ s1.log = s.log ++ eventPagesTrace issue link later
        ∧ eventFetches (eventPagesTrace issue link later) = later.length := by
  intro later
  induction later with
  | nil =>
    intro link s fuel hp hw _ hf
    obtain ⟨f, rfl⟩ : ∃ f, fuel = f + 1 := ⟨fuel - 1, by omega⟩
    obtain ⟨hlast, hs⟩ := hp
    refine ⟨s, ?_, hs.symm, by simp [excelRows], hw, by simp [eventPagesTrace],
      by simp [eventPagesTrace, eventFetches]⟩
    cases link with
    | none => rfl
    | some l => simp [eventPageLoop, hlast l rfl]
  | cons p rest ih =>
    intro link s fuel hp hw hc hf
    obtain ⟨f, rfl⟩ : ∃ f, fuel = f + 1 := ⟨fuel - 1, by omega⟩
    obtain ⟨page, next⟩ := p
    obtain ⟨l, s2, hl, hres, hget, hrest⟩ := hp
    subst hl
    obtain ⟨sa, ea, hsvca, houta, hnfa, hloga⟩ :=
      buildAndRender_events fmt exp hr issue page
        { s with svc := s2, log := s.log ++ [Call.GetPage l.Next .events] } hw ht
        (hc (page, next) (by simp))
    obtain ⟨sb, eb, hsvcb, houtb, hnfb, hlogb, hcnt⟩ :=
      ih next sa f (by rw [hsvca]; exact hrest) hnfa
        (fun q hq => hc q (by simp [hq])) (by simp at hf; omega)
    refine ⟨sb, ?_, hsvcb, ?_, hnfb, ?_, ?_⟩
    · simp only [eventPageLoop, hres, if_true, hget, ea]
      exact eb
    · rw [houtb, houta]; simp [excelRows_append]
    · rw [hlogb, hloga]; simp [eventPagesTrace]
    · simp only [eventFetches] at hcnt
      simp [eventPagesTrace, eventFetches, List.countP_append, Call.isEventFetch, hcnt]

theorem pageRows_events (ie : IssueEvents)
    (ht : ie.issue.FirstSeen.isSome ∧ ie.issue.LastSeen.isSome)
    (hc : ∀ ev ∈ ie.events, ev.DateCreated.isSome) :
    pageRows ie.issue ie.events
      = pageRows ie.issue ie.first
        ++ (ie.later.map (fun p => pageRows ie.issue p.1)).flatten := by
  obtain ⟨base, _, hall⟩ := build_base ie.issue ht
  have hc1 : ∀ ev ∈ ie.first, ev.DateCreated.isSome :=
    fun ev hev => hc ev (by simp [IssueEvents.events, hev])
  have hc2 : ∀ p ∈ ie.later, ∀ ev ∈ p.1, ev.DateCreated.isSome := by
    intro p hp ev hev
    apply hc ev
    simp only [IssueEvents.events, List.mem_append, List.mem_flatten, List.mem_map]
    exact Or.inr ⟨p.1, ⟨p, hp, rfl⟩, hev⟩
  have hl : ie.later.map (fun p => pageRows ie.issue p.1)
      = ie.later.map (fun p => p.1.map (eventRecord base)) :=
    List.map_congr_left (fun p hp => (hall p.1 (hc2 p hp)).2)
  rw [(hall _ hc).2, (hall _ hc1).2, hl]
  simp [IssueEvents.events, List.map_flatten, Function.comp_def]

theorem renderIssuesWithEvents_ok {σ : Type} (fmt : Time → GoString) (exp : Exporter σ)
    (hr : exp.Renderer = NewExcelCSVRenderer) (fuel : Nat) (s1 : σ) :
    ∀ (ies : List IssueEvents) (s : World σ),
      ServesIssueEvents exp.Client s.svc ies s1 → s.out.NeverFails →
      (∀ ie ∈ ies, ie.issue.FirstSeen.isSome ∧ ie.issue.LastSeen.isSome) →
      (∀ ie ∈ ies, ∀ ev ∈ ie.events, ev.DateCreated.isSome) →
      (∀ ie ∈ ies, ie.later.length < fuel) →
      ∃ final, renderIssuesWithEvents fmt exp fuel (ies.map (fun ie => ie.issue)) s
          = some (final, Exit.ok)
        ∧ final.svc = s1
        ∧ final.out.written = s.out.written ++ excelRows fmt
            (ies.map (fun ie => pageRows ie.issue ie.events)).flatten
        ∧ final.out.NeverFails
        ∧ final.log = s.log ++ (ies.map issueEventsTrace).flatten
        ∧ ∀ ie ∈ ies, eventFetches (issueEventsTrace ie) = ie.later.length + 1 := by
  intro ies
  induction ies with
  | nil =>
    intro s hp hw _ _ _
    exact ⟨s, rfl, hp.symm, by simp [excelRows], hw, by simp, by simp⟩
  | cons ie rest ih =>
    intro s hp hw ht hc hf
    obtain ⟨s2, s3, hget, hpages, hrest⟩ := hp
    have hti := ht ie (by simp)
    have hci := hc ie (by simp)
    have hc1 : ∀ ev ∈ ie.first, ev.DateCreated.isSome :=
      fun ev hev => hci ev (by simp [IssueEvents.events, hev])
    have hc2 : ∀ p ∈ ie.later, ∀ ev ∈ p.1, ev.DateCreated.isSome := by
      intro p hp ev hev
      apply hci ev
      simp only [IssueEvents.events, List.mem_append, List.mem_flatten, List.mem_map]
      exact Or.inr ⟨p.1, ⟨p, hp, rfl⟩, hev⟩
    obtain ⟨sa, ea, hsvca, houta, hnfa, hloga⟩ :=
      buildAndRender_events fmt exp hr ie.issue ie.first
        { s with svc := s2, log := s.log ++ [Call.GetIssueEvents ie.issue] } hw hti hc1
    obtain ⟨sb, eb, hsvcb, houtb, hnfb, hlogb, hcnt⟩ :=
      eventPageLoop_ok fmt exp hr ie.issue hti s3 ie.later ie.link sa fuel
        (by rw [hsvca]; exact hpages) hnfa hc2 (hf ie (by simp))
    obtain ⟨sc, ec, hsvcc, houtc, hnfc, hlogc, hcntc⟩ :=
      ih sb (by rw [hsvcb]; exact hrest) hnfb (fun i hi => ht i (by simp [hi]))
        (fun i hi => hc i (by simp [hi])) (fun i hi => hf i (by simp [hi]))
    refine ⟨sc, ?_, hsvcc, ?_, hnfc, ?_, ?_⟩
    · simp only [List.map_cons, renderIssuesWithEvents, hget, ea, eb]
      exact ec
    · rw [houtc, houtb, houta]
      simp [excelRows_append, pageRows_events ie hti hci]
    · rw [hlogc, hlogb, hloga]
      simp [issueEventsTrace]
    · intro i hi
      simp only [List.mem_cons] at hi
      rcases hi with rfl | hi
      · simp only [eventFetches] at hcnt
        simp [issueEventsTrace, eventFetches, List.countP_append, Call.isEventFetch, hcnt]
      · exact hcntc i hi

set_option maxRecDepth 100000 in
/-- C11, as stated, fails on two kinds of input.  With one event page whose
event has a nil creation date, `RenderIssues` panics and no row is rendered
for that event.  With two event pages and a sink whose first write fails,
`RenderIssues` returns an error after a single event-page fetch. -/
theorem C11_event_rows_need_dates_and_sink :
    ((mockEventsExporter [] [[undatedEvent]] false).RenderIssues sampleFormat 5 [sampleIssue]
        World.start).map (fun p => (p.2, p.1.out.written, eventFetches p.1.log))
      = some (Exit.panic, [], 1)
    ∧ ((mockEventsExporter [] [[sampleEvent], [sampleEvent2]] false).RenderIssues sampleFormat 5
        [sampleIssue] { World.start with out := Writer.failingAfter 0 }).map
          (fun p => (p.2, p.1.out.written, eventFetches p.1.log))
      = some (Exit.error (.wrapped "failed to render results" [] .sink), [], 1) := by
  decide

/-- C11, amended: with expansion enabled, the Excel renderer on a sink that
never fails, every issue having first-seen and last-seen present and every
event its creation date, and the service returning the events of each issue
as m >= 1 non-nil pages (the first listing and `later`), each but the last
with a cursor that signals more results: for every bound `fuel >= m` on the
rounds of the event-page loops, `RenderIssues` returns without error; its
calls are, issue after issue, the first event listing, the rendering of that
page, and for each later page the cursor fetch and the rendering of that page,
so exactly m event-page fetches are made for an issue; and what is written is
one row per event, in page order and then in-page order, each row with the
issue fields of its issue, the rows of an earlier issue before those of a
later one. -/
theorem C11_render_issues_with_events {σ : Type} (fmt : Time → GoString) (exp : Exporter σ)
    (s : World σ) (fuel : Nat) (s1 : σ) (ies : List IssueEvents)
    (hc : exp.config.IncludeEvents = true)
    (hr : exp.Renderer = NewExcelCSVRenderer)
    (hw : s.out.NeverFails)
    (hp : ServesIssueEvents exp.Client s.svc ies s1)
    (ht : ∀ ie ∈ ies, ie.issue.FirstSeen.isSome ∧ ie.issue.LastSeen.isSome)
    (hd : ∀ ie ∈ ies, ∀ ev ∈ ie.events, ev.DateCreated.isSome)
    (hf : ∀ ie ∈ ies, ie.later.length + 1 ≤ fuel) :
    ∃ final, exp.RenderIssues fmt fuel (ies.map (fun ie => ie.issue)) s = some (final, Exit.ok)
      ∧ final.log = s.log ++ (ies.map issueEventsTrace).flatten
      ∧ (∀ ie ∈ ies, eventFetches (issueEventsTrace ie) = ie.later.length + 1)
      ∧ final.out.written = s.out.written
          ++ excelRows fmt (ies.map (fun ie => pageRows ie.issue ie.events)).flatten
      ∧ (∀ ie ∈ ies, ∃ base, BuildExporterResultsForSingleIssue ie.issue none = some [base]
          ∧ pageRows ie.issue ie.events = ie.events.map (eventRecord base)) := by
  obtain ⟨final, e, _, hout, _, hlog, hcnt⟩ :=
    renderIssuesWithEvents_ok fmt exp hr fuel s1 ies s hp hw ht hd
      (fun ie hie => by have := hf ie hie; omega)
  refine ⟨final, ?_, hlog, hcnt, hout, fun ie hie => ?_⟩
  · simp only [Exporter.RenderIssues, hc, if_true]
    exact e
  · obtain ⟨base, hb, hall⟩ := build_base ie.issue (ht ie hie)
    exact ⟨base, hb, (hall _ (hd ie hie)).2⟩

set_option maxRecDepth 100000 in
/-- C11, amended, at the mock service that returns for the sample issue the
two event pages `[sampleEvent2]` and `[sampleEvent]`, with the bound 2. -/
theorem C11_render_issues_with_events_witness :
    ∃ final,
      (mockEventsExporter [] [[sampleEvent2], [sampleEvent]] false).RenderIssues sampleFormat 2
        [sampleIssue] World.start = some (final, Exit.ok)
      ∧ eventFetches final.log = 2
      ∧ final.out.written = excelRows sampleFormat
          [eventRecord sampleSummary sampleEvent2, eventRecord sampleSummary sampleEvent] := by
  obtain ⟨final, h, hlog, _, hout, _⟩ :=
    C11_render_issues_with_events sampleFormat
      (mockEventsExporter [] [[sampleEvent2], [sampleEvent]] false) World.start 2 2
      [⟨sampleIssue, [sampleEvent2], some ⟨⟨0, false⟩, ⟨1, true⟩⟩,
        [([sampleEvent], some ⟨⟨0, true⟩, ⟨2, false⟩⟩)]⟩]
      rfl rfl (fun _ => rfl)
      ⟨1, 2, rfl, ⟨_, _, rfl, rfl, rfl, ⟨fun l hl => by cases hl; rfl, rfl⟩⟩, rfl⟩
      (by decide) (by decide) (by decide)
  refine ⟨final, h, ?_, ?_⟩
  · rw [hlog]
    decide
  · rw [hout]
    decide

/-- C13: take the Excel renderer and a run of `Export` in which a call on the
remote client (organization lookup, project lookup, issue listing or
issue-page fetch, event listing or event-page fetch) returns an error.  Then
`Export` returns an error; exactly one remote call has failed; the calls of the
run are `RenderHeader`, then calls on the client and renderings of rows, then
the failing call, then the deferred `Fini`, so that no remote call, no
`RenderPartialResults` and no `RenderFooter` follows the failing call; the
sink holds what it held before, the header row and the rows of the pages
rendered before the failure; and that is an initial part of what any run from
the same state that makes the same calls up to the failure and ends without
error has written.  Such runs end: when every chain of cursors of the service
ends within n fetches, `Export` with a bound `fuel > n` returns. -/
theorem C13_remote_failure_aborts {σ : Type} (fmt : Time → GoString) (exp : Exporter σ)
    (fuel : Nat) (s : World σ) (hr : exp.Renderer = NewExcelCSVRenderer) :
    (∀ final x, exp.Export fmt fuel s = some (final, x) → final.failures ≠ s.failures →
      ∃ e t call svc0,
        x = Exit.error e
        ∧ final.failures = s.failures + 1
        ∧ Fails exp svc0 call
        ∧ call.isRemote = true
        ∧ final.log = s.log ++ Call.RenderHeader :: t ++ [call, Call.Fini]
        ∧ (∀ c ∈ t, c.isStep = true)
        ∧ Call.RenderHeader ∉ t ∧ Call.RenderFooter ∉ t ∧ Call.Fini ∉ t
        ∧ final.out.written = s.out.written ++ excelHeader ++ traceBytes fmt t
        ∧ ∀ (exp2 : Exporter σ) (fuel2 : Nat) (final2 : World σ) (t2 : List Call),
            exp2.Renderer = NewExcelCSVRenderer →
            exp2.Export fmt fuel2 s = some (final2, Exit.ok) →
            final2.log = s.log ++ Call.RenderHeader :: t ++ t2 →
            final.out.written <+: final2.out.written)
    ∧ (∀ n, n < fuel → PagingEndsWithin exp.Client n →
        ∃ final x, exp.Export fmt fuel s = some (final, x)) := by
  refine ⟨?_, fun n hf hp =>
    Export_returns fmt exp (by rw [hr]; decide) n fuel hf hp s⟩
  intro final x h hfail
  unfold Exporter.Export at h
  cases hb : exportBody fmt exp fuel s with
  | none => simp [hb] at h
  | some sx =>
    obtain ⟨s1, x1⟩ := sx
    simp only [hb, Option.some.injEq, Prod.mk.injEq] at h
    obtain ⟨rfl, rfl⟩ := h
    obtain ⟨t, hl, _, hbytes, hf⟩ := exportBody_run fmt exp fuel s s1 x1 hb
    have hne : s1.failures ≠ s.failures := hfail
    rcases hf with hf | ⟨hf, ⟨e, he⟩, t0, call, svc0, ht, hst, hF⟩
    · exact absurd hf hne
    · have hw := hbytes hr (Or.inr hne)
      have hcall : traceBytes fmt [call] = [] :=
        traceBytes_remote fmt [call] (fun c hc => by
          rw [List.mem_singleton.1 hc]; exact hF.isRemote)
      have hwritten : s1.out.written = s.out.written ++ excelHeader ++ traceBytes fmt t0 := by
        have h1 : traceBytes fmt (Call.RenderHeader :: t0)
            = excelHeader ++ traceBytes fmt t0 := by simp [traceBytes]
        rw [hw, ht, traceBytes_append, hcall, h1]
        simp
      obtain ⟨n1, n2, n3⟩ := not_mem_of_isStep t0 hst
      refine ⟨e, t0, call, svc0, he, hf, hF, hF.isRemote, ?_, hst, n1, n2, n3, hwritten, ?_⟩
      · show s1.log ++ [Call.Fini] = _
        rw [hl, ht]
        simp
      · intro exp2 fuel2 final2 t2 hr2 h2 hlog2
        unfold Exporter.Export at h2
        cases hb2 : exportBody fmt exp2 fuel2 s with
        | none => simp [hb2] at h2
        | some sy =>
          obtain ⟨s2, x2⟩ := sy
          simp only [hb2, Option.some.injEq, Prod.mk.injEq] at h2
          obtain ⟨rfl, rfl⟩ := h2
          obtain ⟨u, hu, _, hbytes2, _⟩ := exportBody_run fmt exp2 fuel2 s s2 Exit.ok hb2
          have hw2 := hbytes2 hr2 (Or.inl rfl)
          have hlog2' : s2.log ++ [Call.Fini] = s.log ++ Call.RenderHeader :: t0 ++ t2 := hlog2
          have hu2 : u ++ [Call.Fini] = Call.RenderHeader :: t0 ++ t2 := by
            rw [hu, List.append_assoc, List.append_assoc] at hlog2'
            exact List.append_cancel_left hlog2'
          have hb3 : traceBytes fmt u
              = excelHeader ++ traceBytes fmt t0 ++ traceBytes fmt t2 := by
            have h3 := congrArg (traceBytes fmt) hu2
            rw [traceBytes_append, List.cons_append, traceBytes] at h3
            simp only [traceBytes, List.append_nil] at h3
            rw [h3, traceBytes_append]
            simp
          refine ⟨traceBytes fmt t2, ?_⟩
          show s1.out.written ++ traceBytes fmt t2 = s2.out.written
          rw [hwritten, hw2, hb3]
          simp

set_option maxRecDepth 100000 in
/-- C13 at the flaky mock service that returns one issue and its events in two
pages: the run in which the fetch of the second event page fails returns the
wrapped error after one failed call, its last calls are that fetch and `Fini`,
and the sink holds the header row and the row of the first event page, an
initial part of what the run without failure writes.  The runs in which the
organization lookup, the project lookup or the fetch of the second issue page
fails are evaluated as well: each returns the wrapped error after one failed
call, with the header row, and the rows of the first page, in the sink. -/
theorem C13_remote_failure_aborts_witness :
    ∃ final final2,
      (flakyExporter [[sampleIssue]] [[sampleEvent], [sampleEvent2]] true 4).Export
          sampleFormat 2 World.start
        = some (final, Exit.error (.wrapped "failed to retrieve events for issue %s"
            [ascii "1"] (.remote 500)))
      ∧ final.failures = 1
      ∧ final.log = [Call.RenderHeader, Call.GetOrganization (ascii "acme"),
          Call.GetProject ⟨some (ascii "acme")⟩ (ascii "web"), Call.GetIssues,
          Call.GetIssueEvents sampleIssue,
          Call.RenderPartialResults [eventRecord sampleSummary sampleEvent],
          Call.GetPage ⟨1, true⟩ .events, Call.Fini]
      ∧ final.out.written
          = excelHeader ++ excelRows sampleFormat [eventRecord sampleSummary sampleEvent]
      ∧ (flakyExporter [[sampleIssue]] [[sampleEvent], [sampleEvent2]] true 100).Export
          sampleFormat 2 World.start = some (final2, Exit.ok)
      ∧ final2.out.written
          = excelHeader ++ excelRows sampleFormat
              [eventRecord sampleSummary sampleEvent, eventRecord sampleSummary sampleEvent2]
      ∧ final.out.written <+: final2.out.written
      ∧ final2.failures = 0
      ∧ ((flakyExporter [[sampleIssue]] [] false 0).Export sampleFormat 2 World.start).map
            (fun p => (p.2, p.1.failures, p.1.out.written))
          = some (Exit.error (.wrapped "failed to retrieve organization %s" [ascii "acme"]
              (.remote 500)), 1, excelHeader)
      ∧ ((flakyExporter [[sampleIssue]] [] false 1).Export sampleFormat 2 World.start).map
            (fun p => (p.2, p.1.failures, p.1.out.written))
          = some (Exit.error (.wrapped "failed to retrieve project %s in organization %s"
              [ascii "web", ascii "acme"] (.remote 500)), 1, excelHeader)
      ∧ ((flakyExporter [[sampleIssue], [sampleIssue2]] [] false 3).Export sampleFormat 2
            World.start).map (fun p => (p.2, p.1.failures, p.1.out.written))
          = some (Exit.error (.wrapped "failed to retrieve issues" [] (.remote 500)), 1,
              excelHeader ++ excelRows sampleFormat [sampleSummary]) := by
  have hs : ((flakyExporter [[sampleIssue]] [[sampleEvent], [sampleEvent2]] true 4).Export
      sampleFormat 2 World.start).map (fun p => (p.2, p.1.failures, p.1.log, p.1.out.written))
      = some (Exit.error (.wrapped "failed to retrieve events for issue %s"
            [ascii "1"] (.remote 500)), 1,
          [Call.RenderHeader, Call.GetOrganization (ascii "acme"),
            Call.GetProject ⟨some (ascii "acme")⟩ (ascii "web"), Call.GetIssues,
            Call.GetIssueEvents sampleIssue,
            Call.RenderPartialResults [eventRecord sampleSummary sampleEvent],
            Call.GetPage ⟨1, true⟩ .events, Call.Fini],
          excelHeader ++ excelRows sampleFormat [eventRecord sampleSummary sampleEvent]) := by
    decide
  have hs2 : ((flakyExporter [[sampleIssue]] [[sampleEvent], [sampleEvent2]] true 100).Export
      sampleFormat 2 World.start).map (fun p => (p.2, p.1.failures, p.1.log, p.1.out.written))
      = some (Exit.ok, 0,
          [Call.RenderHeader, Call.GetOrganization (ascii "acme"),
            Call.GetProject ⟨some (ascii "acme")⟩ (ascii "web"), Call.GetIssues,
            Call.GetIssueEvents sampleIssue,
            Call.RenderPartialResults [eventRecord sampleSummary sampleEvent],
            Call.GetPage ⟨1, true⟩ .events,
            Call.RenderPartialResults [eventRecord sampleSummary sampleEvent2],
            Call.RenderFooter, Call.Fini],
          excelHeader ++ excelRows sampleFormat
            [eventRecord sampleSummary sampleEvent, eventRecord sampleSummary sampleEvent2]) := by
    decide
  obtain ⟨⟨final, x⟩, h, hx⟩ := Option.map_eq_some'.1 hs
  obtain ⟨⟨final2, x2⟩, h2, hx2⟩ := Option.map_eq_some'.1 hs2
  simp only [Prod.mk.injEq] at hx hx2
  obtain ⟨rfl, hf1, hL, hW⟩ := hx
  obtain ⟨rfl, hf2, hL2, hW2⟩ := hx2
  obtain ⟨e, t, call, svc0, _, _, _, _, hlog, _, _, _, _, _, hpre⟩ :=
    (C13_remote_failure_aborts sampleFormat
      (flakyExporter [[sampleIssue]] [[sampleEvent], [sampleEvent2]] true 4) 2 World.start
      rfl).1 final _ h (by rw [hf1]; decide)
  have ht : t = [Call.GetOrganization (ascii "acme"),
      Call.GetProject ⟨some (ascii "acme")⟩ (ascii "web"), Call.GetIssues,
      Call.GetIssueEvents sampleIssue,
      Call.RenderPartialResults [eventRecord sampleSummary sampleEvent]] := by
    rw [hL] at hlog
    have h3 : [Call.GetOrganization (ascii "acme"),
        Call.GetProject ⟨some (ascii "acme")⟩ (ascii "web"), Call.GetIssues,
        Call.GetIssueEvents sampleIssue,
        Call.RenderPartialResults [eventRecord sampleSummary sampleEvent]]
        ++ [Call.GetPage ⟨1, true⟩ .events, Call.Fini] = t ++ [call, Call.Fini] := by
      simpa [World.start] using hlog
    exact (List.append_inj' h3 rfl).1.symm
  refine ⟨final, final2, h, hf1, hL, hW, h2, hW2, ?_, hf2, by decide, by decide, by decide⟩
  refine hpre (flakyExporter [[sampleIssue]] [[sampleEvent], [sampleEvent2]] true 100) 2 final2
    [Call.GetPage ⟨1, true⟩ .events,
      Call.RenderPartialResults [eventRecord sampleSummary sampleEvent2],
      Call.RenderFooter, Call.Fini] rfl h2 ?_
  rw [hL2, ht]
  rfl

end Export
